import Mathlib

/-! # Hierarchical state machine engine (lib/hsm)

A shallow embedding of `lib/hsm/src/hsm.c` and `lib/hsm/include/hsm/hsm.h`.

* A pointer to a state is an address (`Nat`) into state memory, `none` is `NULL`.
  State memory is the field `states` of the environment; states are never
  mutated, so it is fixed during a run.
* Callbacks are integrator code.  As in `hsm_test_sm.c`, an entry or exit
  callback is described by what it prints on the console, and a signal handler
  by a finite script of console output and `hsm_transition` calls together
  with its return code.  Every callback receives the machine; what it does may
  depend on the current state pointer it sees there.
* The world carries the machine and three logs: the callbacks invoked (with the
  current state pointer seen at the call), the console output, and the accesses
  to `h_cur_state` (with the depth at which the guard was held).
* `hsm_raise` has a loop over parent pointers, which need not terminate when
  the parent pointers form a cycle; it takes a fuel and answers `none` when the
  fuel runs out.
-/

namespace HSM

/-! ## Data model -/

/-- One step of a signal handler's script: `console_printf` or `hsm_transition(hsm, dst)`. -/
inductive Action where
  | print (msg : String)
  | transition (dst : Option Nat)

/-- The type `hsm_entry_fn`: given the current state pointer of the machine it is
called with, the lines the callback prints. -/
abbrev hsm_entry_fn := Option Nat → List String

/-- The type `hsm_exit_fn`: as `hsm_entry_fn`. -/
abbrev hsm_exit_fn := Option Nat → List String

/-- The type `hsm_signal_fn`: given the current state pointer of the machine and
the signal, the script the handler runs and the code it returns
(`HSM_SIG_STATUS_HANDLED` is 0). -/
abbrev hsm_signal_fn := Option Nat → Int → List Action × Int

/-- The struct `hsm_state_s`. -/
structure hsm_state_s where
  hst_parent : Option Nat
  hst_on_entry : Option hsm_entry_fn
  hst_on_exit : Option hsm_exit_fn
  hst_on_signal : hsm_signal_fn
  hst_state_num : Int

/-- Modelled from the spec: the host mutex of `os/os.h`, which is not among the
sources.  The guard offers a blocking acquire and a release; the engine nests
acquisitions (`hsm_exit` and `hsm_raise` call `hsm_transition` while holding
it), so the guard is a hold depth of the calling task. -/
structure os_mutex where
  mu_level : Nat
deriving DecidableEq, Repr

/-- The struct `hsm_s`. -/
structure hsm_s where
  h_top : Option Nat
  h_on_entry : Option hsm_entry_fn
  h_on_exit : Option hsm_exit_fn
  h_cur_state : Option Nat
  h_lock : os_mutex

/-- What the engine is linked against: state memory and the outcome of the host
mutex primitives (0 is success). -/
structure Env where
  states : Nat → hsm_state_s
  mutex_init_rc : Int
  mutex_pend_rc : Int

/-- A callback the engine can invoke. -/
inductive Call where
  | machine_entry
  | machine_exit
  | state_entry (s : Nat)
  | state_exit (s : Nat)
  | signal (s : Nat) (sig : Int) (rc : Int)
deriving DecidableEq, Repr

/-- One invocation of a callback, with the value of `h_cur_state` at the call. -/
structure Invocation where
  call : Call
  cur : Option Nat
deriving DecidableEq, Repr

/-- An access to `h_cur_state`, with the hold depth of the guard at the access. -/
inductive Access where
  | read (level : Nat)
  | write (v : Option Nat) (level : Nat)
deriving DecidableEq, Repr

/-- The machine together with the logs, oldest entry first. -/
structure World where
  hsm : hsm_s
  calls : List Invocation
  console : List String
  accesses : List Access

/-! ## Host mutex -/

/-- Modelled from the spec: `os_mutex_init`, returning its code and the mutex. -/
def os_mutex_init (env : Env) (mu : os_mutex) : Int × os_mutex :=
  if env.mutex_init_rc = 0 then (0, { mu_level := 0 }) else (env.mutex_init_rc, mu)

/-- Modelled from the spec: `os_mutex_pend` with `OS_TIMEOUT_NEVER`; a failed
acquisition leaves the mutex as it was. -/
def os_mutex_pend (env : Env) (mu : os_mutex) : Int × os_mutex :=
  if env.mutex_pend_rc = 0 then (0, { mu_level := mu.mu_level + 1 }) else (env.mutex_pend_rc, mu)

/-- Modelled from the spec: `os_mutex_release`; releasing a mutex that is not
held fails and leaves it as it was. -/
def os_mutex_release (mu : os_mutex) : Int × os_mutex :=
  if mu.mu_level = 0 then (1, mu) else (0, { mu_level := mu.mu_level - 1 })

/-! ## Bookkeeping -/

/-- The call `os_mutex_pend(&hsm->h_lock, OS_TIMEOUT_NEVER)`, its code discarded. -/
def lock (env : Env) (w : World) : World :=
  { w with hsm := { w.hsm with h_lock := (os_mutex_pend env w.hsm.h_lock).2 } }

/-- The call `os_mutex_release(&hsm->h_lock)`, its code discarded. -/
def unlock (w : World) : World :=
  { w with hsm := { w.hsm with h_lock := (os_mutex_release w.hsm.h_lock).2 } }

/-- Record a read of `h_cur_state`. -/
def note_read (w : World) : World :=
  { w with accesses := w.accesses ++ [Access.read w.hsm.h_lock.mu_level] }

/-- The assignment `hsm->h_cur_state = v`, recorded. -/
def set_cur (w : World) (v : Option Nat) : World :=
  { w with
    hsm := { w.hsm with h_cur_state := v }
    accesses := w.accesses ++ [Access.write v w.hsm.h_lock.mu_level] }

/-- Invoke an entry or exit callback: record the call and append what it prints. -/
def invoke (w : World) (c : Call) (f : Option Nat → List String) : World :=
  { w with
    calls := w.calls ++ [{ call := c, cur := w.hsm.h_cur_state }]
    console := w.console ++ f w.hsm.h_cur_state }

/-! ## The engine -/

/-- The function `hsm_is_active`. -/
def hsm_is_active (hsm : hsm_s) : Bool :=
  hsm.h_cur_state != none

/-- The function `hsm_get_current_state`. -/
def hsm_get_current_state (env : Env) (hsm : hsm_s) : Int :=
  if !hsm_is_active hsm then -1
  else
    match hsm.h_cur_state with
    | some s => (env.states s).hst_state_num
    | none => 0  -- not reached: the machine is active

/-- The function `hsm_init`, returning its code and the world. -/
def hsm_init (env : Env) (w : World) (top : Option Nat) (entry : Option hsm_entry_fn)
    (exit : Option hsm_exit_fn) : Int × World :=
  match top with
  | none => (1, w)
  | some _ =>
    let hsm1 := { w.hsm with h_top := top, h_on_entry := entry, h_on_exit := exit }
    let r := os_mutex_init env hsm1.h_lock
    let w1 := { w with hsm := { hsm1 with h_lock := r.2 } }
    if r.1 ≠ 0 then (r.1, w1)
    else (0, set_cur w1 none)

/-- The function `hsm_transition`. -/
def hsm_transition (env : Env) (w : World) (dst : Option Nat) : World :=
  let w := lock env w
  let w := note_read w
  let src := w.hsm.h_cur_state
  let w :=
    match src with
    | some s =>
      match (env.states s).hst_on_exit with
      | some f => invoke w (Call.state_exit s) f
      | none => w
    | none => w
  let w := set_cur w dst
  let w :=
    match dst with
    | some d =>
      match (env.states d).hst_on_entry with
      | some f => invoke w (Call.state_entry d) f
      | none => w
    | none => w
  unlock w

/-- The function `hsm_enter`. -/
def hsm_enter (env : Env) (w : World) : World :=
  let w := note_read w
  if hsm_is_active w.hsm then w
  else
    let w :=
      match w.hsm.h_on_entry with
      | some f => invoke w Call.machine_entry f
      | none => w
    hsm_transition env w w.hsm.h_top

/-- The function `hsm_exit`. -/
def hsm_exit (env : Env) (w : World) : World :=
  let w := note_read w
  if !hsm_is_active w.hsm then w
  else
    let w := lock env w
    let w := hsm_transition env w none
    let w :=
      match w.hsm.h_on_exit with
      | some f => invoke w Call.machine_exit f
      | none => w
    unlock w

/-- Run the script of a signal handler. -/
def run_actions (env : Env) : List Action → World → World
  | [], w => w
  | Action.print msg :: rest, w => run_actions env rest { w with console := w.console ++ [msg] }
  | Action.transition dst :: rest, w => run_actions env rest (hsm_transition env w dst)

/-- Call `current->hst_on_signal(hsm, signal)`: record the call with the code
it returns, run its script, and give the code back. -/
def call_signal (env : Env) (w : World) (current : Nat) (signal : Int) : Int × World :=
  let r := (env.states current).hst_on_signal w.hsm.h_cur_state signal
  let w := { w with
    calls := w.calls ++ [{ call := Call.signal current signal r.2, cur := w.hsm.h_cur_state }] }
  (r.2, run_actions env r.1 w)

/-- The `do ... while` loop of `hsm_raise`, one iteration per unit of fuel. -/
def hsm_raise_loop (env : Env) (signal : Int) : Nat → Nat → World → Option World
  | 0, _, _ => none
  | fuel + 1, current, w =>
    let r := call_signal env w current signal
    match (env.states current).hst_parent with
    | some parent => if r.1 ≠ 0 then hsm_raise_loop env signal fuel parent r.2 else some r.2
    | none => some r.2

/-- The function `hsm_raise`; `none` when the fuel does not suffice. -/
def hsm_raise (env : Env) (fuel : Nat) (w : World) (signal : Int) : Option World :=
  let w := note_read w
  if !hsm_is_active w.hsm then some w
  else
    let w := lock env w
    let w := note_read w
    match w.hsm.h_cur_state with
    | some current => (hsm_raise_loop env signal fuel current w).map unlock
    | none => none  -- not reached: the machine is active

/-! ## Vocabulary of the properties -/

/-- The list `s0, s1, ..., sn` is the parent chain of `s0`: each next state is
the parent of the one before it and the last one has no parent. -/
def is_parent_chain (env : Env) : List Nat → Bool
  | [] => false
  | [s] => (env.states s).hst_parent == none
  | s :: t :: rest => (env.states s).hst_parent == some t && is_parent_chain env (t :: rest)

/-- A signal-handler invocation as the state whose handler ran and the code it returned. -/
def signal_call : Invocation → Option (Nat × Int)
  | ⟨Call.signal s _ rc, _⟩ => some (s, rc)
  | _ => none

/-- The signal handlers among the invocations, in order. -/
def handlers_invoked (calls : List Invocation) : List (Nat × Int) :=
  calls.filterMap signal_call

/-- The invocation of the exit callback of `src`, when there is a state `src`
and it defines one; it runs while `src` is still current. -/
def exit_call (env : Env) (src : Option Nat) : List Invocation :=
  match src with
  | some s => if (env.states s).hst_on_exit.isSome then [⟨Call.state_exit s, some s⟩] else []
  | none => []

/-- The invocation of the entry callback of `dst`, when there is a state `dst`
and it defines one; it runs when `dst` is already current. -/
def entry_call (env : Env) (dst : Option Nat) : List Invocation :=
  match dst with
  | some d => if (env.states d).hst_on_entry.isSome then [⟨Call.state_entry d, some d⟩] else []
  | none => []

/-- The invocation of the machine-level entry callback, when the machine defines one. -/
def machine_entry_call (hsm : hsm_s) : List Invocation :=
  if hsm.h_on_entry.isSome then [⟨Call.machine_entry, hsm.h_cur_state⟩] else []

/-- The invocation of the machine-level exit callback, when the machine defines
one, seeing the current state pointer `cur`. -/
def machine_exit_call (hsm : hsm_s) (cur : Option Nat) : List Invocation :=
  if hsm.h_on_exit.isSome then [⟨Call.machine_exit, cur⟩] else []

/-- The state id that goes with a state pointer: the `hst_state_num` of the
state, and -1 for no state. -/
def state_id (env : Env) : Option Nat → Int
  | some s => (env.states s).hst_state_num
  | none => -1

/-- The value most recently assigned to `h_cur_state` according to the access
log, `none` when the log holds no assignment. -/
def last_write : List Access → Option (Option Nat)
  | [] => none
  | Access.write v _ :: rest =>
    match last_write rest with
    | some v' => some v'
    | none => some v
  | Access.read _ :: rest => last_write rest

/-- The access log agrees with the machine: the value most recently assigned to
`h_cur_state` is the value it holds. -/
def cur_logged (w : World) : Prop :=
  last_write w.accesses = some w.hsm.h_cur_state

instance (w : World) : Decidable (cur_logged w) := by
  unfold cur_logged
  infer_instance

/-- A call of the driver into the engine. -/
inductive Op where
  | enter
  | exit
  | transition (dst : Option Nat)
  | raise (signal : Int)

/-- Perform one call; each `hsm_raise` gets the fuel `fuel`. -/
def apply_op (env : Env) (fuel : Nat) (w : World) : Op → Option World
  | Op.enter => some (hsm_enter env w)
  | Op.exit => some (hsm_exit env w)
  | Op.transition dst => some (hsm_transition env w dst)
  | Op.raise signal => hsm_raise env fuel w signal

/-- Perform a sequence of calls, first to last. -/
def run_ops (env : Env) (fuel : Nat) : List Op → World → Option World
  | [], w => some w
  | op :: rest, w =>
    match apply_op env fuel w op with
    | some w' => run_ops env fuel rest w'
    | none => none

/-! ## The demonstration machine of `hsm_test_sm.c` -/

/-- The signal `HSM_TEST_SIGNAL_FLIP`. -/
def HSM_TEST_SIGNAL_FLIP : Int := 0

/-- The signal `HSM_TEST_SIGNAL_FLOP`. -/
def HSM_TEST_SIGNAL_FLOP : Int := 1

/-- The signal `HSM_TEST_SIGNAL_FLOOP`. -/
def HSM_TEST_SIGNAL_FLOOP : Int := 2

/-- The address of `hsm_test_state_flip` in state memory. -/
def flip_addr : Nat := 0

/-- The address of `hsm_test_state_flop` in state memory. -/
def flop_addr : Nat := 1

/-- The address of `hsm_test_state_floop` in state memory. -/
def floop_addr : Nat := 2

/-- The handler `on_flip_signal`. -/
def on_flip_signal : hsm_signal_fn := fun _ signal =>
  if signal = HSM_TEST_SIGNAL_FLIP then ([Action.print "Already flipped\n"], 0)
  else if signal = HSM_TEST_SIGNAL_FLOP then ([Action.transition (some flop_addr)], 0)
  else if signal = HSM_TEST_SIGNAL_FLOOP then ([Action.print "Can't floop until you flop\n"], 0)
  else ([], 1)

/-- The handler `on_flop_signal`. -/
def on_flop_signal : hsm_signal_fn := fun _ signal =>
  if signal = HSM_TEST_SIGNAL_FLIP then ([Action.transition (some flip_addr)], 0)
  else if signal = HSM_TEST_SIGNAL_FLOP then ([Action.print "Already flopped\n"], 0)
  else if signal = HSM_TEST_SIGNAL_FLOOP then ([Action.transition (some floop_addr)], 0)
  else ([], 1)

/-- The handler `on_floop_signal`. -/
def on_floop_signal : hsm_signal_fn := fun _ signal =>
  if signal = HSM_TEST_SIGNAL_FLOP then ([Action.transition (some flop_addr)], 0)
  else if signal = HSM_TEST_SIGNAL_FLOOP then ([Action.print "Already flooped\n"], 0)
  else ([], 1)

/-- The state `hsm_test_state_flip`. -/
def hsm_test_state_flip : hsm_state_s :=
  { hst_parent := none
    hst_on_entry := some (fun _ => ["You flipped\n"])
    hst_on_exit := some (fun _ => ["After flipping...\n"])
    hst_on_signal := on_flip_signal
    hst_state_num := 0 }

/-- The state `hsm_test_state_flop`. -/
def hsm_test_state_flop : hsm_state_s :=
  { hst_parent := none
    hst_on_entry := some (fun _ => ["You flopped\n"])
    hst_on_exit := some (fun _ => ["After flopping...\n"])
    hst_on_signal := on_flop_signal
    hst_state_num := 1 }

/-- The state `hsm_test_state_floop`. -/
def hsm_test_state_floop : hsm_state_s :=
  { hst_parent := some flop_addr
    hst_on_entry := some (fun _ => ["You flooped\n"])
    hst_on_exit := some (fun _ => ["After flooping...\n"])
    hst_on_signal := on_floop_signal
    hst_state_num := 2 }

/-- State memory of the demonstration and a host whose mutex primitives succeed. -/
def hsm_test_env : Env :=
  { states := fun a =>
      if a = flop_addr then hsm_test_state_flop
      else if a = floop_addr then hsm_test_state_floop
      else hsm_test_state_flip
    mutex_init_rc := 0
    mutex_pend_rc := 0 }

/-- The machine `hsm_test_sm` as statically initialised. -/
def hsm_test_sm : hsm_s :=
  { h_top := some flip_addr
    h_on_entry := some (fun _ => ["Flip and flop, but don't floop until you flop\n"])
    h_on_exit := some (fun _ => ["Done with the flip, flop, floop\n"])
    h_cur_state := none
    h_lock := { mu_level := 0 } }

/-- The demonstration machine before any call, with empty logs. -/
def hsm_test_world : World :=
  { hsm := hsm_test_sm, calls := [], console := [], accesses := [] }

/-! ## A three-level chain: leaf, mid, root -/

/-- State memory with `leaf` at 0, its parent `mid` at 1, the parentless `root`
at 2, a further parentless state at 3 and a state without callbacks
everywhere else.  The leaf handles nothing, `mid` handles signal 7 only, the
others handle everything; the state ids are 10, 11, 12, 13 and -1. -/
def chain_env : Env :=
  { states := fun a =>
      if a = 0 then
        { hst_parent := some 1
          hst_on_entry := some (fun _ => ["leaf entry"])
          hst_on_exit := some (fun _ => ["leaf exit"])
          hst_on_signal := fun _ _ => ([], 1), hst_state_num := 10 }
      else if a = 1 then
        { hst_parent := some 2
          hst_on_entry := some (fun _ => ["mid entry"])
          hst_on_exit := some (fun _ => ["mid exit"])
          hst_on_signal := fun _ signal => if signal = 7 then ([], 0) else ([], 1)
          hst_state_num := 11 }
      else if a = 2 then
        { hst_parent := none
          hst_on_entry := some (fun _ => ["root entry"])
          hst_on_exit := some (fun _ => ["root exit"])
          hst_on_signal := fun _ _ => ([], 0), hst_state_num := 12 }
      else if a = 3 then
        { hst_parent := none
          hst_on_entry := some (fun _ => ["other entry"])
          hst_on_exit := some (fun _ => ["other exit"])
          hst_on_signal := fun _ _ => ([], 0), hst_state_num := 13 }
      else
        { hst_parent := none, hst_on_entry := none, hst_on_exit := none
          hst_on_signal := fun _ _ => ([], 0), hst_state_num := -1 }
    mutex_init_rc := 0
    mutex_pend_rc := 0 }

/-- A machine over `chain_env` whose current state is `cur`, with empty logs. -/
def chain_world (cur : Option Nat) : World :=
  { hsm :=
      { h_top := some 2, h_on_entry := some (fun _ => ["machine entry"])
        h_on_exit := some (fun _ => ["machine exit"]), h_cur_state := cur
        h_lock := { mu_level := 0 } }
    calls := [], console := [], accesses := [] }

/-! ## Further vocabulary: scripts, guard depth, machine-level callbacks -/

/-- The script calls `hsm_transition` somewhere. -/
def has_transition : List Action → Bool
  | [] => false
  | Action.print _ :: rest => has_transition rest
  | Action.transition _ :: _ => true

/-- The lines a script prints, in order. -/
def printed : List Action → List String
  | [] => []
  | Action.print msg :: rest => msg :: printed rest
  | Action.transition _ :: rest => printed rest

/-- The hold depth of the guard recorded with an access to `h_cur_state`. -/
def access_level : Access → Nat
  | Access.read level => level
  | Access.write _ level => level

/-- The access is an assignment to `h_cur_state`. -/
def is_write : Access → Bool
  | Access.read _ => false
  | Access.write _ _ => true

/-- The invocation is one of the machine-level entry or exit callback. -/
def is_machine_call (inv : Invocation) : Bool :=
  inv.call == Call.machine_entry || inv.call == Call.machine_exit

/-- The machine-level callbacks among the invocations, in order. -/
def machine_calls (calls : List Invocation) : List Call :=
  (calls.filter is_machine_call).map Invocation.call

/-- The machine-level callbacks a sequence of `hsm_enter` and `hsm_exit` calls
is to fire on a machine that defines both: the entry callback for each enter
made while inactive, the exit callback for each exit made while active, none
otherwise.  The flag tells whether the machine is active before the calls. -/
def lifecycle_calls : Bool → List Op → List Call
  | _, [] => []
  | active, Op.enter :: rest =>
    if active then lifecycle_calls true rest
    else Call.machine_entry :: lifecycle_calls true rest
  | active, Op.exit :: rest =>
    if active then Call.machine_exit :: lifecycle_calls false rest
    else lifecycle_calls false rest
  | active, _ :: rest => lifecycle_calls active rest

/-- Machine-level entry and exit strictly alternate in the list; the flag tells
whether an exit is due next (an entry has fired last). -/
def alternates : Bool → List Call → Bool
  | _, [] => true
  | false, Call.machine_entry :: rest => alternates true rest
  | true, Call.machine_exit :: rest => alternates false rest
  | _, _ => false

/-! ## The commands of `hsm_test_cli.c` -/

/-- The command callback `on_enter`. -/
def on_enter (w : World) : World :=
  hsm_enter hsm_test_env w

/-- The command callback `on_exit`. -/
def on_exit (w : World) : World :=
  hsm_exit hsm_test_env w

/-- The command callback `on_flip`. -/
def on_flip (fuel : Nat) (w : World) : Option World :=
  hsm_raise hsm_test_env fuel w HSM_TEST_SIGNAL_FLIP

/-- The command callback `on_flop`. -/
def on_flop (fuel : Nat) (w : World) : Option World :=
  hsm_raise hsm_test_env fuel w HSM_TEST_SIGNAL_FLOP

/-- The command callback `on_floop`. -/
def on_floop (fuel : Nat) (w : World) : Option World :=
  hsm_raise hsm_test_env fuel w HSM_TEST_SIGNAL_FLOOP

/-- The demonstration machine with current state `cur` and empty logs. -/
def hsm_test_world_at (cur : Option Nat) : World :=
  { hsm := { hsm_test_sm with h_cur_state := cur }, calls := [], console := [], accesses := [] }

/-- The three-level chain on a host whose mutex primitives fail:
`os_mutex_init` with code 3 and `os_mutex_pend` with code 9. -/
def chain_env_guard_fails : Env :=
  { chain_env with mutex_init_rc := 3, mutex_pend_rc := 9 }

/-- The same environment on a host whose `os_mutex_pend` succeeds. -/
def guard_acquired (env : Env) : Env :=
  { env with mutex_pend_rc := 0 }

/-- What the exit callback of `src` prints, when there is a state `src` and it
defines one. -/
def exit_output (env : Env) (src : Option Nat) : List String :=
  match src with
  | some s =>
    match (env.states s).hst_on_exit with
    | some f => f (some s)
    | none => []
  | none => []

/-- What the entry callback of `dst` prints, when there is a state `dst` and it
defines one. -/
def entry_output (env : Env) (dst : Option Nat) : List String :=
  match dst with
  | some d =>
    match (env.states d).hst_on_entry with
    | some f => f (some d)
    | none => []
  | none => []

/-- Two worlds agree on everything but the guard and the access log: top state,
machine-level callbacks, current state, callbacks invoked and console. -/
def same_outcome (w1 w2 : World) : Prop :=
  w1.hsm.h_top = w2.hsm.h_top ∧ w1.hsm.h_on_entry = w2.hsm.h_on_entry ∧
  w1.hsm.h_on_exit = w2.hsm.h_on_exit ∧ w1.hsm.h_cur_state = w2.hsm.h_cur_state ∧
  w1.calls = w2.calls ∧ w1.console = w2.console

end HSM

/-! # Command-line parser (lib/cli)

A shallow embedding of `lib/cli/src/cli_parse.c` over the types of
`lib/cli/include/cli/cli_namespace.h`.

* A token is a C string, modelled by the `String` of its characters before the
  terminating NUL.  The vector `argv` is the list of the tokens and `argc` its
  length; a token is read by index and the index is recorded.
* The option array `cmd->opt_list` and the array `arg_list` are memory indexed
  by `Nat`, as the parser sees them through pointers.  The parser writes both;
  the state of a parse holds their contents, the counter `args_found` and two
  logs: the indices of `argv` read and the stores into `arg_list`.
* The loop of `cli_parse_command_args` advances its index by one or two per
  iteration; it is run with a fuel of `argc` iterations, which suffices.
-/

namespace CLI

/-! ## Data model -/

/-- The code `CLI_ERROR_NONE`. -/
def CLI_ERROR_NONE : Int := 0

/-- The code `CLI_ERROR_BAD_ARG`. -/
def CLI_ERROR_BAD_ARG : Int := 1

/-- The code `CLI_ERROR_OPTION_NOT_FOUND`. -/
def CLI_ERROR_OPTION_NOT_FOUND : Int := 2

/-- The code `CLI_ERROR_HELP_REQUESTED`. -/
def CLI_ERROR_HELP_REQUESTED : Int := 3

/-- The struct `cli_option_s`; `arg_value` is a pointer to a token, `none` for `NULL`. -/
structure cli_option_s where
  name : Char
  value : Bool
  has_arg : Bool
  arg_value : Option String
deriving DecidableEq, Repr

/-- The struct `cli_command_s`, without the callback `cb`, which the parser
does not touch.  The field `opt_list` is the memory the pointer refers to. -/
structure cli_command_s where
  name : String
  num_args : Nat
  num_options : Nat
  opt_list : Nat → cli_option_s
  help : Option String

/-- The memory a parse works on, and what it has done so far: the option array,
the array `arg_list`, the counter `args_found`, the indices of `argv` read (one
entry for each token taken up and one for each option argument), and the stores
`arg_list[k] = argv[i]` as pairs `(k, i)`, oldest first. -/
structure ParseState where
  opt_list : Nat → cli_option_s
  arg_list : Nat → Option String
  args_found : Nat
  reads : List Nat
  writes : List (Nat × Nat)

/-- How one iteration of the loop of `cli_parse_command_args` ends: with a
`return`, or with the index the next iteration starts at. -/
inductive Step where
  | ret (rc : Int) (st : ParseState)
  | next (i : Nat) (st : ParseState)

/-! ## The parser -/

/-- The test `strchr(s, c) != NULL`: the character occurs in the string, the
terminating NUL included. -/
def strchr (s : String) (c : Char) : Bool :=
  c == Char.ofNat 0 || s.toList.contains c

/-- The character `s[0]` of a C string: its first character, or NUL when it is empty. -/
def first_char (s : String) : Char :=
  s.toList.headD (Char.ofNat 0)

/-- The function `cli_parse_arg_is_help`. -/
def cli_parse_arg_is_help (arg : String) : Bool :=
  arg == "help" || arg == "--help" || arg == "-h"

/-- The `for` loop of `cli_parse_option` over the options `i`, `i + 1`, ... of
which `n` are left; `argv[0]` of the callee is `argv[base]` and `argc` is the
number of tokens from there on.  Returns the code, the flag `*has_arg` and the
state. -/
def cli_parse_option_loop (argc : Nat) (argv : List String) (base : Nat) :
    Nat → Nat → Bool → Bool → ParseState → Int × Bool × ParseState
  | 0, _, opt_found, has_arg, st =>
    (if opt_found then CLI_ERROR_NONE else CLI_ERROR_OPTION_NOT_FOUND, has_arg, st)
  | n + 1, i, opt_found, has_arg, st =>
    if strchr (argv.getD base "") (st.opt_list i).name then
      if (st.opt_list i).has_arg then
        if argc < 2 then (CLI_ERROR_BAD_ARG, has_arg, st)
        else
          (CLI_ERROR_NONE, true,
            { st with
              opt_list := Function.update st.opt_list i
                { st.opt_list i with value := true, arg_value := some (argv.getD (base + 1) "") }
              reads := st.reads ++ [base + 1] })
      else
        cli_parse_option_loop argc argv base n (i + 1) true has_arg
          { st with
            opt_list := Function.update st.opt_list i { st.opt_list i with value := true } }
    else cli_parse_option_loop argc argv base n (i + 1) opt_found has_arg st

/-- The function `cli_parse_option`, called on the tokens from `argv[base]` on. -/
def cli_parse_option (cmd : cli_command_s) (argc : Nat) (argv : List String) (base : Nat)
    (has_arg : Bool) (st : ParseState) : Int × Bool × ParseState :=
  cli_parse_option_loop argc argv base cmd.num_options 0 false has_arg st

/-- The statements `arg_list[args_found] = argv[i]; args_found++;`. -/
def store_arg (argv : List String) (i : Nat) (st : ParseState) : ParseState :=
  { st with
    arg_list := Function.update st.arg_list st.args_found (some (argv.getD i ""))
    args_found := st.args_found + 1
    writes := st.writes ++ [(st.args_found, i)] }

/-- The body of the loop of `cli_parse_command_args` for the token `argv[i]`.
The flag `skip_next_arg` is false whenever an iteration begins, since the
iteration that sets it resets it. -/
def cli_parse_token (cmd : cli_command_s) (argv : List String) (i : Nat) (st : ParseState) :
    Step :=
  let st := { st with reads := st.reads ++ [i] }
  if cli_parse_arg_is_help (argv.getD i "") then Step.ret CLI_ERROR_HELP_REQUESTED st
  else if first_char (argv.getD i "") = '-' then
    if cmd.num_options = 0 then Step.ret CLI_ERROR_BAD_ARG st
    else
      let r := cli_parse_option cmd (argv.length - i) argv i false st
      if r.1 = CLI_ERROR_BAD_ARG then Step.ret r.1 r.2.2
      else if r.1 = CLI_ERROR_OPTION_NOT_FOUND then
        if cmd.num_args ≠ 0 ∧ r.2.2.args_found < cmd.num_args then
          if r.2.1 then Step.next (i + 1 + 1) (store_arg argv i r.2.2)
          else Step.next (i + 1) (store_arg argv i r.2.2)
        else Step.ret CLI_ERROR_BAD_ARG r.2.2
      else if r.2.1 then Step.next (i + 1 + 1) r.2.2
      else Step.next (i + 1) r.2.2
  else if cmd.num_args ≠ 0 ∧ st.args_found < cmd.num_args then
    Step.next (i + 1) (store_arg argv i st)
  else Step.ret CLI_ERROR_BAD_ARG st

/-- The check after the loop of `cli_parse_command_args`. -/
def cli_parse_finish (cmd : cli_command_s) (st : ParseState) : Int × ParseState :=
  if st.args_found ≠ cmd.num_args then (CLI_ERROR_BAD_ARG, st) else (CLI_ERROR_NONE, st)

/-- The loop of `cli_parse_command_args` from index `i` on, one iteration per
unit of fuel; `none` when the fuel does not suffice. -/
def cli_parse_loop (cmd : cli_command_s) (argv : List String) :
    Nat → Nat → ParseState → Option (Int × ParseState)
  | 0, i, st => if i < argv.length then none else some (cli_parse_finish cmd st)
  | fuel + 1, i, st =>
    if i < argv.length then
      match cli_parse_token cmd argv i st with
      | Step.ret rc st' => some (rc, st')
      | Step.next j st' => cli_parse_loop cmd argv fuel j st'
    else some (cli_parse_finish cmd st)

/-- The state a parse starts in: the options of the command, the array
`arg_list` as the caller hands it over, nothing found, read or stored. -/
def parse_start (cmd : cli_command_s) (arg_list : Nat → Option String) : ParseState :=
  { opt_list := cmd.opt_list, arg_list := arg_list, args_found := 0, reads := [], writes := [] }

/-- The function `cli_parse_command_args`: the code returned and the state of
the memory at the return. -/
def cli_parse_command_args (cmd : cli_command_s) (argv : List String)
    (arg_list : Nat → Option String) : Option (Int × ParseState) :=
  cli_parse_loop cmd argv argv.length 0 (parse_start cmd arg_list)

/-! ## Vocabulary of the properties -/

/-- The loop of `cli_parse_command_args` after `k` iterations none of which
returned: the index and the state the next iteration starts with; `none` when
one of the `k` iterations returned or the loop ended before. -/
def cli_parse_after (cmd : cli_command_s) (argv : List String)
    (arg_list : Nat → Option String) : Nat → Option (Nat × ParseState)
  | 0 => some (0, parse_start cmd arg_list)
  | k + 1 =>
    match cli_parse_after cmd argv arg_list k with
    | some (i, st) =>
      if i < argv.length then
        match cli_parse_token cmd argv i st with
        | Step.ret _ _ => none
        | Step.next j st' => some (j, st')
      else none
    | none => none

/-- Option memory holding the given options, zeroed behind them. -/
def opt_memory (opts : List cli_option_s) : Nat → cli_option_s :=
  fun i => opts.getD i { name := Char.ofNat 0, value := false, has_arg := false, arg_value := none }

/-- The array `arg_list` with every entry `NULL`. -/
def no_args : Nat → Option String :=
  fun _ => none

/-- The stores made so far are in order: they fill `arg_list[0 .. args_found - 1]`
one after the other, from tokens taken in command-line order, and every entry
still holds the token stored into it. -/
def stores_ok (argv : List String) (st : ParseState) : Prop :=
  st.writes.map Prod.fst = List.range st.args_found ∧
  (st.writes.map Prod.snd).Pairwise (· < ·) ∧
  ∀ p ∈ st.writes, p.2 < argv.length ∧ st.arg_list p.1 = some (argv.getD p.2 "")

/-- The option memory after the options `lo`, ..., `hi - 1` whose name character
`strchr` finds in the token have been marked found (`value = true`); every
other entry is as before. -/
def mark_flags (tok : String) (lo hi : Nat) (opts : Nat → cli_option_s) : Nat → cli_option_s :=
  fun j =>
    if lo ≤ j ∧ j < hi ∧ strchr tok (opts j).name = true then { opts j with value := true }
    else opts j

/-- The name character of one of the first `num_options` options occurs in the
token, as `strchr` tests it. -/
def flags_match (tok : String) (num_options : Nat) (opts : Nat → cli_option_s) : Bool :=
  (List.range num_options).any (fun j => strchr tok (opts j).name)

/-- The indices used so far are in range: no more than `num_args` arguments have
been counted, every store went to an index of `arg_list` below `num_args` from a
token of `argv`, and every read of `argv` was at an index below `argc`. -/
def indices_ok (cmd : cli_command_s) (argv : List String) (st : ParseState) : Prop :=
  st.args_found ≤ cmd.num_args ∧
  (∀ p ∈ st.writes, p.1 < cmd.num_args ∧ p.2 < argv.length) ∧
  ∀ j ∈ st.reads, j < argv.length

/-- Some option of the command takes an argument and has its name character in
the token, as `strchr` tests it. -/
def takes_argument (cmd : cli_command_s) (tok : String) : Bool :=
  (List.range cmd.num_options).any
    (fun j => (cmd.opt_list j).has_arg && strchr tok (cmd.opt_list j).name)

/-- Token `i` is consumed as the argument of a preceding option, told from the
tokens alone: the token before it is not itself consumed as an argument, is not
a help string, begins with a dash, and holds the name character of an option of
the command that takes an argument. -/
def consumed_as_argument (cmd : cli_command_s) (argv : List String) : Nat → Bool
  | 0 => false
  | i + 1 =>
    !consumed_as_argument cmd argv i && !cli_parse_arg_is_help (argv.getD i "") &&
      decide (first_char (argv.getD i "") = '-') && takes_argument cmd (argv.getD i "")

/-- The option memory of the state still holds the options of the command, as
far as name and `has_arg` go: the parser writes only `value` and `arg_value`. -/
def opts_same (cmd : cli_command_s) (st : ParseState) : Prop :=
  ∀ j, (st.opt_list j).name = (cmd.opt_list j).name ∧
    (st.opt_list j).has_arg = (cmd.opt_list j).has_arg

/-! ## The sample commands of `cli_namespace.h` -/

/-- The command `echo` of the sample: one argument, no option. -/
def echo_cmd : cli_command_s :=
  { name := "echo", num_args := 1, num_options := 0, opt_list := opt_memory [], help := none }

/-- The options `advertise_opts` of the sample. -/
def advertise_opts : List cli_option_s :=
  [{ name := 's', value := false, has_arg := true, arg_value := none }]

/-- The command `advertise` of the sample: one argument, the option `s` with an argument. -/
def advertise_cmd : cli_command_s :=
  { name := "advertise", num_args := 1, num_options := 1, opt_list := opt_memory advertise_opts
    help := none }

/-- The options `something_opts` of the sample. -/
def something_opts : List cli_option_s :=
  [{ name := 'a', value := false, has_arg := false, arg_value := none },
   { name := 'b', value := false, has_arg := false, arg_value := none },
   { name := 'c', value := false, has_arg := false, arg_value := none }]

/-- The command `something` of the sample: no argument, the flags `a`, `b`, `c`. -/
def something_cmd : cli_command_s :=
  { name := "something", num_args := 0, num_options := 3, opt_list := opt_memory something_opts
    help := none }

/-! ## A command whose option letter is that of a help string -/

/-- A command with no argument and one option `h` that takes an argument. -/
def resize_cmd : cli_command_s :=
  { name := "resize", num_args := 0, num_options := 1
    opt_list := opt_memory [{ name := 'h', value := false, has_arg := true, arg_value := none }]
    help := none }

end CLI

namespace HSM

/-! ## Further vocabulary: bubbling, the current state pointer alone -/

/-- The handler invocations `new` (state and code returned) are what bubbling
along `chain` gives for the codes they record: the first handler is that of the
head of the chain; nothing follows when it returned handled (0) or the chain
ends there; otherwise the rest bubbles along the rest of the chain. -/
def bubbles_along : List Nat → List (Nat × Int) → Bool
  | [], _ => false
  | _ :: _, [] => false
  | s :: rest, (s', rc) :: more =>
    s' == s && (if rc = 0 ∨ rest = [] then more.isEmpty else bubbles_along rest more)

/-- The current state pointer after a script has run, from the pointer before it. -/
def script_cur : List Action → Option Nat → Option Nat
  | [], cur => cur
  | Action.print _ :: rest, cur => script_cur rest cur
  | Action.transition dst :: rest, _ => script_cur rest dst

/-- The current state pointer after the loop of `hsm_raise`, followed through
the handlers on the pointer alone; `none` when the fuel does not suffice. -/
def raise_loop_cur (env : Env) (signal : Int) : Nat → Nat → Option Nat → Option (Option Nat)
  | 0, _, _ => none
  | fuel + 1, current, cur =>
    let r := (env.states current).hst_on_signal cur signal
    match (env.states current).hst_parent with
    | some parent =>
      if r.2 ≠ 0 then raise_loop_cur env signal fuel parent (script_cur r.1 cur)
      else some (script_cur r.1 cur)
    | none => some (script_cur r.1 cur)

/-- The call is one of the commands of the demonstration: enter, exit, or a signal. -/
def is_demo_command : Op → Bool
  | Op.enter => true
  | Op.exit => true
  | Op.raise _ => true
  | Op.transition _ => false

/-- The transition table of the demonstration as `hsm_test_sm.c` sets it up:
the current state after a signal is raised, from the current state before. -/
def demo_next (cur : Option Nat) (signal : Int) : Option Nat :=
  if cur = some flip_addr then
    (if signal = HSM_TEST_SIGNAL_FLOP then some flop_addr else some flip_addr)
  else if cur = some flop_addr then
    (if signal = HSM_TEST_SIGNAL_FLIP then some flip_addr
      else if signal = HSM_TEST_SIGNAL_FLOOP then some floop_addr else some flop_addr)
  else if cur = some floop_addr then
    (if signal = HSM_TEST_SIGNAL_FLOP then some flop_addr
      else if signal = HSM_TEST_SIGNAL_FLIP then some flip_addr else some floop_addr)
  else cur

/-- State memory over the three-level chain whose handlers make transitions
while signal 5 bubbles: the leaf (0) goes to state 3 and reports not handled,
its parent `mid` (1) goes to the root (2) and reports handled; the handlers of
the root and of state 3 report handled and print a line. -/
def detour_env : Env :=
  { states := fun a =>
      if a = 0 then
        { hst_parent := some 1, hst_on_entry := none, hst_on_exit := none
          hst_on_signal := fun _ _ => ([Action.transition (some 3)], 1), hst_state_num := 10 }
      else if a = 1 then
        { hst_parent := some 2, hst_on_entry := none, hst_on_exit := none
          hst_on_signal := fun _ _ => ([Action.transition (some 2)], 0), hst_state_num := 11 }
      else if a = 2 then
        { hst_parent := none, hst_on_entry := none, hst_on_exit := none
          hst_on_signal := fun _ _ => ([Action.print "root handler"], 0), hst_state_num := 12 }
      else
        { hst_parent := none, hst_on_entry := none, hst_on_exit := none
          hst_on_signal := fun _ _ => ([Action.print "other handler"], 0), hst_state_num := 13 }
    mutex_init_rc := 0
    mutex_pend_rc := 0 }

/-! ## The transitions a sequence of calls performs, as the interface describes them -/

/-- The destinations of the transitions a handler script performs, in order. -/
def script_transitions : List Action → List (Option Nat)
  | [] => []
  | Action.print _ :: rest => script_transitions rest
  | Action.transition dst :: rest => dst :: script_transitions rest

/-- The state most recently made current, given the destinations of the
transitions performed so far on a machine that started with no current state:
the destination of the last one, and no state when none has been performed. -/
def last_destination : List (Option Nat) → Option Nat
  | [] => none
  | [d] => d
  | _ :: d :: rest => last_destination (d :: rest)

/-- The transitions performed up to the end of one `raise`, by the interface:
the handler of `current` runs, seeing the state most recently made current, and
performs the transitions of its script; when it reports not handled and
`current` has a parent, the handler of the parent runs next.  The list `dests`
holds the destinations of the transitions performed before. -/
def raise_transitions (env : Env) (signal : Int) :
    Nat → Nat → List (Option Nat) → Option (List (Option Nat))
  | 0, _, _ => none
  | fuel + 1, current, dests =>
    let r := (env.states current).hst_on_signal (last_destination dests) signal
    match (env.states current).hst_parent with
    | some parent =>
      if r.2 ≠ 0 then raise_transitions env signal fuel parent (dests ++ script_transitions r.1)
      else some (dests ++ script_transitions r.1)
    | none => some (dests ++ script_transitions r.1)

/-- The transitions performed up to the end of one call, by the interface: an
enter on an inactive machine performs the transition to `top`, an exit from an
active machine the transition to no state, a transition call its own, a raise
on an active machine those of the handlers it invokes; an enter on an active
machine and an exit or raise on an inactive one perform none. -/
def op_transitions (env : Env) (fuel : Nat) (top : Option Nat) (dests : List (Option Nat)) :
    Op → Option (List (Option Nat))
  | Op.enter =>
    match last_destination dests with
    | none => some (dests ++ [top])
    | some _ => some dests
  | Op.exit =>
    match last_destination dests with
    | none => some dests
    | some _ => some (dests ++ [none])
  | Op.transition dst => some (dests ++ [dst])
  | Op.raise signal =>
    match last_destination dests with
    | none => some dests
    | some s => raise_transitions env signal fuel s dests

/-- The destinations of all transitions performed by a sequence of calls, in
order, after those in `dests`. -/
def transitions_performed (env : Env) (fuel : Nat) (top : Option Nat) :
    List Op → List (Option Nat) → Option (List (Option Nat))
  | [], dests => some dests
  | op :: rest, dests =>
    match op_transitions env fuel top dests op with
    | some dests' => transitions_performed env fuel top rest dests'
    | none => none

/-- The values assigned to the current state pointer according to the access
log, in order. -/
def writes_logged : List Access → List (Option Nat)
  | [] => []
  | Access.write v _ :: rest => v :: writes_logged rest
  | Access.read _ :: rest => writes_logged rest

/-! ## Basic facts about `hsm_transition` -/

theorem hsm_transition_cur (env : Env) (w : World) (dst : Option Nat) :
    (hsm_transition env w dst).hsm.h_cur_state = dst := by
  unfold hsm_transition
  cases hs : w.hsm.h_cur_state <;> cases dst <;>
    simp only [lock, unlock, note_read, set_cur, invoke, hs] <;>
    (repeat' split) <;> rfl

theorem hsm_transition_calls (env : Env) (w : World) (dst : Option Nat) :
    (hsm_transition env w dst).calls
      = w.calls ++ exit_call env w.hsm.h_cur_state ++ entry_call env dst := by
  unfold hsm_transition exit_call entry_call
  cases hs : w.hsm.h_cur_state <;> cases dst <;>
    simp only [lock, unlock, note_read, set_cur, invoke, hs] <;>
    (repeat' split) <;> simp_all

theorem hsm_transition_top (env : Env) (w : World) (dst : Option Nat) :
    (hsm_transition env w dst).hsm.h_top = w.hsm.h_top := by
  unfold hsm_transition
  cases hs : w.hsm.h_cur_state <;> cases dst <;>
    simp only [lock, unlock, note_read, set_cur, invoke, hs] <;>
    (repeat' split) <;> rfl

theorem hsm_transition_on_entry (env : Env) (w : World) (dst : Option Nat) :
    (hsm_transition env w dst).hsm.h_on_entry = w.hsm.h_on_entry := by
  unfold hsm_transition
  cases hs : w.hsm.h_cur_state <;> cases dst <;>
    simp only [lock, unlock, note_read, set_cur, invoke, hs] <;>
    (repeat' split) <;> rfl

theorem hsm_transition_on_exit (env : Env) (w : World) (dst : Option Nat) :
    (hsm_transition env w dst).hsm.h_on_exit = w.hsm.h_on_exit := by
  unfold hsm_transition
  cases hs : w.hsm.h_cur_state <;> cases dst <;>
    simp only [lock, unlock, note_read, set_cur, invoke, hs] <;>
    (repeat' split) <;> rfl

/-! ## Signal handlers in the call log -/

theorem handlers_invoked_append (a b : List Invocation) :
    handlers_invoked (a ++ b) = handlers_invoked a ++ handlers_invoked b := by
  simp [handlers_invoked, List.filterMap_append]

theorem handlers_invoked_exit_call (env : Env) (src : Option Nat) :
    handlers_invoked (exit_call env src) = [] := by
  unfold exit_call
  cases src with
  | none => rfl
  | some s => by_cases h : (env.states s).hst_on_exit.isSome <;> simp [h, handlers_invoked, signal_call]

theorem handlers_invoked_entry_call (env : Env) (dst : Option Nat) :
    handlers_invoked (entry_call env dst) = [] := by
  unfold entry_call
  cases dst with
  | none => rfl
  | some s => by_cases h : (env.states s).hst_on_entry.isSome <;> simp [h, handlers_invoked, signal_call]

theorem handlers_invoked_transition (env : Env) (w : World) (dst : Option Nat) :
    handlers_invoked (hsm_transition env w dst).calls = handlers_invoked w.calls := by
  rw [hsm_transition_calls, handlers_invoked_append, handlers_invoked_append,
    handlers_invoked_exit_call, handlers_invoked_entry_call]
  simp

theorem handlers_invoked_run_actions (env : Env) (acts : List Action) (w : World) :
    handlers_invoked (run_actions env acts w).calls = handlers_invoked w.calls := by
  induction acts generalizing w with
  | nil => rfl
  | cons a rest ih =>
    cases a with
    | print msg => simp only [run_actions]; rw [ih]
    | transition dst => simp only [run_actions]; rw [ih, handlers_invoked_transition]

theorem handlers_invoked_call_signal (env : Env) (w : World) (current : Nat) (signal : Int) :
    handlers_invoked (call_signal env w current signal).2.calls
      = handlers_invoked w.calls ++ [(current, (call_signal env w current signal).1)] := by
  simp only [call_signal]
  rw [handlers_invoked_run_actions, handlers_invoked_append]
  simp [handlers_invoked, signal_call]

/-! ## Parent chains -/

theorem is_parent_chain_cons_cons (env : Env) (s t : Nat) (rest : List Nat) :
    is_parent_chain env (s :: t :: rest)
      = ((env.states s).hst_parent == some t && is_parent_chain env (t :: rest)) := rfl

theorem is_parent_chain_tail (env : Env) (s : Nat) (l : List Nat) (hl : l ≠ [])
    (h : is_parent_chain env (s :: l) = true) : is_parent_chain env l = true := by
  cases l with
  | nil => exact absurd rfl hl
  | cons t rest =>
    rw [is_parent_chain_cons_cons] at h
    simp at h
    exact h.2

theorem is_parent_chain_suffix (env : Env) (a : List Nat) (s : Nat) (b : List Nat)
    (h : is_parent_chain env (a ++ s :: b) = true) : is_parent_chain env (s :: b) = true := by
  induction a with
  | nil => simpa using h
  | cons x a ih =>
    apply ih
    exact is_parent_chain_tail env x (a ++ s :: b) (by simp) h

theorem is_parent_chain_unique (env : Env) (l1 : List Nat) :
    ∀ (s : Nat) (l2 : List Nat), is_parent_chain env (s :: l1) = true →
      is_parent_chain env (s :: l2) = true → l1 = l2 := by
  induction l1 with
  | nil =>
    intro s l2 h1 h2
    cases l2 with
    | nil => rfl
    | cons t l2 =>
      rw [is_parent_chain_cons_cons] at h2
      simp [is_parent_chain] at h1 h2
      rw [h1] at h2
      exact absurd h2.1 (by simp)
  | cons t l1 ih =>
    intro s l2 h1 h2
    rw [is_parent_chain_cons_cons] at h1
    simp at h1
    cases l2 with
    | nil =>
      simp [is_parent_chain] at h2
      rw [h2] at h1
      exact absurd h1.1 (by simp)
    | cons t2 l2 =>
      rw [is_parent_chain_cons_cons] at h2
      simp at h2
      have ht : t = t2 := by
        have := h1.1.symm.trans h2.1
        simpa using this
      subst ht
      rw [ih t l2 h1.2 h2.2]

theorem is_parent_chain_nodup (env : Env) (l : List Nat)
    (h : is_parent_chain env l = true) : l.Nodup := by
  induction l with
  | nil => exact List.nodup_nil
  | cons s l ih =>
    by_cases hl : l = []
    · subst hl; simp
    · have htail := is_parent_chain_tail env s l hl h
      refine List.nodup_cons.mpr ⟨?_, ih htail⟩
      intro hmem
      obtain ⟨a, b, hab⟩ := List.append_of_mem hmem
      have hsuf : is_parent_chain env (s :: b) = true := by
        apply is_parent_chain_suffix env a s b
        rw [← hab]; exact htail
      have hb := is_parent_chain_unique env b s l hsuf h
      have hlen := congrArg List.length hab
      rw [← hb] at hlen
      simp at hlen
      omega

/-! ## Bubbling -/

theorem hsm_raise_loop_bubbles (env : Env) (signal : Int) (rest : List Nat) :
    ∀ (s0 fuel : Nat) (w : World), is_parent_chain env (s0 :: rest) = true →
      rest.length + 1 ≤ fuel →
      ∃ w' new, hsm_raise_loop env signal fuel s0 w = some w' ∧
        handlers_invoked w'.calls = handlers_invoked w.calls ++ new ∧
        new ≠ [] ∧ new.map Prod.fst <+: s0 :: rest ∧
        (∀ p ∈ new.dropLast, p.2 ≠ 0) ∧
        (∀ p, new.getLast? = some p → p.2 = 0 ∨ new.length = rest.length + 1) := by
  induction rest with
  | nil =>
    intro s0 fuel w hchain hfuel
    obtain ⟨f, rfl⟩ : ∃ f, fuel = f + 1 := ⟨fuel - 1, by simp at hfuel; omega⟩
    have hp : (env.states s0).hst_parent = none := by simpa [is_parent_chain] using hchain
    refine ⟨(call_signal env w s0 signal).2, [(s0, (call_signal env w s0 signal).1)], ?_, ?_, ?_⟩
    · simp [hsm_raise_loop, hp]
    · exact handlers_invoked_call_signal env w s0 signal
    · simp
  | cons t rest ih =>
    intro s0 fuel w hchain hfuel
    obtain ⟨f, rfl⟩ : ∃ f, fuel = f + 1 := ⟨fuel - 1, by simp at hfuel; omega⟩
    rw [is_parent_chain_cons_cons] at hchain
    simp at hchain
    have hp : (env.states s0).hst_parent = some t := hchain.1
    by_cases hrc : (call_signal env w s0 signal).1 = 0
    · refine ⟨(call_signal env w s0 signal).2, [(s0, (call_signal env w s0 signal).1)], ?_, ?_, ?_⟩
      · simp [hsm_raise_loop, hp, hrc]
      · exact handlers_invoked_call_signal env w s0 signal
      · simp [hrc]
    · have hf : rest.length + 1 ≤ f := by simp at hfuel; omega
      obtain ⟨w', tail, hrun, hcalls, hne, hpre, hmid, hlast⟩ :=
        ih t f (call_signal env w s0 signal).2 hchain.2 hf
      refine ⟨w', (s0, (call_signal env w s0 signal).1) :: tail, ?_, ?_, ?_, ?_, ?_, ?_⟩
      · simp [hsm_raise_loop, hp, hrc, hrun]
      · rw [hcalls, handlers_invoked_call_signal]; simp
      · simp
      · simpa [List.cons_prefix_cons] using hpre
      · intro p hmem
        rw [List.dropLast_cons_of_ne_nil hne] at hmem
        rcases List.mem_cons.mp hmem with h | h
        · rw [h]; exact hrc
        · exact hmid p h
      · intro p hp'
        obtain ⟨b, tl, rfl⟩ := List.exists_cons_of_ne_nil hne
        rw [List.getLast?_cons_cons] at hp'
        rcases hlast p hp' with h | h
        · exact Or.inl h
        · right; simp only [List.length_cons] at h ⊢; omega

/-! ## Claims -/

/-- C1 (signal bubbling).  On an active machine whose current state `s0` has the
finite parent chain `s0 :: rest` (the last state has no parent), `hsm_raise`
with fuel for the chain returns, and the signal handlers it invokes are those
of a non-empty initial segment of the chain, in chain order and each once;
every handler before the last one invoked returned not handled, and the last
one invoked returned handled (0) or is the handler of the end of the chain.
So no handler above the first one that reported handled is invoked. -/
theorem raise_bubbles (env : Env) (w : World) (signal : Int) (s0 : Nat) (rest : List Nat)
    (fuel : Nat) (hcur : w.hsm.h_cur_state = some s0)
    (hchain : is_parent_chain env (s0 :: rest) = true) (hfuel : rest.length + 1 ≤ fuel) :
    ∃ w' new, hsm_raise env fuel w signal = some w' ∧
      handlers_invoked w'.calls = handlers_invoked w.calls ++ new ∧
      new ≠ [] ∧ new.map Prod.fst <+: s0 :: rest ∧ (new.map Prod.fst).Nodup ∧
      (∀ p ∈ new.dropLast, p.2 ≠ 0) ∧
      (∀ p, new.getLast? = some p → p.2 = 0 ∨ new.length = rest.length + 1) := by
  obtain ⟨w', new, hrun, hcalls, hne, hpre, hmid, hlast⟩ :=
    hsm_raise_loop_bubbles env signal rest s0 fuel (note_read (lock env (note_read w))) hchain hfuel
  refine ⟨unlock w', new, ?_, ?_, hne, hpre, ?_, hmid, hlast⟩
  · have hact : hsm_is_active (note_read w).hsm = true := by
      simp [hsm_is_active, note_read, hcur]
    have hcur' : (note_read (lock env (note_read w))).hsm.h_cur_state = some s0 := by
      simp [note_read, lock, hcur]
    simp only [hsm_raise, hact, hcur', hrun]
    rfl
  · rw [show (unlock w').calls = w'.calls from rfl, hcalls]
    rfl
  · exact (is_parent_chain_nodup env _ hchain).sublist hpre.sublist

/-- Bubbling on the chain leaf (0), mid (1), root (2); the leaf does not
handle signal 7 and mid does, so exactly the handlers of leaf and mid run. -/
theorem raise_bubbles_witness :
    (handlers_invoked (chain_world (some 0)).calls = [] ∧
      (hsm_raise chain_env 3 (chain_world (some 0)) 7).map (fun w' => handlers_invoked w'.calls)
        = some [(0, 1), (1, 0)]) ∧
    ∃ w' new, hsm_raise chain_env 3 (chain_world (some 0)) 7 = some w' ∧
      handlers_invoked w'.calls = handlers_invoked (chain_world (some 0)).calls ++ new ∧
      new ≠ [] ∧ new.map Prod.fst <+: [0, 1, 2] ∧ (new.map Prod.fst).Nodup ∧
      (∀ p ∈ new.dropLast, p.2 ≠ 0) ∧
      (∀ p, new.getLast? = some p → p.2 = 0 ∨ new.length = [1, 2].length + 1) :=
  ⟨by decide, raise_bubbles chain_env (chain_world (some 0)) 7 0 [1, 2] 3 rfl (by decide) (by decide)⟩

/-- C2 (flat transition).  A transition to a present state `d` invokes exactly:
the exit callback of the state that was current before the call (when there
was one and it defines the callback), then the entry callback of `d` (when it
defines one); afterwards `d` is current.  Every callback invoked is thus the
exit callback of the old current state or the entry callback of `d`, never a
callback of a parent or of any other state, and a transition from `d` to `d`
itself runs the exit callback of `d` and then its entry callback. -/
theorem transition_flat (env : Env) (w : World) (d : Nat) :
    (∃ new, (hsm_transition env w (some d)).calls = w.calls ++ new ∧
      new = exit_call env w.hsm.h_cur_state ++ entry_call env (some d) ∧
      ∀ inv ∈ new, (∃ s, w.hsm.h_cur_state = some s ∧ inv.call = Call.state_exit s)
        ∨ inv.call = Call.state_entry d) ∧
    (hsm_transition env w (some d)).hsm.h_cur_state = some d ∧
    (hsm_transition env { w with hsm := { w.hsm with h_cur_state := some d } } (some d)).calls
        = w.calls ++ (exit_call env (some d) ++ entry_call env (some d)) := by
  refine ⟨⟨_, ?_, rfl, ?_⟩, hsm_transition_cur env w (some d), ?_⟩
  · rw [hsm_transition_calls, List.append_assoc]
  · intro inv hinv
    rcases List.mem_append.mp hinv with h | h
    · left
      unfold exit_call at h
      cases hs : w.hsm.h_cur_state with
      | none => simp [hs] at h
      | some s =>
        by_cases hx : (env.states s).hst_on_exit.isSome
        · simp [hs, hx] at h
          subst h
          exact ⟨s, rfl, rfl⟩
        · simp [hs, hx] at h
    · right
      unfold entry_call at h
      by_cases hx : (env.states d).hst_on_entry.isSome
      · simp [hx] at h
        subst h
        rfl
      · simp [hx] at h
  · rw [hsm_transition_calls, List.append_assoc]

/-- A flat transition: from the leaf (0, parent mid) to the unrelated state 3 only
the leaf's exit callback and the entry callback of 3 run, in that order. -/
theorem transition_flat_witness :
    (hsm_transition chain_env (chain_world (some 0)) (some 3)).calls
        = [⟨Call.state_exit 0, some 0⟩, ⟨Call.state_entry 3, some 3⟩] ∧
    (hsm_transition chain_env (chain_world (some 0)) (some 3)).hsm.h_cur_state = some 3 :=
  ⟨by
    obtain ⟨new, h1, h2, _⟩ := (transition_flat chain_env (chain_world (some 0)) 3).1
    rw [h1, h2]
    decide,
   (transition_flat chain_env (chain_world (some 0)) 3).2.1⟩

/-! ## Entering and exiting -/

theorem hsm_enter_from_none (env : Env) (w : World) (hcur : w.hsm.h_cur_state = none) :
    (hsm_enter env w).calls = w.calls ++ (machine_entry_call w.hsm ++ entry_call env w.hsm.h_top) ∧
    (hsm_enter env w).hsm.h_cur_state = w.hsm.h_top := by
  have hact : hsm_is_active (note_read w).hsm = false := by
    simp [hsm_is_active, note_read, hcur]
  unfold hsm_enter
  simp only [hact, Bool.false_eq_true, if_false]
  constructor
  · rw [hsm_transition_calls]
    cases he : w.hsm.h_on_entry <;>
      simp [note_read, invoke, he, machine_entry_call, exit_call, hcur]
  · rw [hsm_transition_cur]
    cases he : w.hsm.h_on_entry <;> simp [note_read, invoke, he]

theorem hsm_enter_active (env : Env) (w : World) (hact : hsm_is_active w.hsm = true) :
    (hsm_enter env w).hsm = w.hsm ∧ (hsm_enter env w).calls = w.calls ∧
      (hsm_enter env w).console = w.console := by
  have hact' : hsm_is_active (note_read w).hsm = true := hact
  unfold hsm_enter
  simp only [hact', if_true]
  exact ⟨rfl, rfl, rfl⟩

theorem hsm_exit_inactive (env : Env) (w : World) (hcur : w.hsm.h_cur_state = none) :
    (hsm_exit env w).hsm = w.hsm ∧ (hsm_exit env w).calls = w.calls ∧
      (hsm_exit env w).console = w.console := by
  have hact : hsm_is_active (note_read w).hsm = false := by
    simp [hsm_is_active, note_read, hcur]
  unfold hsm_exit
  simp only [hact]
  exact ⟨rfl, rfl, rfl⟩

theorem hsm_exit_from_some (env : Env) (w : World) (s : Nat) (hcur : w.hsm.h_cur_state = some s) :
    (hsm_exit env w).calls = w.calls ++ (exit_call env (some s) ++ machine_exit_call w.hsm none) ∧
    (hsm_exit env w).hsm.h_cur_state = none := by
  have hact : hsm_is_active (note_read w).hsm = true := by
    simp [hsm_is_active, note_read, hcur]
  unfold hsm_exit
  simp only [hact]
  have hc := hsm_transition_cur env (lock env (note_read w)) none
  have hx : (hsm_transition env (lock env (note_read w)) none).hsm.h_on_exit = w.hsm.h_on_exit :=
    hsm_transition_on_exit env (lock env (note_read w)) none
  have hl : (hsm_transition env (lock env (note_read w)) none).calls
      = w.calls ++ exit_call env (some s) := by
    rw [hsm_transition_calls]
    simp [lock, note_read, hcur, entry_call]
  generalize hsm_transition env (lock env (note_read w)) none = w2 at hc hx hl
  cases he : w.hsm.h_on_exit with
  | none =>
    rw [he] at hx
    simp [hx, unlock, hl, hc, machine_exit_call, he]
  | some f =>
    rw [he] at hx
    simp [hx, unlock, invoke, hl, hc, machine_exit_call, he]

theorem mem_machine_entry_call (hsm : hsm_s) (inv : Invocation)
    (h : inv ∈ machine_entry_call hsm) : inv = ⟨Call.machine_entry, hsm.h_cur_state⟩ := by
  unfold machine_entry_call at h
  by_cases hx : hsm.h_on_entry.isSome <;> simp [hx] at h
  exact h

theorem mem_machine_exit_call (hsm : hsm_s) (cur : Option Nat) (inv : Invocation)
    (h : inv ∈ machine_exit_call hsm cur) : inv = ⟨Call.machine_exit, cur⟩ := by
  unfold machine_exit_call at h
  by_cases hx : hsm.h_on_exit.isSome <;> simp [hx] at h
  exact h

theorem mem_entry_call (env : Env) (d : Nat) (inv : Invocation)
    (h : inv ∈ entry_call env (some d)) : inv = ⟨Call.state_entry d, some d⟩ := by
  unfold entry_call at h
  by_cases hx : (env.states d).hst_on_entry.isSome <;> simp [hx] at h
  exact h

theorem mem_exit_call (env : Env) (s : Nat) (inv : Invocation)
    (h : inv ∈ exit_call env (some s)) : inv = ⟨Call.state_exit s, some s⟩ := by
  unfold exit_call at h
  by_cases hx : (env.states s).hst_on_exit.isSome <;> simp [hx] at h
  exact h

theorem hsm_get_current_state_some (env : Env) (hsm : hsm_s) (s : Nat)
    (hcur : hsm.h_cur_state = some s) :
    hsm_get_current_state env hsm = (env.states s).hst_state_num := by
  simp [hsm_get_current_state, hsm_is_active, hcur]

theorem hsm_get_current_state_none (env : Env) (hsm : hsm_s) (hcur : hsm.h_cur_state = none) :
    hsm_get_current_state env hsm = -1 := by
  simp [hsm_get_current_state, hsm_is_active, hcur]

/-- C3 (enter on an inactive machine).  With no current state and top state
`t`, `hsm_enter` invokes the machine-level entry callback (when present, and
seeing the machine still inactive) and then the entry callback of `t` (when
present), and nothing else; afterwards `t` is current, `hsm_is_active` is true
and `hsm_get_current_state` is the state id of `t`. -/
theorem enter_inactive (env : Env) (w : World) (t : Nat) (hcur : w.hsm.h_cur_state = none)
    (htop : w.hsm.h_top = some t) :
    (∃ new, (hsm_enter env w).calls = w.calls ++ new ∧
      new = machine_entry_call w.hsm ++ entry_call env (some t) ∧
      ∀ inv ∈ new, inv = ⟨Call.machine_entry, none⟩ ∨ inv = ⟨Call.state_entry t, some t⟩) ∧
    (hsm_enter env w).hsm.h_cur_state = some t ∧
    hsm_is_active (hsm_enter env w).hsm = true ∧
    hsm_get_current_state env (hsm_enter env w).hsm = (env.states t).hst_state_num := by
  obtain ⟨hcalls, hc⟩ := hsm_enter_from_none env w hcur
  rw [htop] at hcalls hc
  refine ⟨⟨_, hcalls, rfl, ?_⟩, hc, ?_, hsm_get_current_state_some env _ t hc⟩
  · intro inv hinv
    rcases List.mem_append.mp hinv with h | h
    · left; rw [mem_machine_entry_call _ _ h, hcur]
    · right; exact mem_entry_call env t inv h
  · simp [hsm_is_active, hc]

/-- Entering the inactive machine over the three-level chain,
whose top state is the root (2). -/
theorem enter_inactive_witness :
    (hsm_enter chain_env (chain_world none)).calls
        = [⟨Call.machine_entry, none⟩, ⟨Call.state_entry 2, some 2⟩] ∧
    (hsm_enter chain_env (chain_world none)).console = ["machine entry", "root entry"] ∧
    hsm_get_current_state chain_env (hsm_enter chain_env (chain_world none)).hsm = 12 ∧
    ((∃ new, (hsm_enter chain_env (chain_world none)).calls = (chain_world none).calls ++ new ∧
      new = machine_entry_call (chain_world none).hsm ++ entry_call chain_env (some 2) ∧
      ∀ inv ∈ new, inv = ⟨Call.machine_entry, none⟩ ∨ inv = ⟨Call.state_entry 2, some 2⟩) ∧
    (hsm_enter chain_env (chain_world none)).hsm.h_cur_state = some 2 ∧
    hsm_is_active (hsm_enter chain_env (chain_world none)).hsm = true ∧
    hsm_get_current_state chain_env (hsm_enter chain_env (chain_world none)).hsm
      = (chain_env.states 2).hst_state_num) :=
  ⟨by decide, by decide, by decide, enter_inactive chain_env (chain_world none) 2 rfl rfl⟩

/-- C4 (exit on an active machine).  With current state `s`, `hsm_exit` invokes
the exit callback of `s` (when present) and then the machine-level exit
callback (when present), and nothing else: no exit callback of another state,
no entry callback.  The machine-level exit callback sees no current state.
Afterwards there is no current state, `hsm_is_active` is false and
`hsm_get_current_state` is -1. -/
theorem exit_active (env : Env) (w : World) (s : Nat) (hcur : w.hsm.h_cur_state = some s) :
    (∃ new, (hsm_exit env w).calls = w.calls ++ new ∧
      new = exit_call env (some s) ++ machine_exit_call w.hsm none ∧
      ∀ inv ∈ new, inv = ⟨Call.state_exit s, some s⟩ ∨ inv = ⟨Call.machine_exit, none⟩) ∧
    (hsm_exit env w).hsm.h_cur_state = none ∧
    hsm_is_active (hsm_exit env w).hsm = false ∧
    hsm_get_current_state env (hsm_exit env w).hsm = -1 := by
  obtain ⟨hcalls, hc⟩ := hsm_exit_from_some env w s hcur
  refine ⟨⟨_, hcalls, rfl, ?_⟩, hc, ?_, hsm_get_current_state_none env _ hc⟩
  · intro inv hinv
    rcases List.mem_append.mp hinv with h | h
    · left; exact mem_exit_call env s inv h
    · right; exact mem_machine_exit_call _ _ inv h
  · simp [hsm_is_active, hc]

/-- Exiting the machine over the three-level chain while the
leaf (0) is current; the exit callbacks of mid and root do not run. -/
theorem exit_active_witness :
    (hsm_exit chain_env (chain_world (some 0))).calls
        = [⟨Call.state_exit 0, some 0⟩, ⟨Call.machine_exit, none⟩] ∧
    (hsm_exit chain_env (chain_world (some 0))).console = ["leaf exit", "machine exit"] ∧
    ((∃ new, (hsm_exit chain_env (chain_world (some 0))).calls
        = (chain_world (some 0)).calls ++ new ∧
      new = exit_call chain_env (some 0) ++ machine_exit_call (chain_world (some 0)).hsm none ∧
      ∀ inv ∈ new, inv = ⟨Call.state_exit 0, some 0⟩ ∨ inv = ⟨Call.machine_exit, none⟩) ∧
    (hsm_exit chain_env (chain_world (some 0))).hsm.h_cur_state = none ∧
    hsm_is_active (hsm_exit chain_env (chain_world (some 0))).hsm = false ∧
    hsm_get_current_state chain_env (hsm_exit chain_env (chain_world (some 0))).hsm = -1) :=
  ⟨by decide, by decide, exit_active chain_env (chain_world (some 0)) 0 rfl⟩

/-- Entering twice in a row is entering once, from any machine that is active or
has a top state: the machine, the call log and the console agree. -/
theorem hsm_enter_twice (env : Env) (w : World)
    (h : hsm_is_active w.hsm = true ∨ w.hsm.h_top ≠ none) :
    (hsm_enter env (hsm_enter env w)).hsm = (hsm_enter env w).hsm ∧
    (hsm_enter env (hsm_enter env w)).calls = (hsm_enter env w).calls ∧
    (hsm_enter env (hsm_enter env w)).console = (hsm_enter env w).console := by
  apply hsm_enter_active
  by_cases hact : hsm_is_active w.hsm = true
  · rw [(hsm_enter_active env w hact).1]; exact hact
  · have htop : w.hsm.h_top ≠ none := h.resolve_left hact
    have hcur : w.hsm.h_cur_state = none := by
      simpa [hsm_is_active] using hact
    simp [hsm_is_active, (hsm_enter_from_none env w hcur).2, htop]

/-- C5 (idempotent enter).  On an active machine `hsm_enter` invokes no callback
and prints nothing, and leaves every field of the machine as it was; so a
second `hsm_enter` in a row changes nothing either. -/
theorem enter_idempotent (env : Env) (w : World) (hact : hsm_is_active w.hsm = true) :
    ((hsm_enter env w).hsm = w.hsm ∧ (hsm_enter env w).calls = w.calls ∧
      (hsm_enter env w).console = w.console) ∧
    ((hsm_enter env (hsm_enter env w)).hsm = (hsm_enter env w).hsm ∧
      (hsm_enter env (hsm_enter env w)).calls = (hsm_enter env w).calls ∧
      (hsm_enter env (hsm_enter env w)).console = (hsm_enter env w).console) :=
  ⟨hsm_enter_active env w hact, hsm_enter_twice env w (Or.inl hact)⟩

/-- Entering twice: the machine over the three-level chain with the leaf current. -/
theorem enter_idempotent_witness :
    hsm_is_active (chain_world (some 0)).hsm = true ∧
    (((hsm_enter chain_env (chain_world (some 0))).hsm = (chain_world (some 0)).hsm ∧
      (hsm_enter chain_env (chain_world (some 0))).calls = (chain_world (some 0)).calls ∧
      (hsm_enter chain_env (chain_world (some 0))).console = (chain_world (some 0)).console) ∧
    ((hsm_enter chain_env (hsm_enter chain_env (chain_world (some 0)))).hsm
        = (hsm_enter chain_env (chain_world (some 0))).hsm ∧
      (hsm_enter chain_env (hsm_enter chain_env (chain_world (some 0)))).calls
        = (hsm_enter chain_env (chain_world (some 0))).calls ∧
      (hsm_enter chain_env (hsm_enter chain_env (chain_world (some 0)))).console
        = (hsm_enter chain_env (chain_world (some 0))).console)) :=
  ⟨by decide, enter_idempotent chain_env (chain_world (some 0)) (by decide)⟩

/-- C6 (an inactive machine ignores raise and exit).  With no current state,
`hsm_raise` returns for every signal and whatever the fuel, `hsm_exit` returns,
and both leave the machine (every field, so still no current state), the call
log and the console as they were. -/
theorem inactive_ignores_raise_exit (env : Env) (w : World) (signal : Int) (fuel : Nat)
    (hcur : w.hsm.h_cur_state = none) :
    (∃ w', hsm_raise env fuel w signal = some w' ∧
      w'.hsm = w.hsm ∧ w'.calls = w.calls ∧ w'.console = w.console) ∧
    ((hsm_exit env w).hsm = w.hsm ∧ (hsm_exit env w).calls = w.calls ∧
      (hsm_exit env w).console = w.console) ∧
    (hsm_exit env w).hsm.h_cur_state = none := by
  have hx := hsm_exit_inactive env w hcur
  refine ⟨⟨note_read w, ?_, rfl, rfl, rfl⟩, hx, ?_⟩
  · have hact : hsm_is_active (note_read w).hsm = false := by
      simp [hsm_is_active, note_read, hcur]
    simp [hsm_raise, hact]
  · rw [hx.1]; exact hcur

/-- Raise and exit on the demonstration machine before it is entered, signal FLOP,
no fuel at all. -/
theorem inactive_ignores_raise_exit_witness :
    hsm_test_world.hsm.h_cur_state = none ∧
    ((∃ w', hsm_raise hsm_test_env 0 hsm_test_world HSM_TEST_SIGNAL_FLOP = some w' ∧
      w'.hsm = hsm_test_world.hsm ∧ w'.calls = hsm_test_world.calls ∧
      w'.console = hsm_test_world.console) ∧
    ((hsm_exit hsm_test_env hsm_test_world).hsm = hsm_test_world.hsm ∧
      (hsm_exit hsm_test_env hsm_test_world).calls = hsm_test_world.calls ∧
      (hsm_exit hsm_test_env hsm_test_world).console = hsm_test_world.console) ∧
    (hsm_exit hsm_test_env hsm_test_world).hsm.h_cur_state = none) :=
  ⟨rfl, inactive_ignores_raise_exit hsm_test_env hsm_test_world HSM_TEST_SIGNAL_FLOP 0 rfl⟩

/-- C7 (init rejects a missing top state).  Called without a top state,
`hsm_init` returns the non-zero code 1 and leaves the world as it was: every
field of the machine, no callback invoked, nothing printed. -/
theorem init_rejects_null_top (env : Env) (w : World) (entry : Option hsm_entry_fn)
    (exit : Option hsm_exit_fn) :
    (hsm_init env w none entry exit).1 = 1 ∧ (hsm_init env w none entry exit).1 ≠ 0 ∧
    (hsm_init env w none entry exit).2 = w := by
  simp [hsm_init]

/-- C8 (init success).  With a top state `t` and a guard initialisation that
succeeds, `hsm_init` returns 0, binds the top state and the two machine-level
callbacks to its arguments and leaves no current state, whatever the machine
held before; `hsm_is_active` is then false and `hsm_get_current_state` is -1.
No callback is invoked and nothing is printed. -/
theorem init_success (env : Env) (w : World) (t : Nat) (entry : Option hsm_entry_fn)
    (exit : Option hsm_exit_fn) (hrc : env.mutex_init_rc = 0) :
    (hsm_init env w (some t) entry exit).1 = 0 ∧
    (hsm_init env w (some t) entry exit).2.hsm.h_top = some t ∧
    (hsm_init env w (some t) entry exit).2.hsm.h_on_entry = entry ∧
    (hsm_init env w (some t) entry exit).2.hsm.h_on_exit = exit ∧
    (hsm_init env w (some t) entry exit).2.hsm.h_cur_state = none ∧
    hsm_is_active (hsm_init env w (some t) entry exit).2.hsm = false ∧
    hsm_get_current_state env (hsm_init env w (some t) entry exit).2.hsm = -1 ∧
    (hsm_init env w (some t) entry exit).2.calls = w.calls ∧
    (hsm_init env w (some t) entry exit).2.console = w.console := by
  simp [hsm_init, os_mutex_init, hrc, set_cur, hsm_is_active, hsm_get_current_state]

/-- Initialising over a machine that was active in the leaf. -/
theorem init_success_witness :
    chain_env.mutex_init_rc = 0 ∧
    (hsm_init chain_env (chain_world (some 0)) (some 3) none none).1 = 0 ∧
    (hsm_init chain_env (chain_world (some 0)) (some 3) none none).2.hsm.h_top = some 3 ∧
    (hsm_init chain_env (chain_world (some 0)) (some 3) none none).2.hsm.h_on_entry = none ∧
    (hsm_init chain_env (chain_world (some 0)) (some 3) none none).2.hsm.h_on_exit = none ∧
    (hsm_init chain_env (chain_world (some 0)) (some 3) none none).2.hsm.h_cur_state = none ∧
    hsm_is_active (hsm_init chain_env (chain_world (some 0)) (some 3) none none).2.hsm = false ∧
    hsm_get_current_state chain_env
      (hsm_init chain_env (chain_world (some 0)) (some 3) none none).2.hsm = -1 ∧
    (hsm_init chain_env (chain_world (some 0)) (some 3) none none).2.calls
      = (chain_world (some 0)).calls ∧
    (hsm_init chain_env (chain_world (some 0)) (some 3) none none).2.console
      = (chain_world (some 0)).console :=
  ⟨rfl, init_success chain_env (chain_world (some 0)) 3 none none rfl⟩

/-! ## The access log -/

theorem last_write_append (a b : List Access) :
    last_write (a ++ b) = match last_write b with
      | some v => some v
      | none => last_write a := by
  induction a with
  | nil => cases h : last_write b <;> simp [last_write, h]
  | cons x a ih =>
    cases x with
    | read n => simpa [last_write] using ih
    | write v n =>
      rw [List.cons_append]
      cases hb : last_write b with
      | none =>
        rw [hb] at ih
        simp only [last_write, ih]
      | some v' =>
        rw [hb] at ih
        simp only [last_write, ih]

theorem cur_logged_note_read (w : World) (h : cur_logged w) : cur_logged (note_read w) := by
  unfold cur_logged at *
  simp [note_read, last_write_append, last_write, h]

theorem cur_logged_lock (env : Env) (w : World) (h : cur_logged w) : cur_logged (lock env w) := h

theorem cur_logged_unlock (w : World) (h : cur_logged w) : cur_logged (unlock w) := h

theorem cur_logged_invoke (w : World) (c : Call) (f : Option Nat → List String)
    (h : cur_logged w) : cur_logged (invoke w c f) := h

theorem cur_logged_set_cur (w : World) (v : Option Nat) : cur_logged (set_cur w v) := by
  unfold cur_logged
  simp [set_cur, last_write_append, last_write]

theorem cur_logged_transition (env : Env) (w : World) (dst : Option Nat) :
    cur_logged (hsm_transition env w dst) := by
  unfold hsm_transition
  apply cur_logged_unlock
  have h := cur_logged_set_cur
  split
  · split
    · exact cur_logged_invoke _ _ _ (h _ _)
    · exact h _ _
  · exact h _ _

theorem cur_logged_enter (env : Env) (w : World) (h : cur_logged w) :
    cur_logged (hsm_enter env w) := by
  unfold hsm_enter
  simp only
  split
  · exact cur_logged_note_read w h
  · exact cur_logged_transition _ _ _

theorem cur_logged_exit (env : Env) (w : World) (h : cur_logged w) :
    cur_logged (hsm_exit env w) := by
  unfold hsm_exit
  simp only
  split
  · exact cur_logged_note_read w h
  · apply cur_logged_unlock
    split
    · exact cur_logged_invoke _ _ _ (cur_logged_transition _ _ _)
    · exact cur_logged_transition _ _ _

theorem cur_logged_run_actions (env : Env) (acts : List Action) (w : World)
    (h : cur_logged w) : cur_logged (run_actions env acts w) := by
  induction acts generalizing w with
  | nil => exact h
  | cons a rest ih =>
    cases a with
    | print msg => exact ih _ h
    | transition dst => exact ih _ (cur_logged_transition env w dst)

theorem cur_logged_call_signal (env : Env) (w : World) (current : Nat) (signal : Int)
    (h : cur_logged w) : cur_logged (call_signal env w current signal).2 :=
  cur_logged_run_actions env _ _ h

theorem cur_logged_raise_loop (env : Env) (signal : Int) (fuel : Nat) :
    ∀ (current : Nat) (w w' : World), cur_logged w →
      hsm_raise_loop env signal fuel current w = some w' → cur_logged w' := by
  induction fuel with
  | zero => intro current w w' _ hrun; simp [hsm_raise_loop] at hrun
  | succ f ih =>
    intro current w w' h hrun
    have hc := cur_logged_call_signal env w current signal h
    simp only [hsm_raise_loop] at hrun
    split at hrun
    · split at hrun
      · exact ih _ _ _ hc hrun
      · cases hrun; exact hc
    · cases hrun; exact hc

theorem cur_logged_raise (env : Env) (fuel : Nat) (w w' : World) (signal : Int)
    (h : cur_logged w) (hrun : hsm_raise env fuel w signal = some w') : cur_logged w' := by
  unfold hsm_raise at hrun
  simp only at hrun
  split at hrun
  · cases hrun; exact cur_logged_note_read w h
  · split at hrun
    · rcases Option.map_eq_some'.mp hrun with ⟨w2, hw2, rfl⟩
      apply cur_logged_unlock
      refine cur_logged_raise_loop env signal fuel _ _ _ ?_ hw2
      exact cur_logged_note_read _ (cur_logged_lock env _ (cur_logged_note_read w h))
    · cases hrun

theorem cur_logged_run_ops (env : Env) (fuel : Nat) (ops : List Op) :
    ∀ (w w' : World), cur_logged w → run_ops env fuel ops w = some w' → cur_logged w' := by
  induction ops with
  | nil => intro w w' h hrun; cases hrun; exact h
  | cons op rest ih =>
    intro w w' h hrun
    simp only [run_ops] at hrun
    split at hrun
    · rename_i w1 hop
      refine ih w1 w' ?_ hrun
      cases op with
      | enter => cases hop; exact cur_logged_enter env w h
      | exit => cases hop; exact cur_logged_exit env w h
      | transition dst => cases hop; exact cur_logged_transition env w dst
      | raise signal => exact cur_logged_raise env fuel w w1 signal h hop
    · cases hrun

/-! ## Running to completion -/

theorem hsm_raise_returns (env : Env) (fuel : Nat) (w : World) (signal : Int)
    (hfin : ∀ s, ∃ rest, is_parent_chain env (s :: rest) = true ∧ rest.length + 1 ≤ fuel) :
    ∃ w', hsm_raise env fuel w signal = some w' := by
  cases hcur : w.hsm.h_cur_state with
  | none =>
    have hact : hsm_is_active (note_read w).hsm = false := by
      simp [hsm_is_active, note_read, hcur]
    exact ⟨note_read w, by simp [hsm_raise, hact]⟩
  | some s0 =>
    obtain ⟨rest, hchain, hfuel⟩ := hfin s0
    obtain ⟨w', _, hrun, _⟩ :=
      hsm_raise_loop_bubbles env signal rest s0 fuel (note_read (lock env (note_read w)))
        hchain hfuel
    have hact : hsm_is_active (note_read w).hsm = true := by
      simp [hsm_is_active, note_read, hcur]
    have hcur' : (note_read (lock env (note_read w))).hsm.h_cur_state = some s0 := by
      simp [note_read, lock, hcur]
    exact ⟨unlock w', by simp only [hsm_raise, hact, hcur', hrun]; rfl⟩

theorem run_ops_returns (env : Env) (fuel : Nat) (ops : List Op)
    (hfin : ∀ s, ∃ rest, is_parent_chain env (s :: rest) = true ∧ rest.length + 1 ≤ fuel) :
    ∀ w, ∃ w', run_ops env fuel ops w = some w' := by
  induction ops with
  | nil => intro w; exact ⟨w, rfl⟩
  | cons op rest ih =>
    intro w
    have hop : ∃ w1, apply_op env fuel w op = some w1 := by
      cases op with
      | enter => exact ⟨_, rfl⟩
      | exit => exact ⟨_, rfl⟩
      | transition dst => exact ⟨_, rfl⟩
      | raise signal => exact hsm_raise_returns env fuel w signal hfin
    obtain ⟨w1, hw1⟩ := hop
    obtain ⟨w', hw'⟩ := ih w1
    exact ⟨w', by simp only [run_ops, hw1, hw']⟩

theorem hsm_get_current_state_eq (env : Env) (hsm : hsm_s) :
    hsm_get_current_state env hsm = state_id env hsm.h_cur_state := by
  cases h : hsm.h_cur_state with
  | none => rw [hsm_get_current_state_none env hsm h]; rfl
  | some s => rw [hsm_get_current_state_some env hsm s h]; rfl

/-- C10 as stated fails: a state may carry the id -1.  The machine over the
three-level chain whose current state is the state at address 4 (id -1) is
active, and `hsm_get_current_state` returns -1 for it. -/
theorem active_state_may_report_sentinel :
    ¬ (hsm_get_current_state chain_env (chain_world (some 4)).hsm = -1 ↔
        hsm_is_active (chain_world (some 4)).hsm = false) := by
  decide

/-- C10, amended (sentinel -1).  When no state whose id is -1 is current,
`hsm_get_current_state` returns -1 if and only if `hsm_is_active` returns
false; on an inactive machine it returns -1 and on an active machine the
state id of the current state, in every case. -/
theorem sentinel_iff (env : Env) (hsm : hsm_s)
    (hid : ∀ s, hsm.h_cur_state = some s → (env.states s).hst_state_num ≠ -1) :
    (hsm_get_current_state env hsm = -1 ↔ hsm_is_active hsm = false) ∧
    (hsm.h_cur_state = none ↔ hsm_is_active hsm = false) ∧
    (∀ s, hsm.h_cur_state = some s →
      hsm_get_current_state env hsm = (env.states s).hst_state_num) := by
  refine ⟨?_, ?_, fun s hs => hsm_get_current_state_some env hsm s hs⟩
  · cases hs : hsm.h_cur_state with
    | none => simp [hsm_get_current_state_none env hsm hs, hsm_is_active, hs]
    | some s => simp [hsm_get_current_state_some env hsm s hs, hsm_is_active, hs, hid s hs]
  · cases hs : hsm.h_cur_state <;> simp [hsm_is_active, hs]

/-- The sentinel on the machine over the three-level chain, active in the leaf
(id 10) and inactive. -/
theorem sentinel_iff_witness :
    (hsm_get_current_state chain_env (chain_world (some 0)).hsm = 10 ∧
      hsm_get_current_state chain_env (chain_world none).hsm = -1) ∧
    ((hsm_get_current_state chain_env (chain_world (some 0)).hsm = -1 ↔
        hsm_is_active (chain_world (some 0)).hsm = false) ∧
    ((chain_world (some 0)).hsm.h_cur_state = none ↔
        hsm_is_active (chain_world (some 0)).hsm = false) ∧
    (∀ s, (chain_world (some 0)).hsm.h_cur_state = some s →
      hsm_get_current_state chain_env (chain_world (some 0)).hsm
        = (chain_env.states s).hst_state_num)) :=
  ⟨by decide, sentinel_iff chain_env (chain_world (some 0)).hsm (by
    intro s hs
    have : s = 0 := by
      have h : some 0 = some s := hs
      exact (Option.some.inj h).symm
    subst this
    decide)⟩

/-! ## Handlers that leave the machine alone -/

theorem run_actions_no_transition (env : Env) (acts : List Action) (w : World)
    (h : has_transition acts = false) :
    run_actions env acts w = { w with console := w.console ++ printed acts } := by
  induction acts generalizing w with
  | nil => simp [run_actions, printed]
  | cons a rest ih =>
    cases a with
    | print msg =>
      simp only [has_transition] at h
      simp only [run_actions, printed]
      rw [ih _ h]
      simp
    | transition dst => simp [has_transition] at h

theorem call_signal_no_transition (env : Env) (w : World) (current : Nat) (signal : Int)
    (h : has_transition ((env.states current).hst_on_signal w.hsm.h_cur_state signal).1 = false) :
    (call_signal env w current signal).2.hsm = w.hsm ∧
    (call_signal env w current signal).2.accesses = w.accesses ∧
    (call_signal env w current signal).2.calls = w.calls ++
      [⟨Call.signal current signal
          ((env.states current).hst_on_signal w.hsm.h_cur_state signal).2, w.hsm.h_cur_state⟩] ∧
    (call_signal env w current signal).1
      = ((env.states current).hst_on_signal w.hsm.h_cur_state signal).2 := by
  simp only [call_signal, run_actions_no_transition env _ _ h, and_self]

theorem hsm_raise_loop_unhandled (env : Env) (signal : Int) (c : Option Nat) (rest : List Nat) :
    ∀ (s0 fuel : Nat) (w : World), w.hsm.h_cur_state = c →
      is_parent_chain env (s0 :: rest) = true → rest.length + 1 ≤ fuel →
      (∀ s ∈ s0 :: rest, ((env.states s).hst_on_signal c signal).2 ≠ 0 ∧
        has_transition ((env.states s).hst_on_signal c signal).1 = false) →
      ∃ w', hsm_raise_loop env signal fuel s0 w = some w' ∧ w'.hsm = w.hsm ∧
        w'.accesses = w.accesses ∧
        w'.calls = w.calls ++ (s0 :: rest).map
          (fun s => ⟨Call.signal s signal ((env.states s).hst_on_signal c signal).2, c⟩) := by
  induction rest with
  | nil =>
    intro s0 fuel w hc hchain hfuel hq
    obtain ⟨f, rfl⟩ : ∃ f, fuel = f + 1 := ⟨fuel - 1, by simp at hfuel; omega⟩
    have hp : (env.states s0).hst_parent = none := by simpa [is_parent_chain] using hchain
    have hq0 := hq s0 (List.mem_cons_self _ _)
    rw [← hc] at hq0
    obtain ⟨h1, h2, h3, _⟩ := call_signal_no_transition env w s0 signal hq0.2
    refine ⟨(call_signal env w s0 signal).2, ?_, h1, h2, ?_⟩
    · simp [hsm_raise_loop, hp]
    · rw [h3, hc]; rfl
  | cons t rest ih =>
    intro s0 fuel w hc hchain hfuel hq
    obtain ⟨f, rfl⟩ : ∃ f, fuel = f + 1 := ⟨fuel - 1, by simp at hfuel; omega⟩
    rw [is_parent_chain_cons_cons] at hchain
    simp at hchain
    have hp : (env.states s0).hst_parent = some t := hchain.1
    have hq0 := hq s0 (List.mem_cons_self _ _)
    rw [← hc] at hq0
    obtain ⟨h1, h2, h3, h4⟩ := call_signal_no_transition env w s0 signal hq0.2
    have hrc : (call_signal env w s0 signal).1 ≠ 0 := by rw [h4]; exact hq0.1
    have hf : rest.length + 1 ≤ f := by simp at hfuel; omega
    have hc' : (call_signal env w s0 signal).2.hsm.h_cur_state = c := by rw [h1]; exact hc
    obtain ⟨w', hrun, hh, ha, hcalls⟩ :=
      ih t f (call_signal env w s0 signal).2 hc' hchain.2 hf
        (fun s hs => hq s (List.mem_cons_of_mem _ hs))
    refine ⟨w', ?_, hh.trans h1, ha.trans h2, ?_⟩
    · simp [hsm_raise_loop, hp, hrc, hrun]
    · rw [hcalls, h3, hc]; simp

/-- C11 (an unhandled signal is a no-op).  On an active machine whose current
state `s0` has the finite parent chain `s0 :: rest`, when every handler on the
chain returns not handled for the signal and none of them calls
`hsm_transition`, `hsm_raise` returns (it has no error to report) having
invoked the handler of every state of the chain once, bottom-up, and no other
callback; it only reads the current state pointer, never assigns it; the
current state, the top state and the machine-level callbacks are as before,
and so is the whole machine when the guard is acquired successfully. -/
theorem raise_unhandled (env : Env) (w : World) (signal : Int) (s0 : Nat) (rest : List Nat)
    (fuel : Nat) (hcur : w.hsm.h_cur_state = some s0)
    (hchain : is_parent_chain env (s0 :: rest) = true) (hfuel : rest.length + 1 ≤ fuel)
    (hquiet : ∀ s ∈ s0 :: rest, ((env.states s).hst_on_signal (some s0) signal).2 ≠ 0 ∧
      has_transition ((env.states s).hst_on_signal (some s0) signal).1 = false) :
    ∃ w', hsm_raise env fuel w signal = some w' ∧
      w'.calls = w.calls ++ (s0 :: rest).map
        (fun s => ⟨Call.signal s signal ((env.states s).hst_on_signal (some s0) signal).2,
          some s0⟩) ∧
      (∃ reads, w'.accesses = w.accesses ++ reads ∧ ∀ a ∈ reads, is_write a = false) ∧
      w'.hsm.h_cur_state = w.hsm.h_cur_state ∧ w'.hsm.h_top = w.hsm.h_top ∧
      w'.hsm.h_on_entry = w.hsm.h_on_entry ∧ w'.hsm.h_on_exit = w.hsm.h_on_exit ∧
      (env.mutex_pend_rc = 0 → w'.hsm = w.hsm) := by
  have hcur' : (note_read (lock env (note_read w))).hsm.h_cur_state = some s0 := by
    simp [note_read, lock, hcur]
  obtain ⟨w', hrun, hh, ha, hcalls⟩ :=
    hsm_raise_loop_unhandled env signal (some s0) rest s0 fuel
      (note_read (lock env (note_read w))) hcur' hchain hfuel hquiet
  have hact : hsm_is_active (note_read w).hsm = true := by
    simp [hsm_is_active, note_read, hcur]
  refine ⟨unlock w', ?_, ?_, ?_, ?_, ?_, ?_, ?_, ?_⟩
  · simp only [hsm_raise, hact, hcur', hrun]
    rfl
  · rw [show (unlock w').calls = w'.calls from rfl, hcalls]
    rfl
  · refine ⟨[Access.read w.hsm.h_lock.mu_level,
      Access.read (os_mutex_pend env w.hsm.h_lock).2.mu_level], ?_, ?_⟩
    · rw [show (unlock w').accesses = w'.accesses from rfl, ha]
      simp [note_read, lock]
    · intro a hmem
      simp at hmem
      rcases hmem with h | h <;> rw [h] <;> rfl
  · rw [show (unlock w').hsm.h_cur_state = w'.hsm.h_cur_state from rfl, hh]; rfl
  · rw [show (unlock w').hsm.h_top = w'.hsm.h_top from rfl, hh]; rfl
  · rw [show (unlock w').hsm.h_on_entry = w'.hsm.h_on_entry from rfl, hh]; rfl
  · rw [show (unlock w').hsm.h_on_exit = w'.hsm.h_on_exit from rfl, hh]; rfl
  · intro hpend
    simp only [unlock, hh]
    simp [note_read, lock, os_mutex_pend, os_mutex_release, hpend]

/-- An unhandled signal on the demonstration machine: signal 99 in Floop is
handled neither by Floop nor by its parent Flop. -/
theorem raise_unhandled_witness :
    (hsm_raise hsm_test_env 2 (hsm_test_world_at (some floop_addr)) 99).map
        (fun w' => (w'.calls, w'.hsm.h_cur_state, w'.console, w'.hsm.h_lock))
      = some ([⟨Call.signal floop_addr 99 1, some floop_addr⟩,
          ⟨Call.signal flop_addr 99 1, some floop_addr⟩], some floop_addr, [],
          { mu_level := 0 }) ∧
    ∃ w', hsm_raise hsm_test_env 2 (hsm_test_world_at (some floop_addr)) 99 = some w' ∧
      w'.calls = (hsm_test_world_at (some floop_addr)).calls ++ (floop_addr :: [flop_addr]).map
        (fun s => ⟨Call.signal s 99
          ((hsm_test_env.states s).hst_on_signal (some floop_addr) 99).2, some floop_addr⟩) ∧
      (∃ reads, w'.accesses = (hsm_test_world_at (some floop_addr)).accesses ++ reads ∧
        ∀ a ∈ reads, is_write a = false) ∧
      w'.hsm.h_cur_state = (hsm_test_world_at (some floop_addr)).hsm.h_cur_state ∧
      w'.hsm.h_top = (hsm_test_world_at (some floop_addr)).hsm.h_top ∧
      w'.hsm.h_on_entry = (hsm_test_world_at (some floop_addr)).hsm.h_on_entry ∧
      w'.hsm.h_on_exit = (hsm_test_world_at (some floop_addr)).hsm.h_on_exit ∧
      (hsm_test_env.mutex_pend_rc = 0 → w'.hsm = (hsm_test_world_at (some floop_addr)).hsm) :=
  ⟨by decide,
    raise_unhandled hsm_test_env (hsm_test_world_at (some floop_addr)) 99 floop_addr [flop_addr] 2
      rfl (by decide) (by decide) (by decide)⟩

/-! ## Machine-level callbacks in the call log -/

theorem machine_calls_append (a b : List Invocation) :
    machine_calls (a ++ b) = machine_calls a ++ machine_calls b := by
  simp [machine_calls, List.filter_append]

theorem machine_calls_exit_call (env : Env) (src : Option Nat) :
    machine_calls (exit_call env src) = [] := by
  unfold exit_call
  cases src with
  | none => rfl
  | some s =>
    by_cases h : (env.states s).hst_on_exit.isSome <;>
      simp [h, machine_calls, is_machine_call]

theorem machine_calls_entry_call (env : Env) (dst : Option Nat) :
    machine_calls (entry_call env dst) = [] := by
  unfold entry_call
  cases dst with
  | none => rfl
  | some s =>
    by_cases h : (env.states s).hst_on_entry.isSome <;>
      simp [h, machine_calls, is_machine_call]

theorem machine_calls_machine_entry_call (hsm : hsm_s) :
    machine_calls (machine_entry_call hsm)
      = if hsm.h_on_entry.isSome then [Call.machine_entry] else [] := by
  unfold machine_entry_call
  by_cases h : hsm.h_on_entry.isSome <;> simp [h, machine_calls, is_machine_call]

theorem machine_calls_machine_exit_call (hsm : hsm_s) (cur : Option Nat) :
    machine_calls (machine_exit_call hsm cur)
      = if hsm.h_on_exit.isSome then [Call.machine_exit] else [] := by
  unfold machine_exit_call
  by_cases h : hsm.h_on_exit.isSome <;> simp [h, machine_calls, is_machine_call]

theorem machine_calls_transition (env : Env) (w : World) (dst : Option Nat) :
    machine_calls (hsm_transition env w dst).calls = machine_calls w.calls := by
  rw [hsm_transition_calls, machine_calls_append, machine_calls_append,
    machine_calls_exit_call, machine_calls_entry_call]
  simp

theorem machine_calls_run_actions (env : Env) (acts : List Action) (w : World) :
    machine_calls (run_actions env acts w).calls = machine_calls w.calls := by
  induction acts generalizing w with
  | nil => rfl
  | cons a rest ih =>
    cases a with
    | print msg => simp only [run_actions]; rw [ih]
    | transition dst => simp only [run_actions]; rw [ih, machine_calls_transition]

theorem machine_calls_call_signal (env : Env) (w : World) (current : Nat) (signal : Int) :
    machine_calls (call_signal env w current signal).2.calls = machine_calls w.calls := by
  simp only [call_signal]
  rw [machine_calls_run_actions, machine_calls_append]
  simp [machine_calls, is_machine_call]

theorem machine_calls_raise_loop (env : Env) (signal : Int) (fuel : Nat) :
    ∀ (current : Nat) (w w' : World), hsm_raise_loop env signal fuel current w = some w' →
      machine_calls w'.calls = machine_calls w.calls := by
  induction fuel with
  | zero => intro current w w' hrun; simp [hsm_raise_loop] at hrun
  | succ f ih =>
    intro current w w' hrun
    have hc := machine_calls_call_signal env w current signal
    simp only [hsm_raise_loop] at hrun
    split at hrun
    · split at hrun
      · rw [ih _ _ _ hrun, hc]
      · cases hrun; exact hc
    · cases hrun; exact hc

theorem machine_calls_raise (env : Env) (fuel : Nat) (w w' : World) (signal : Int)
    (hrun : hsm_raise env fuel w signal = some w') :
    machine_calls w'.calls = machine_calls w.calls := by
  unfold hsm_raise at hrun
  simp only at hrun
  split at hrun
  · cases hrun; rfl
  · split at hrun
    · rcases Option.map_eq_some'.mp hrun with ⟨w2, hw2, rfl⟩
      exact machine_calls_raise_loop env signal fuel _ (note_read (lock env (note_read w))) w2 hw2
    · cases hrun

theorem machine_calls_enter (env : Env) (w : World) :
    machine_calls (hsm_enter env w).calls = machine_calls w.calls ++
      (if hsm_is_active w.hsm then []
        else if w.hsm.h_on_entry.isSome then [Call.machine_entry] else []) := by
  by_cases hact : hsm_is_active w.hsm = true
  · rw [(hsm_enter_active env w hact).2.1]; simp [hact]
  · have hcur : w.hsm.h_cur_state = none := by simpa [hsm_is_active] using hact
    rw [(hsm_enter_from_none env w hcur).1, machine_calls_append, machine_calls_append,
      machine_calls_entry_call, machine_calls_machine_entry_call]
    simp [hact]

theorem machine_calls_exit (env : Env) (w : World) :
    machine_calls (hsm_exit env w).calls = machine_calls w.calls ++
      (if hsm_is_active w.hsm then
        (if w.hsm.h_on_exit.isSome then [Call.machine_exit] else [])
        else []) := by
  cases hcur : w.hsm.h_cur_state with
  | none =>
    have hact : hsm_is_active w.hsm = false := by simp [hsm_is_active, hcur]
    rw [(hsm_exit_inactive env w hcur).2.1]; simp [hact]
  | some s =>
    have hact : hsm_is_active w.hsm = true := by simp [hsm_is_active, hcur]
    rw [(hsm_exit_from_some env w s hcur).1, machine_calls_append, machine_calls_append,
      machine_calls_exit_call, machine_calls_machine_exit_call]
    simp [hact]

/-- C12 (machine-level callbacks fire only on enter and exit).  A call of
`hsm_transition`, and a call of `hsm_raise` with all the transitions its
handlers perform, adds no machine-level callback to the call log.  A call of
`hsm_enter` adds the machine-level entry callback once when the machine was
inactive and defines it, and nothing machine-level otherwise; a call of
`hsm_exit` adds the machine-level exit callback once when the machine was
active and defines it, and nothing machine-level otherwise.  A machine
deactivated by `hsm_transition` to no state gets no machine-level exit
callback, neither from that transition nor from an `hsm_exit` that follows. -/
theorem machine_callbacks_only_on_enter_exit (env : Env) (w : World) (dst : Option Nat)
    (fuel : Nat) (signal : Int) :
    machine_calls (hsm_transition env w dst).calls = machine_calls w.calls ∧
    (∀ w', hsm_raise env fuel w signal = some w' →
      machine_calls w'.calls = machine_calls w.calls) ∧
    machine_calls (hsm_enter env w).calls = machine_calls w.calls ++
      (if hsm_is_active w.hsm then []
        else if w.hsm.h_on_entry.isSome then [Call.machine_entry] else []) ∧
    machine_calls (hsm_exit env w).calls = machine_calls w.calls ++
      (if hsm_is_active w.hsm then
        (if w.hsm.h_on_exit.isSome then [Call.machine_exit] else [])
        else []) ∧
    machine_calls (hsm_exit env (hsm_transition env w none)).calls = machine_calls w.calls := by
  refine ⟨machine_calls_transition env w dst, fun w' h => machine_calls_raise env fuel w w' signal h,
    machine_calls_enter env w, machine_calls_exit env w, ?_⟩
  rw [machine_calls_exit, machine_calls_transition]
  simp [hsm_is_active, hsm_transition_cur]

/-- Machine-level callbacks on the demonstration machine in Flip: FLOP makes a
transition and fires none; a transition to no state followed by an exit fires
none; an exit fires the machine-level exit callback once. -/
theorem machine_callbacks_only_on_enter_exit_witness :
    ((hsm_raise hsm_test_env 1 (hsm_test_world_at (some flip_addr)) HSM_TEST_SIGNAL_FLOP).map
        (fun w' => (w'.hsm.h_cur_state, machine_calls w'.calls)) = some (some flop_addr, []) ∧
      machine_calls (hsm_exit hsm_test_env (hsm_test_world_at (some flip_addr))).calls
        = [Call.machine_exit]) ∧
    (machine_calls (hsm_transition hsm_test_env (hsm_test_world_at (some flip_addr)) none).calls
        = machine_calls (hsm_test_world_at (some flip_addr)).calls ∧
    (∀ w', hsm_raise hsm_test_env 1 (hsm_test_world_at (some flip_addr)) HSM_TEST_SIGNAL_FLOP
        = some w' →
      machine_calls w'.calls = machine_calls (hsm_test_world_at (some flip_addr)).calls) ∧
    machine_calls (hsm_enter hsm_test_env (hsm_test_world_at (some flip_addr))).calls
      = machine_calls (hsm_test_world_at (some flip_addr)).calls ++
      (if hsm_is_active (hsm_test_world_at (some flip_addr)).hsm then []
        else if (hsm_test_world_at (some flip_addr)).hsm.h_on_entry.isSome
          then [Call.machine_entry] else []) ∧
    machine_calls (hsm_exit hsm_test_env (hsm_test_world_at (some flip_addr))).calls
      = machine_calls (hsm_test_world_at (some flip_addr)).calls ++
      (if hsm_is_active (hsm_test_world_at (some flip_addr)).hsm then
        (if (hsm_test_world_at (some flip_addr)).hsm.h_on_exit.isSome
          then [Call.machine_exit] else [])
        else []) ∧
    machine_calls (hsm_exit hsm_test_env
        (hsm_transition hsm_test_env (hsm_test_world_at (some flip_addr)) none)).calls
      = machine_calls (hsm_test_world_at (some flip_addr)).calls) :=
  ⟨by decide,
    machine_callbacks_only_on_enter_exit hsm_test_env (hsm_test_world_at (some flip_addr)) none 1
      HSM_TEST_SIGNAL_FLOP⟩

/-! ## Sequences of enter and exit -/

theorem hsm_enter_fields (env : Env) (w : World) :
    (hsm_enter env w).hsm.h_top = w.hsm.h_top ∧
    (hsm_enter env w).hsm.h_on_entry = w.hsm.h_on_entry ∧
    (hsm_enter env w).hsm.h_on_exit = w.hsm.h_on_exit := by
  unfold hsm_enter
  simp only
  split
  · exact ⟨rfl, rfl, rfl⟩
  · rw [hsm_transition_top, hsm_transition_on_entry, hsm_transition_on_exit]
    cases he : w.hsm.h_on_entry <;> simp [note_read, invoke, he]

theorem hsm_exit_fields (env : Env) (w : World) :
    (hsm_exit env w).hsm.h_top = w.hsm.h_top ∧
    (hsm_exit env w).hsm.h_on_entry = w.hsm.h_on_entry ∧
    (hsm_exit env w).hsm.h_on_exit = w.hsm.h_on_exit := by
  unfold hsm_exit
  simp only
  split
  · exact ⟨rfl, rfl, rfl⟩
  · have h1 := hsm_transition_top env (lock env (note_read w)) none
    have h2 := hsm_transition_on_entry env (lock env (note_read w)) none
    have h3 := hsm_transition_on_exit env (lock env (note_read w)) none
    generalize hsm_transition env (lock env (note_read w)) none = w2 at h1 h2 h3
    cases w2.hsm.h_on_exit <;> exact ⟨h1, h2, h3⟩

theorem run_ops_append (env : Env) (fuel : Nat) (a b : List Op) (w : World) :
    run_ops env fuel (a ++ b) w = (run_ops env fuel a w).bind (run_ops env fuel b) := by
  induction a generalizing w with
  | nil => rfl
  | cons op rest ih =>
    simp only [List.cons_append, run_ops]
    cases apply_op env fuel w op with
    | none => rfl
    | some w1 => exact ih w1

theorem alternates_lifecycle_calls (ops : List Op) :
    ∀ active, alternates active (lifecycle_calls active ops) = true := by
  induction ops with
  | nil => intro active; cases active <;> rfl
  | cons op rest ih =>
    intro active
    cases op with
    | enter => cases active <;> simp [lifecycle_calls, alternates, ih]
    | exit => cases active <;> simp [lifecycle_calls, alternates, ih]
    | transition dst => simpa [lifecycle_calls] using ih active
    | raise signal => simpa [lifecycle_calls] using ih active

theorem run_lifecycle (env : Env) (fuel : Nat) (t : Nat) (e : hsm_entry_fn) (x : hsm_exit_fn)
    (ops : List Op) :
    ∀ w : World, w.hsm.h_top = some t → w.hsm.h_on_entry = some e → w.hsm.h_on_exit = some x →
      (w.hsm.h_cur_state = none ∨ w.hsm.h_cur_state = some t) →
      (∀ op ∈ ops, op = Op.enter ∨ op = Op.exit) →
      ∃ w', run_ops env fuel ops w = some w' ∧
        w'.hsm.h_top = some t ∧ w'.hsm.h_on_entry = some e ∧ w'.hsm.h_on_exit = some x ∧
        (w'.hsm.h_cur_state = none ∨ w'.hsm.h_cur_state = some t) ∧
        machine_calls w'.calls
          = machine_calls w.calls ++ lifecycle_calls (hsm_is_active w.hsm) ops := by
  induction ops with
  | nil =>
    intro w ht he hx hc _
    exact ⟨w, rfl, ht, he, hx, hc, by simp [lifecycle_calls]⟩
  | cons op rest ih =>
    intro w ht he hx hc hops
    have hrest : ∀ op ∈ rest, op = Op.enter ∨ op = Op.exit :=
      fun o ho => hops o (List.mem_cons_of_mem _ ho)
    rcases hops op (List.mem_cons_self _ _) with rfl | rfl
    · obtain ⟨f1, f2, f3⟩ := hsm_enter_fields env w
      have hcur : (hsm_enter env w).hsm.h_cur_state = some t := by
        rcases hc with hc | hc
        · rw [(hsm_enter_from_none env w hc).2, ht]
        · have hact : hsm_is_active w.hsm = true := by simp [hsm_is_active, hc]
          rw [(hsm_enter_active env w hact).1, hc]
      obtain ⟨w', hrun, ht', he', hx', hc', hcalls⟩ :=
        ih (hsm_enter env w) (f1.trans ht) (f2.trans he) (f3.trans hx) (Or.inr hcur) hrest
      refine ⟨w', by simpa [run_ops, apply_op] using hrun, ht', he', hx', hc', ?_⟩
      rw [hcalls, machine_calls_enter]
      have hact' : hsm_is_active (hsm_enter env w).hsm = true := by
        simp [hsm_is_active, hcur]
      cases hact : hsm_is_active w.hsm <;> simp [hact, hact', lifecycle_calls, he]
    · obtain ⟨f1, f2, f3⟩ := hsm_exit_fields env w
      have hcur : (hsm_exit env w).hsm.h_cur_state = none := by
        rcases hc with hc | hc
        · rw [(hsm_exit_inactive env w hc).1, hc]
        · exact (hsm_exit_from_some env w t hc).2
      obtain ⟨w', hrun, ht', he', hx', hc', hcalls⟩ :=
        ih (hsm_exit env w) (f1.trans ht) (f2.trans he) (f3.trans hx) (Or.inl hcur) hrest
      refine ⟨w', by simpa [run_ops, apply_op] using hrun, ht', he', hx', hc', ?_⟩
      rw [hcalls, machine_calls_exit]
      have hact' : hsm_is_active (hsm_exit env w).hsm = false := by
        simp [hsm_is_active, hcur]
      cases hact : hsm_is_active w.hsm <;> simp [hact, hact', lifecycle_calls, hx]

theorem hsm_init_ok (env : Env) (w : World) (t : Nat) (entry : Option hsm_entry_fn)
    (exit : Option hsm_exit_fn) (hinit : (hsm_init env w (some t) entry exit).1 = 0) :
    (hsm_init env w (some t) entry exit).2.hsm.h_top = some t ∧
    (hsm_init env w (some t) entry exit).2.hsm.h_on_entry = entry ∧
    (hsm_init env w (some t) entry exit).2.hsm.h_on_exit = exit ∧
    (hsm_init env w (some t) entry exit).2.hsm.h_cur_state = none ∧
    (hsm_init env w (some t) entry exit).2.calls = w.calls := by
  have hrc : (os_mutex_init env w.hsm.h_lock).1 = 0 := by
    by_contra hne
    simp [hsm_init, hne] at hinit
  simp [hsm_init, hrc, set_cur]

/-- C13 (one entry per activation, re-entry allowed).  Take a machine just
initialised with top state `t` and both machine-level callbacks, and any
finite sequence of `hsm_enter` and `hsm_exit` calls.  The sequence runs, and
the machine-level callbacks it fires are exactly: the entry callback once for
each enter made while inactive, the exit callback once for each exit made
while active, in call order and nothing else.  The two strictly alternate,
starting with entry, and after every enter of the sequence the current state
is `t`. -/
theorem lifecycle_alternates (env : Env) (w : World) (t : Nat) (e : hsm_entry_fn)
    (x : hsm_exit_fn) (fuel : Nat) (ops : List Op)
    (hinit : (hsm_init env w (some t) (some e) (some x)).1 = 0)
    (hops : ∀ op ∈ ops, op = Op.enter ∨ op = Op.exit) :
    (∃ w', run_ops env fuel ops (hsm_init env w (some t) (some e) (some x)).2 = some w' ∧
      machine_calls w'.calls = machine_calls w.calls ++ lifecycle_calls false ops ∧
      alternates false (lifecycle_calls false ops) = true) ∧
    (∀ pre post, ops = pre ++ Op.enter :: post →
      ∃ w1, run_ops env fuel (pre ++ [Op.enter])
          (hsm_init env w (some t) (some e) (some x)).2 = some w1 ∧
        w1.hsm.h_cur_state = some t) := by
  obtain ⟨i1, i2, i3, i4, i5⟩ := hsm_init_ok env w t (some e) (some x) hinit
  have hact0 : hsm_is_active (hsm_init env w (some t) (some e) (some x)).2.hsm = false := by
    simp [hsm_is_active, i4]
  constructor
  · obtain ⟨w', hrun, _, _, _, _, hcalls⟩ :=
      run_lifecycle env fuel t e x ops _ i1 i2 i3 (Or.inl i4) hops
    refine ⟨w', hrun, ?_, alternates_lifecycle_calls ops false⟩
    rw [hcalls, i5, hact0]
  · intro pre post hsplit
    have hpre : ∀ op ∈ pre, op = Op.enter ∨ op = Op.exit := by
      intro o ho
      apply hops o
      rw [hsplit]
      exact List.mem_append_left _ ho
    obtain ⟨w0, hrun, ht, he, hx, hc, _⟩ :=
      run_lifecycle env fuel t e x pre _ i1 i2 i3 (Or.inl i4) hpre
    refine ⟨hsm_enter env w0, ?_, ?_⟩
    · rw [run_ops_append, hrun]
      rfl
    · rcases hc with hc | hc
      · rw [(hsm_enter_from_none env w0 hc).2, ht]
      · have hact : hsm_is_active w0.hsm = true := by simp [hsm_is_active, hc]
        rw [(hsm_enter_active env w0 hact).1, hc]

/-- Lifecycle of the demonstration machine: enter, enter, exit, exit, enter
fires entry, exit, entry and ends in the top state Flip. -/
theorem lifecycle_alternates_witness :
    ((run_ops hsm_test_env 0 [Op.enter, Op.enter, Op.exit, Op.exit, Op.enter]
        (hsm_init hsm_test_env hsm_test_world (some flip_addr) (some (fun _ => ["in"]))
          (some (fun _ => ["out"]))).2).map
        (fun w' => (machine_calls w'.calls, w'.hsm.h_cur_state, w'.console))
      = some ([Call.machine_entry, Call.machine_exit, Call.machine_entry], some flip_addr,
          ["in", "You flipped\n", "After flipping...\n", "out", "in", "You flipped\n"])) ∧
    ((∃ w', run_ops hsm_test_env 0 [Op.enter, Op.enter, Op.exit, Op.exit, Op.enter]
        (hsm_init hsm_test_env hsm_test_world (some flip_addr) (some (fun _ => ["in"]))
          (some (fun _ => ["out"]))).2 = some w' ∧
      machine_calls w'.calls = machine_calls hsm_test_world.calls ++
        lifecycle_calls false [Op.enter, Op.enter, Op.exit, Op.exit, Op.enter] ∧
      alternates false
        (lifecycle_calls false [Op.enter, Op.enter, Op.exit, Op.exit, Op.enter]) = true) ∧
    (∀ pre post, [Op.enter, Op.enter, Op.exit, Op.exit, Op.enter] = pre ++ Op.enter :: post →
      ∃ w1, run_ops hsm_test_env 0 (pre ++ [Op.enter])
          (hsm_init hsm_test_env hsm_test_world (some flip_addr) (some (fun _ => ["in"]))
            (some (fun _ => ["out"]))).2 = some w1 ∧
        w1.hsm.h_cur_state = some flip_addr)) :=
  ⟨by decide,
    lifecycle_alternates hsm_test_env hsm_test_world flip_addr (fun _ => ["in"])
      (fun _ => ["out"]) 0 [Op.enter, Op.enter, Op.exit, Op.exit, Op.enter] (by decide)
      (by simp)⟩

/-! ## The demonstration scenario -/

/-- C14 (demonstration scenario).  From the inactive demonstration machine,
the command `enter` makes Flip current (id 0); the command `flop` then makes
Flop current (id 1); the command `floop` then makes Floop current (id 2).
The console shows, in order, the machine-entry text, "You flipped", "After
flipping...", "You flopped", "After flopping...", "You flooped".  Any fuel
of at least one loop iteration will do for each raise. -/
theorem demo_scenario (f : Nat) :
    ((on_enter hsm_test_world).hsm.h_cur_state = some flip_addr ∧
      hsm_get_current_state hsm_test_env (on_enter hsm_test_world).hsm = 0) ∧
    (on_flop (f + 1) (on_enter hsm_test_world)).map
        (fun w => (w.hsm.h_cur_state, hsm_get_current_state hsm_test_env w.hsm))
      = some (some flop_addr, 1) ∧
    ((on_flop (f + 1) (on_enter hsm_test_world)).bind (on_floop (f + 1))).map
        (fun w => (w.hsm.h_cur_state, hsm_get_current_state hsm_test_env w.hsm, w.console))
      = some (some floop_addr, 2,
          ["Flip and flop, but don't floop until you flop\n", "You flipped\n",
            "After flipping...\n", "You flopped\n", "After flopping...\n", "You flooped\n"]) :=
  ⟨⟨rfl, rfl⟩, rfl, rfl⟩

/-- C15 as stated fails: with Floop current, FLOP is handled by the handler of
Floop itself, which makes a transition to Flop.  It is not the case that the
handler of Floop reports not handled, that of Flop reports handled and Floop
is still current. -/
theorem flop_in_floop_does_not_bubble :
    ¬ ∃ w', on_flop 2 (hsm_test_world_at (some floop_addr)) = some w' ∧
      (∃ rc, rc ≠ 0 ∧ handlers_invoked w'.calls = [(floop_addr, rc), (flop_addr, 0)]) ∧
      w'.hsm.h_cur_state = some floop_addr := by
  rintro ⟨w', hrun, _, hcur⟩
  have h : (on_flop 2 (hsm_test_world_at (some floop_addr))).map
      (fun w => w.hsm.h_cur_state) = some (some flop_addr) := by decide
  rw [hrun] at h
  simp only [Option.map_some'] at h
  rw [hcur] at h
  exact absurd h (by decide)

/-- C15, amended (FLOP while in Floop).  With Floop current, raising FLOP
invokes the handler of Floop only; it reports handled and makes a transition
to Flop, running the exit callback of Floop and the entry callback of Flop;
Flop is current afterwards (id 1).  The handled-but-no-transition case of
Floop is FLOOP: the handler of Floop reports handled, prints "Already
flooped" and Floop stays current. -/
theorem flop_in_floop_transitions (f : Nat) :
    (on_flop (f + 1) (hsm_test_world_at (some floop_addr))).map
        (fun w => (w.calls, w.hsm.h_cur_state, hsm_get_current_state hsm_test_env w.hsm,
          w.console))
      = some ([⟨Call.signal floop_addr HSM_TEST_SIGNAL_FLOP 0, some floop_addr⟩,
          ⟨Call.state_exit floop_addr, some floop_addr⟩,
          ⟨Call.state_entry flop_addr, some flop_addr⟩], some flop_addr, 1,
          ["After flooping...\n", "You flopped\n"]) ∧
    (on_floop (f + 1) (hsm_test_world_at (some floop_addr))).map
        (fun w => (w.calls, w.hsm.h_cur_state, w.console))
      = some ([⟨Call.signal floop_addr HSM_TEST_SIGNAL_FLOOP 0, some floop_addr⟩],
          some floop_addr, ["Already flooped\n"]) :=
  ⟨rfl, rfl⟩

/-! ## The guard -/

theorem lock_level (env : Env) (w : World) (hpend : env.mutex_pend_rc = 0) :
    (lock env w).hsm.h_lock.mu_level = w.hsm.h_lock.mu_level + 1 := by
  simp [lock, os_mutex_pend, hpend]

theorem hsm_transition_guard (env : Env) (w : World) (dst : Option Nat)
    (hpend : env.mutex_pend_rc = 0) :
    (hsm_transition env w dst).hsm.h_lock = w.hsm.h_lock ∧
    (hsm_transition env w dst).accesses = w.accesses ++
      [Access.read (w.hsm.h_lock.mu_level + 1), Access.write dst (w.hsm.h_lock.mu_level + 1)] := by
  unfold hsm_transition
  cases hs : w.hsm.h_cur_state <;> cases dst <;>
    simp only [lock, unlock, note_read, set_cur, invoke, hs] <;>
    (repeat' split) <;>
    simp [os_mutex_pend, os_mutex_release, hpend]

theorem run_actions_guard (env : Env) (acts : List Action) (hpend : env.mutex_pend_rc = 0) :
    ∀ w : World, (run_actions env acts w).hsm.h_lock = w.hsm.h_lock ∧
      ∃ new, (run_actions env acts w).accesses = w.accesses ++ new ∧
        ∀ a ∈ new, access_level a = w.hsm.h_lock.mu_level + 1 := by
  induction acts with
  | nil => intro w; exact ⟨rfl, [], by simp [run_actions], by simp⟩
  | cons a rest ih =>
    intro w
    cases a with
    | print msg =>
      obtain ⟨h1, new, h2, h3⟩ := ih { w with console := w.console ++ [msg] }
      exact ⟨h1, new, h2, h3⟩
    | transition dst =>
      obtain ⟨t1, t2⟩ := hsm_transition_guard env w dst hpend
      obtain ⟨h1, new, h2, h3⟩ := ih (hsm_transition env w dst)
      refine ⟨h1.trans t1, Access.read (w.hsm.h_lock.mu_level + 1) ::
        Access.write dst (w.hsm.h_lock.mu_level + 1) :: new, ?_, ?_⟩
      · simp only [run_actions]
        rw [h2, t2]
        simp
      · intro a ha
        rw [t1] at h3
        simp only [List.mem_cons] at ha
        rcases ha with rfl | rfl | ha
        · rfl
        · rfl
        · exact h3 a ha

theorem hsm_raise_loop_guard (env : Env) (signal : Int) (hpend : env.mutex_pend_rc = 0)
    (fuel : Nat) :
    ∀ (current : Nat) (w w' : World), hsm_raise_loop env signal fuel current w = some w' →
      w'.hsm.h_lock = w.hsm.h_lock ∧
      ∃ new, w'.accesses = w.accesses ++ new ∧
        ∀ a ∈ new, access_level a = w.hsm.h_lock.mu_level + 1 := by
  induction fuel with
  | zero => intro current w w' hrun; simp [hsm_raise_loop] at hrun
  | succ f ih =>
    intro current w w' hrun
    have hc : (call_signal env w current signal).2.hsm.h_lock = w.hsm.h_lock ∧
        ∃ new, (call_signal env w current signal).2.accesses = w.accesses ++ new ∧
          ∀ a ∈ new, access_level a = w.hsm.h_lock.mu_level + 1 :=
      run_actions_guard env _ hpend _
    simp only [hsm_raise_loop] at hrun
    split at hrun
    · split at hrun
      · obtain ⟨c1, new1, c2, c3⟩ := hc
        obtain ⟨h1, new2, h2, h3⟩ := ih _ _ _ hrun
        refine ⟨h1.trans c1, new1 ++ new2, ?_, ?_⟩
        · rw [h2, c2, List.append_assoc]
        · intro a ha
          rcases List.mem_append.mp ha with ha | ha
          · exact c3 a ha
          · rw [c1] at h3; exact h3 a ha
      · cases hrun; exact hc
    · cases hrun; exact hc

theorem hsm_raise_guard (env : Env) (fuel : Nat) (w w' : World) (signal : Int)
    (hpend : env.mutex_pend_rc = 0) (hrun : hsm_raise env fuel w signal = some w') :
    w'.hsm.h_lock = w.hsm.h_lock ∧
    ∃ rest, w'.accesses = w.accesses ++ Access.read w.hsm.h_lock.mu_level :: rest ∧
      ∀ a ∈ rest, w.hsm.h_lock.mu_level < access_level a := by
  unfold hsm_raise at hrun
  simp only at hrun
  split at hrun
  · cases hrun
    exact ⟨rfl, [], rfl, by simp⟩
  · split at hrun
    · rcases Option.map_eq_some'.mp hrun with ⟨w2, hw2, rfl⟩
      obtain ⟨h1, new, h2, h3⟩ :=
        hsm_raise_loop_guard env signal hpend fuel _ (note_read (lock env (note_read w))) w2 hw2
      have hl : (note_read (lock env (note_read w))).hsm.h_lock.mu_level
          = w.hsm.h_lock.mu_level + 1 := lock_level env (note_read w) hpend
      refine ⟨?_, Access.read (w.hsm.h_lock.mu_level + 1) :: new, ?_, ?_⟩
      · simp only [unlock, h1]
        simp [note_read, lock, os_mutex_pend, os_mutex_release, hpend]
      · rw [show (unlock w2).accesses = w2.accesses from rfl, h2]
        simp [note_read, lock, os_mutex_pend, hpend]
      · intro a ha
        rcases List.mem_cons.mp ha with rfl | ha
        · simp [access_level]
        · rw [h3 a ha, hl]; omega
    · cases hrun

theorem hsm_exit_guard (env : Env) (w : World) (hpend : env.mutex_pend_rc = 0) :
    (hsm_exit env w).hsm.h_lock = w.hsm.h_lock ∧
    ∃ rest, (hsm_exit env w).accesses = w.accesses ++ Access.read w.hsm.h_lock.mu_level :: rest ∧
      ∀ a ∈ rest, w.hsm.h_lock.mu_level < access_level a := by
  unfold hsm_exit
  simp only
  split
  · exact ⟨rfl, [], rfl, by simp⟩
  · obtain ⟨t1, t2⟩ := hsm_transition_guard env (lock env (note_read w)) none hpend
    have hl : (lock env (note_read w)).hsm.h_lock.mu_level = w.hsm.h_lock.mu_level + 1 :=
      lock_level env (note_read w) hpend
    rw [hl] at t2
    generalize hsm_transition env (lock env (note_read w)) none = w2 at t1 t2
    have key : (unlock w2).hsm.h_lock = w.hsm.h_lock ∧
        ∃ rest, (unlock w2).accesses
            = w.accesses ++ Access.read w.hsm.h_lock.mu_level :: rest ∧
          ∀ a ∈ rest, w.hsm.h_lock.mu_level < access_level a := by
      refine ⟨?_, [Access.read (w.hsm.h_lock.mu_level + 1 + 1),
        Access.write none (w.hsm.h_lock.mu_level + 1 + 1)], ?_, ?_⟩
      · simp only [unlock, t1]
        simp [note_read, lock, os_mutex_pend, os_mutex_release, hpend]
      · rw [show (unlock w2).accesses = w2.accesses from rfl, t2]
        simp [note_read, lock]
      · intro a ha
        simp only [List.mem_cons, List.mem_singleton, List.not_mem_nil, or_false] at ha
        rcases ha with rfl | rfl <;> simp [access_level] <;> omega
    cases w2.hsm.h_on_exit <;> exact key

/-- C16 as stated fails: `hsm_exit` reads the current state pointer through
`hsm_is_active` before it acquires the guard.  On the machine over the
three-level chain, whose guard is not held, not every access of `hsm_exit` to
the current state pointer happens above the hold depth the call started at. -/
theorem exit_reads_current_unguarded :
    ¬ ∀ a ∈ (hsm_exit chain_env (chain_world (some 0))).accesses,
        (chain_world (some 0)).hsm.h_lock.mu_level < access_level a := by
  decide

/-- C16, amended (guard discipline).  On a host whose guard acquisition
succeeds, each of `hsm_transition`, `hsm_exit` and `hsm_raise` leaves the hold
depth of the guard as it found it.  `hsm_transition` makes its two accesses to
the current state pointer, a read and the assignment, one level above the depth
it started at.  `hsm_exit` and `hsm_raise` first read the pointer at the depth
they started at, for the activity check; every later access of theirs, so
every assignment, happens above that depth. -/
theorem guard_discipline (env : Env) (w : World) (dst : Option Nat) (signal : Int) (fuel : Nat)
    (hpend : env.mutex_pend_rc = 0) :
    ((hsm_transition env w dst).hsm.h_lock = w.hsm.h_lock ∧
      (hsm_transition env w dst).accesses = w.accesses ++
        [Access.read (w.hsm.h_lock.mu_level + 1),
          Access.write dst (w.hsm.h_lock.mu_level + 1)]) ∧
    ((hsm_exit env w).hsm.h_lock = w.hsm.h_lock ∧
      ∃ rest, (hsm_exit env w).accesses
          = w.accesses ++ Access.read w.hsm.h_lock.mu_level :: rest ∧
        ∀ a ∈ rest, w.hsm.h_lock.mu_level < access_level a) ∧
    (∀ w', hsm_raise env fuel w signal = some w' →
      w'.hsm.h_lock = w.hsm.h_lock ∧
      ∃ rest, w'.accesses = w.accesses ++ Access.read w.hsm.h_lock.mu_level :: rest ∧
        ∀ a ∈ rest, w.hsm.h_lock.mu_level < access_level a) :=
  ⟨hsm_transition_guard env w dst hpend, hsm_exit_guard env w hpend,
    fun w' h => hsm_raise_guard env fuel w w' signal hpend h⟩

/-- The guard on the demonstration machine in Flip: the accesses of an exit,
and of raising FLOP, with the hold depth at each. -/
theorem guard_discipline_witness :
    ((hsm_exit hsm_test_env (hsm_test_world_at (some flip_addr))).accesses
        = [Access.read 0, Access.read 2, Access.write none 2] ∧
      (hsm_raise hsm_test_env 1 (hsm_test_world_at (some flip_addr)) HSM_TEST_SIGNAL_FLOP).map
          (fun w' => (w'.accesses, w'.hsm.h_lock))
        = some ([Access.read 0, Access.read 1, Access.read 2, Access.write (some flop_addr) 2],
            { mu_level := 0 })) ∧
    (((hsm_transition hsm_test_env (hsm_test_world_at (some flip_addr)) (some flop_addr)).hsm.h_lock
        = (hsm_test_world_at (some flip_addr)).hsm.h_lock ∧
      (hsm_transition hsm_test_env (hsm_test_world_at (some flip_addr)) (some flop_addr)).accesses
        = (hsm_test_world_at (some flip_addr)).accesses ++
        [Access.read ((hsm_test_world_at (some flip_addr)).hsm.h_lock.mu_level + 1),
          Access.write (some flop_addr)
            ((hsm_test_world_at (some flip_addr)).hsm.h_lock.mu_level + 1)]) ∧
    ((hsm_exit hsm_test_env (hsm_test_world_at (some flip_addr))).hsm.h_lock
        = (hsm_test_world_at (some flip_addr)).hsm.h_lock ∧
      ∃ rest, (hsm_exit hsm_test_env (hsm_test_world_at (some flip_addr))).accesses
          = (hsm_test_world_at (some flip_addr)).accesses ++
            Access.read (hsm_test_world_at (some flip_addr)).hsm.h_lock.mu_level :: rest ∧
        ∀ a ∈ rest, (hsm_test_world_at (some flip_addr)).hsm.h_lock.mu_level < access_level a) ∧
    (∀ w', hsm_raise hsm_test_env 1 (hsm_test_world_at (some flip_addr)) HSM_TEST_SIGNAL_FLOP
        = some w' →
      w'.hsm.h_lock = (hsm_test_world_at (some flip_addr)).hsm.h_lock ∧
      ∃ rest, w'.accesses = (hsm_test_world_at (some flip_addr)).accesses ++
          Access.read (hsm_test_world_at (some flip_addr)).hsm.h_lock.mu_level :: rest ∧
        ∀ a ∈ rest,
          (hsm_test_world_at (some flip_addr)).hsm.h_lock.mu_level < access_level a)) :=
  ⟨by decide,
    guard_discipline hsm_test_env (hsm_test_world_at (some flip_addr)) (some flop_addr)
      HSM_TEST_SIGNAL_FLOP 1 rfl⟩

/-! ## A guard that cannot be acquired -/

theorem hsm_transition_console (env : Env) (w : World) (dst : Option Nat) :
    (hsm_transition env w dst).console
      = w.console ++ exit_output env w.hsm.h_cur_state ++ entry_output env dst := by
  unfold hsm_transition exit_output entry_output
  cases hs : w.hsm.h_cur_state <;> cases dst <;>
    simp only [lock, unlock, note_read, set_cur, invoke, hs] <;>
    (repeat' split) <;> simp_all

theorem same_outcome_refl (w : World) : same_outcome w w :=
  ⟨rfl, rfl, rfl, rfl, rfl, rfl⟩

theorem same_outcome_transition (env : Env) (w1 w2 : World) (dst : Option Nat)
    (h : same_outcome w1 w2) :
    same_outcome (hsm_transition env w1 dst) (hsm_transition (guard_acquired env) w2 dst) := by
  obtain ⟨h1, h2, h3, h4, h5, h6⟩ := h
  refine ⟨?_, ?_, ?_, ?_, ?_, ?_⟩
  · rw [hsm_transition_top, hsm_transition_top, h1]
  · rw [hsm_transition_on_entry, hsm_transition_on_entry, h2]
  · rw [hsm_transition_on_exit, hsm_transition_on_exit, h3]
  · rw [hsm_transition_cur, hsm_transition_cur]
  · rw [hsm_transition_calls, hsm_transition_calls, h4, h5]
    rfl
  · rw [hsm_transition_console, hsm_transition_console, h4, h6]
    rfl

theorem same_outcome_run_actions (env : Env) (acts : List Action) :
    ∀ w1 w2 : World, same_outcome w1 w2 →
      same_outcome (run_actions env acts w1) (run_actions (guard_acquired env) acts w2) := by
  induction acts with
  | nil => intro w1 w2 h; exact h
  | cons a rest ih =>
    intro w1 w2 h
    cases a with
    | print msg =>
      apply ih
      obtain ⟨h1, h2, h3, h4, h5, h6⟩ := h
      exact ⟨h1, h2, h3, h4, h5, by simp only [h6]⟩
    | transition dst => exact ih _ _ (same_outcome_transition env w1 w2 dst h)

theorem same_outcome_call_signal (env : Env) (w1 w2 : World) (current : Nat) (signal : Int)
    (h : same_outcome w1 w2) :
    (call_signal env w1 current signal).1
        = (call_signal (guard_acquired env) w2 current signal).1 ∧
    same_outcome (call_signal env w1 current signal).2
      (call_signal (guard_acquired env) w2 current signal).2 := by
  obtain ⟨h1, h2, h3, h4, h5, h6⟩ := h
  have hs : (guard_acquired env).states = env.states := rfl
  simp only [call_signal, hs, h4]
  refine ⟨trivial, ?_⟩
  apply same_outcome_run_actions
  exact ⟨h1, h2, h3, h4, by simp only [h5], h6⟩

theorem same_outcome_raise_loop (env : Env) (signal : Int) (fuel : Nat) :
    ∀ (current : Nat) (w1 w2 : World), same_outcome w1 w2 →
      Option.Rel same_outcome (hsm_raise_loop env signal fuel current w1)
        (hsm_raise_loop (guard_acquired env) signal fuel current w2) := by
  induction fuel with
  | zero => intro current w1 w2 _; exact Option.Rel.none
  | succ f ih =>
    intro current w1 w2 h
    obtain ⟨hrc, hw⟩ := same_outcome_call_signal env w1 w2 current signal h
    have hs : (guard_acquired env).states = env.states := rfl
    simp only [hsm_raise_loop, hs, ← hrc]
    cases (env.states current).hst_parent with
    | none => exact Option.Rel.some hw
    | some parent =>
      by_cases hz : (call_signal env w1 current signal).1 = 0
      · simp only [hz, ne_eq, not_true_eq_false, if_false]
        exact Option.Rel.some hw
      · simp only [hz, ne_eq, not_false_eq_true, if_true]
        exact ih parent _ _ hw

theorem same_outcome_raise (env : Env) (fuel : Nat) (w : World) (signal : Int) :
    Option.Rel same_outcome (hsm_raise env fuel w signal)
      (hsm_raise (guard_acquired env) fuel w signal) := by
  unfold hsm_raise
  simp only
  cases hact : hsm_is_active (note_read w).hsm with
  | false => exact Option.Rel.some (same_outcome_refl _)
  | true =>
    simp only [Bool.not_true, Bool.false_eq_true, if_false]
    have hc : (note_read (lock (guard_acquired env) (note_read w))).hsm.h_cur_state
        = (note_read (lock env (note_read w))).hsm.h_cur_state := rfl
    rw [hc]
    cases (note_read (lock env (note_read w))).hsm.h_cur_state with
    | none => exact Option.Rel.none
    | some current =>
      have hrel := same_outcome_raise_loop env signal fuel current
        (note_read (lock env (note_read w)))
        (note_read (lock (guard_acquired env) (note_read w))) ⟨rfl, rfl, rfl, rfl, rfl, rfl⟩
      dsimp only
      generalize hsm_raise_loop env signal fuel current
        (note_read (lock env (note_read w))) = a at hrel ⊢
      generalize hsm_raise_loop (guard_acquired env) signal fuel current
        (note_read (lock (guard_acquired env) (note_read w))) = b at hrel ⊢
      cases hrel with
      | none => exact Option.Rel.none
      | some hab => exact Option.Rel.some hab

theorem same_outcome_exit (env : Env) (w : World) :
    same_outcome (hsm_exit env w) (hsm_exit (guard_acquired env) w) := by
  unfold hsm_exit
  simp only
  cases hact : hsm_is_active (note_read w).hsm with
  | false => exact same_outcome_refl _
  | true =>
    simp only [Bool.not_true, Bool.false_eq_true, if_false]
    have ht := same_outcome_transition env (lock env (note_read w))
      (lock (guard_acquired env) (note_read w)) none ⟨rfl, rfl, rfl, rfl, rfl, rfl⟩
    generalize hsm_transition env (lock env (note_read w)) none = a at ht
    generalize hsm_transition (guard_acquired env) (lock (guard_acquired env) (note_read w)) none
      = b at ht
    obtain ⟨h1, h2, h3, h4, h5, h6⟩ := ht
    rw [h3]
    cases b.hsm.h_on_exit with
    | none => exact ⟨h1, h2, h3, h4, h5, h6⟩
    | some f =>
      refine ⟨h1, h2, h3, h4, ?_, ?_⟩
      · simp only [unlock, invoke, h4, h5]
      · simp only [unlock, invoke, h4, h6]

/-- C17 as stated fails: on a host whose `os_mutex_pend` fails, a transition
of the machine over the three-level chain from the leaf to state 3 still
replaces the current state. -/
theorem failed_acquisition_still_transitions :
    ¬ ((os_mutex_pend chain_env_guard_fails (chain_world (some 0)).hsm.h_lock).1 ≠ 0 →
        (hsm_transition chain_env_guard_fails (chain_world (some 0)) (some 3)).hsm.h_cur_state
          = (chain_world (some 0)).hsm.h_cur_state) := by
  decide

/-- C17, amended (guard failure).  When `os_mutex_init` fails, `hsm_init`
called with a top state returns the non-zero code of `os_mutex_init` and
leaves the current state as it was, the top state and the machine-level
callbacks being bound to the arguments already.  When `os_mutex_pend` fails,
`hsm_transition`, `hsm_exit` and `hsm_raise`, which return no value, go on as
when it succeeds: the transition makes `dst` current, and the top state, the
machine-level callbacks, the current state, the callbacks invoked and the
console come out the same as on a host where the acquisition succeeds. -/
theorem guard_failure (env : Env) (w : World) (t : Nat) (entry : Option hsm_entry_fn)
    (exit : Option hsm_exit_fn) (dst : Option Nat) (signal : Int) (fuel : Nat)
    (hinit : env.mutex_init_rc ≠ 0) (hpend : env.mutex_pend_rc ≠ 0) :
    ((hsm_init env w (some t) entry exit).1 = env.mutex_init_rc ∧
      (hsm_init env w (some t) entry exit).1 ≠ 0 ∧
      (hsm_init env w (some t) entry exit).2.hsm.h_cur_state = w.hsm.h_cur_state ∧
      (hsm_init env w (some t) entry exit).2.hsm.h_top = some t ∧
      (hsm_init env w (some t) entry exit).2.hsm.h_on_entry = entry ∧
      (hsm_init env w (some t) entry exit).2.hsm.h_on_exit = exit) ∧
    (os_mutex_pend env w.hsm.h_lock).1 ≠ 0 ∧
    (hsm_transition env w dst).hsm.h_cur_state = dst ∧
    same_outcome (hsm_transition env w dst) (hsm_transition (guard_acquired env) w dst) ∧
    same_outcome (hsm_exit env w) (hsm_exit (guard_acquired env) w) ∧
    Option.Rel same_outcome (hsm_raise env fuel w signal)
      (hsm_raise (guard_acquired env) fuel w signal) := by
  refine ⟨?_, ?_, hsm_transition_cur env w dst,
    same_outcome_transition env w w dst (same_outcome_refl w), same_outcome_exit env w,
    same_outcome_raise env fuel w signal⟩
  · simp [hsm_init, os_mutex_init, hinit]
  · simp [os_mutex_pend, hpend]

/-- Guard failure on the machine over the three-level chain with the leaf
current: `hsm_init` returns 3 and the leaf stays current; a transition to
state 3 and an exit go through. -/
theorem guard_failure_witness :
    ((hsm_init chain_env_guard_fails (chain_world (some 0)) (some 3) none none).1 = 3 ∧
      (hsm_init chain_env_guard_fails (chain_world (some 0)) (some 3) none none).2.hsm.h_cur_state
        = some 0 ∧
      (hsm_transition chain_env_guard_fails (chain_world (some 0)) (some 3)).hsm.h_cur_state
        = some 3 ∧
      (hsm_exit chain_env_guard_fails (chain_world (some 0))).calls
        = [⟨Call.state_exit 0, some 0⟩, ⟨Call.machine_exit, none⟩]) ∧
    (((hsm_init chain_env_guard_fails (chain_world (some 0)) (some 3) none none).1
        = chain_env_guard_fails.mutex_init_rc ∧
      (hsm_init chain_env_guard_fails (chain_world (some 0)) (some 3) none none).1 ≠ 0 ∧
      (hsm_init chain_env_guard_fails (chain_world (some 0)) (some 3) none none).2.hsm.h_cur_state
        = (chain_world (some 0)).hsm.h_cur_state ∧
      (hsm_init chain_env_guard_fails (chain_world (some 0)) (some 3) none none).2.hsm.h_top
        = some 3 ∧
      (hsm_init chain_env_guard_fails (chain_world (some 0)) (some 3) none none).2.hsm.h_on_entry
        = none ∧
      (hsm_init chain_env_guard_fails (chain_world (some 0)) (some 3) none none).2.hsm.h_on_exit
        = none) ∧
    (os_mutex_pend chain_env_guard_fails (chain_world (some 0)).hsm.h_lock).1 ≠ 0 ∧
    (hsm_transition chain_env_guard_fails (chain_world (some 0)) (some 3)).hsm.h_cur_state
      = some 3 ∧
    same_outcome (hsm_transition chain_env_guard_fails (chain_world (some 0)) (some 3))
      (hsm_transition (guard_acquired chain_env_guard_fails) (chain_world (some 0)) (some 3)) ∧
    same_outcome (hsm_exit chain_env_guard_fails (chain_world (some 0)))
      (hsm_exit (guard_acquired chain_env_guard_fails) (chain_world (some 0))) ∧
    Option.Rel same_outcome (hsm_raise chain_env_guard_fails 3 (chain_world (some 0)) 7)
      (hsm_raise (guard_acquired chain_env_guard_fails) 3 (chain_world (some 0)) 7)) :=
  ⟨by decide,
    guard_failure chain_env_guard_fails (chain_world (some 0)) 3 none none (some 3) 7 3
      (by decide) (by decide)⟩

/-! ## Raise on an active machine -/

theorem hsm_raise_active (env : Env) (fuel : Nat) (w : World) (signal : Int) (s0 : Nat)
    (hcur : w.hsm.h_cur_state = some s0) :
    hsm_raise env fuel w signal
      = (hsm_raise_loop env signal fuel s0 (note_read (lock env (note_read w)))).map unlock := by
  have hact : hsm_is_active (note_read w).hsm = true := by
    simp [hsm_is_active, note_read, hcur]
  have hcur' : (note_read (lock env (note_read w))).hsm.h_cur_state = some s0 := by
    simp [note_read, lock, hcur]
  simp only [hsm_raise, hact, hcur']
  rfl

theorem exit_call_length (env : Env) (src : Option Nat) : (exit_call env src).length ≤ 1 := by
  unfold exit_call
  cases src with
  | none => simp
  | some s => by_cases h : (env.states s).hst_on_exit.isSome <;> simp [h]

theorem entry_call_length (env : Env) (dst : Option Nat) : (entry_call env dst).length ≤ 1 := by
  unfold entry_call
  cases dst with
  | none => simp
  | some s => by_cases h : (env.states s).hst_on_entry.isSome <;> simp [h]

/-- C23 (raise and transition run to completion).  On an active machine whose
current state `s0` has the finite parent chain `s0 :: rest`, so of length
`n = rest.length + 1`, `hsm_raise` returns within `n` iterations of its loop
(any fuel of at least `n`), having invoked at most `n` signal handlers, the
handlers being scripts that end.  A call of `hsm_transition` is total; it
invokes at most one exit callback followed by at most one entry callback. -/
theorem raise_and_transition_complete (env : Env) (w : World) (signal : Int) (s0 : Nat)
    (rest : List Nat) (fuel : Nat) (dst : Option Nat) (hcur : w.hsm.h_cur_state = some s0)
    (hchain : is_parent_chain env (s0 :: rest) = true) (hfuel : rest.length + 1 ≤ fuel) :
    (∃ w', hsm_raise env fuel w signal = some w' ∧
      (handlers_invoked w'.calls).length
        ≤ (handlers_invoked w.calls).length + (rest.length + 1)) ∧
    (∃ out into, (hsm_transition env w dst).calls = w.calls ++ out ++ into ∧
      out.length ≤ 1 ∧ into.length ≤ 1 ∧
      (∀ inv ∈ out, inv.call = Call.state_exit s0) ∧
      (∀ inv ∈ into, ∃ d, dst = some d ∧ inv.call = Call.state_entry d)) := by
  constructor
  · obtain ⟨w', new, hrun, hcalls, _, hpre, _, _⟩ :=
      hsm_raise_loop_bubbles env signal rest s0 fuel (note_read (lock env (note_read w)))
        hchain hfuel
    refine ⟨unlock w', ?_, ?_⟩
    · rw [hsm_raise_active env fuel w signal s0 hcur, hrun]; rfl
    · rw [show (unlock w').calls = w'.calls from rfl, hcalls]
      have hlen := hpre.length_le
      simp only [List.length_map, List.length_cons] at hlen
      rw [List.length_append]
      have : handlers_invoked (note_read (lock env (note_read w))).calls
          = handlers_invoked w.calls := rfl
      rw [this]
      omega
  · refine ⟨exit_call env w.hsm.h_cur_state, entry_call env dst, hsm_transition_calls env w dst,
      exit_call_length env _, entry_call_length env _, ?_, ?_⟩
    · intro inv hinv
      rw [hcur] at hinv
      rw [mem_exit_call env s0 inv hinv]
    · intro inv hinv
      cases dst with
      | none => simp [entry_call] at hinv
      | some d => exact ⟨d, rfl, by rw [mem_entry_call env d inv hinv]⟩

/-- Completion on the three-level chain with the leaf current: signal 5 is
handled by the root only, so all three handlers run, and no more. -/
theorem raise_and_transition_complete_witness :
    ((hsm_raise chain_env 3 (chain_world (some 0)) 5).map
        (fun w' => handlers_invoked w'.calls) = some [(0, 1), (1, 1), (2, 0)] ∧
      (hsm_transition chain_env (chain_world (some 0)) (some 3)).calls
        = [⟨Call.state_exit 0, some 0⟩, ⟨Call.state_entry 3, some 3⟩]) ∧
    ((∃ w', hsm_raise chain_env 3 (chain_world (some 0)) 5 = some w' ∧
      (handlers_invoked w'.calls).length
        ≤ (handlers_invoked (chain_world (some 0)).calls).length + ([1, 2].length + 1)) ∧
    (∃ out into, (hsm_transition chain_env (chain_world (some 0)) (some 3)).calls
        = (chain_world (some 0)).calls ++ out ++ into ∧
      out.length ≤ 1 ∧ into.length ≤ 1 ∧
      (∀ inv ∈ out, inv.call = Call.state_exit 0) ∧
      (∀ inv ∈ into, ∃ d, some 3 = some d ∧ inv.call = Call.state_entry d))) :=
  ⟨by decide,
    raise_and_transition_complete chain_env (chain_world (some 0)) 5 0 [1, 2] 3 (some 3) rfl
      (by decide) (by decide)⟩

/-! ## The chain a signal bubbles along -/

theorem hsm_raise_loop_bubbles_along (env : Env) (signal : Int) (rest : List Nat) :
    ∀ (s0 fuel : Nat) (w : World), is_parent_chain env (s0 :: rest) = true →
      rest.length + 1 ≤ fuel →
      ∃ w' new, hsm_raise_loop env signal fuel s0 w = some w' ∧
        handlers_invoked w'.calls = handlers_invoked w.calls ++ new ∧
        bubbles_along (s0 :: rest) new = true := by
  induction rest with
  | nil =>
    intro s0 fuel w hchain hfuel
    obtain ⟨f, rfl⟩ : ∃ f, fuel = f + 1 := ⟨fuel - 1, by simp at hfuel; omega⟩
    have hp : (env.states s0).hst_parent = none := by simpa [is_parent_chain] using hchain
    refine ⟨(call_signal env w s0 signal).2, [(s0, (call_signal env w s0 signal).1)], ?_, ?_, ?_⟩
    · simp [hsm_raise_loop, hp]
    · exact handlers_invoked_call_signal env w s0 signal
    · simp [bubbles_along]
  | cons t rest ih =>
    intro s0 fuel w hchain hfuel
    obtain ⟨f, rfl⟩ : ∃ f, fuel = f + 1 := ⟨fuel - 1, by simp at hfuel; omega⟩
    rw [is_parent_chain_cons_cons] at hchain
    simp at hchain
    have hp : (env.states s0).hst_parent = some t := hchain.1
    by_cases hrc : (call_signal env w s0 signal).1 = 0
    · refine ⟨(call_signal env w s0 signal).2, [(s0, (call_signal env w s0 signal).1)], ?_, ?_, ?_⟩
      · simp [hsm_raise_loop, hp, hrc]
      · exact handlers_invoked_call_signal env w s0 signal
      · simp [bubbles_along, hrc]
    · have hf : rest.length + 1 ≤ f := by simp at hfuel; omega
      obtain ⟨w', tail, hrun, hcalls, hb⟩ :=
        ih t f (call_signal env w s0 signal).2 hchain.2 hf
      refine ⟨w', (s0, (call_signal env w s0 signal).1) :: tail, ?_, ?_, ?_⟩
      · simp [hsm_raise_loop, hp, hrc, hrun]
      · rw [hcalls, handlers_invoked_call_signal]; simp
      · simp [bubbles_along, hrc, hb]

theorem bubbles_along_determined (chain : List Nat) :
    ∀ a b : List (Nat × Int), bubbles_along chain a = true → bubbles_along chain b = true →
      a.map Prod.snd = b.map Prod.snd → a = b := by
  induction chain with
  | nil => intro a b ha; simp [bubbles_along] at ha
  | cons s rest ih =>
    intro a b ha hb hcodes
    cases a with
    | nil => simp [bubbles_along] at ha
    | cons pa ta =>
      cases b with
      | nil => simp [bubbles_along] at hb
      | cons pb tb =>
        obtain ⟨sa, ra⟩ := pa
        obtain ⟨sb, rb⟩ := pb
        simp only [List.map_cons, List.cons.injEq] at hcodes
        obtain ⟨hr, ht⟩ := hcodes
        subst hr
        simp only [bubbles_along, Bool.and_eq_true, beq_iff_eq] at ha hb
        obtain ⟨hsa, ha⟩ := ha
        obtain ⟨hsb, hb⟩ := hb
        subst hsa
        subst hsb
        by_cases hstop : ra = 0 ∨ rest = []
        · rw [if_pos hstop] at ha hb
          simp only [List.isEmpty_iff] at ha hb
          rw [ha, hb]
        · rw [if_neg hstop] at ha hb
          rw [ih ta tb ha hb ht]

/-- C24 (bubbling follows the chain fixed at the start of raise).  On an active
machine whose current state `s0` has the finite parent chain `s0 :: rest`,
whatever the handlers do, transitions included, the handlers `hsm_raise`
invokes bubble along that chain, the chain of the state that was current when
raise began: after a handler that returned not handled comes the handler of
the parent of its state, and after a handler that returned handled none.  The
sequence is fixed by the chain and the codes the handlers returned: any
bubbling along the chain with the same codes is the same sequence. -/
theorem bubbling_follows_initial_chain (env : Env) (w : World) (signal : Int) (s0 : Nat)
    (rest : List Nat) (fuel : Nat) (hcur : w.hsm.h_cur_state = some s0)
    (hchain : is_parent_chain env (s0 :: rest) = true) (hfuel : rest.length + 1 ≤ fuel) :
    ∃ w' new, hsm_raise env fuel w signal = some w' ∧
      handlers_invoked w'.calls = handlers_invoked w.calls ++ new ∧
      bubbles_along (s0 :: rest) new = true ∧
      ∀ other, bubbles_along (s0 :: rest) other = true →
        other.map Prod.snd = new.map Prod.snd → other = new := by
  obtain ⟨w', new, hrun, hcalls, hb⟩ :=
    hsm_raise_loop_bubbles_along env signal rest s0 fuel (note_read (lock env (note_read w)))
      hchain hfuel
  refine ⟨unlock w', new, ?_, ?_, hb, ?_⟩
  · rw [hsm_raise_active env fuel w signal s0 hcur, hrun]; rfl
  · rw [show (unlock w').calls = w'.calls from rfl, hcalls]
    rfl
  · intro other ho hcodes
    exact bubbles_along_determined (s0 :: rest) other new ho hb hcodes

/-- Bubbling with transitions on the way: the leaf (0) goes to state 3 and
reports not handled, and the next handler is that of `mid` (1), the parent of
the leaf, not that of state 3; `mid` goes to the root (2) and reports handled,
and the handler of the root, the new current state, is not invoked. -/
theorem bubbling_follows_initial_chain_witness :
    ((hsm_raise detour_env 3 (chain_world (some 0)) 5).map
        (fun w' => (w'.calls, w'.hsm.h_cur_state, w'.console))
      = some ([⟨Call.signal 0 5 1, some 0⟩, ⟨Call.signal 1 5 0, some 3⟩], some 2, [])) ∧
    ∃ w' new, hsm_raise detour_env 3 (chain_world (some 0)) 5 = some w' ∧
      handlers_invoked w'.calls = handlers_invoked (chain_world (some 0)).calls ++ new ∧
      bubbles_along [0, 1, 2] new = true ∧
      ∀ other, bubbles_along [0, 1, 2] other = true →
        other.map Prod.snd = new.map Prod.snd → other = new :=
  ⟨by decide,
    bubbling_follows_initial_chain detour_env (chain_world (some 0)) 5 0 [1, 2] 3 rfl
      (by decide) (by decide)⟩

/-- C25 (demonstration, real bubbling).  With Floop current, raising FLIP
invokes the handler of Floop, which reports not handled, then the handler of
its parent Flop, which reports handled and makes a transition to Flip.  The
transition runs the exit callback of Floop, the current state ("After
flooping..."), and the entry callback of Flip ("You flipped"); the exit
callback of Flop does not run.  Flip is current afterwards (id 0).  Any fuel of
at least two loop iterations will do. -/
theorem flip_in_floop_bubbles (f : Nat) :
    (on_flip (f + 2) (hsm_test_world_at (some floop_addr))).map
        (fun w => (w.calls, w.console, w.hsm.h_cur_state,
          hsm_get_current_state hsm_test_env w.hsm))
      = some ([⟨Call.signal floop_addr HSM_TEST_SIGNAL_FLIP 1, some floop_addr⟩,
          ⟨Call.signal flop_addr HSM_TEST_SIGNAL_FLIP 0, some floop_addr⟩,
          ⟨Call.state_exit floop_addr, some floop_addr⟩,
          ⟨Call.state_entry flip_addr, some flip_addr⟩],
          ["After flooping...\n", "You flipped\n"], some flip_addr, 0) :=
  rfl

/-! ## The current state after a raise -/

theorem run_actions_cur (env : Env) (acts : List Action) :
    ∀ w : World, (run_actions env acts w).hsm.h_cur_state = script_cur acts w.hsm.h_cur_state := by
  induction acts with
  | nil => intro w; rfl
  | cons a rest ih =>
    intro w
    cases a with
    | print msg => simp only [run_actions, script_cur]; rw [ih]
    | transition dst => simp only [run_actions, script_cur]; rw [ih, hsm_transition_cur]

theorem run_actions_top (env : Env) (acts : List Action) :
    ∀ w : World, (run_actions env acts w).hsm.h_top = w.hsm.h_top := by
  induction acts with
  | nil => intro w; rfl
  | cons a rest ih =>
    intro w
    cases a with
    | print msg => simp only [run_actions]; rw [ih]
    | transition dst => simp only [run_actions]; rw [ih, hsm_transition_top]

theorem hsm_raise_loop_cur (env : Env) (signal : Int) :
    ∀ (fuel current : Nat) (w : World),
      (hsm_raise_loop env signal fuel current w).map (fun w' => w'.hsm.h_cur_state)
        = raise_loop_cur env signal fuel current w.hsm.h_cur_state := by
  intro fuel
  induction fuel with
  | zero => intro current w; rfl
  | succ f ih =>
    intro current w
    have hc : (call_signal env w current signal).2.hsm.h_cur_state
        = script_cur ((env.states current).hst_on_signal w.hsm.h_cur_state signal).1
            w.hsm.h_cur_state := by
      simp only [call_signal]; rw [run_actions_cur]
    have hr : (call_signal env w current signal).1
        = ((env.states current).hst_on_signal w.hsm.h_cur_state signal).2 := rfl
    simp only [hsm_raise_loop, raise_loop_cur]
    cases hp : (env.states current).hst_parent with
    | none => simp only [Option.map_some', hc]
    | some parent =>
      simp only [hr]
      by_cases h0 : ((env.states current).hst_on_signal w.hsm.h_cur_state signal).2 = 0
      · simp only [h0, ne_eq, not_true_eq_false, if_false, Option.map_some', hc]
      · simp only [h0, ne_eq, not_false_eq_true, if_true]
        rw [ih, hc]

theorem hsm_raise_loop_top (env : Env) (signal : Int) :
    ∀ (fuel current : Nat) (w w' : World), hsm_raise_loop env signal fuel current w = some w' →
      w'.hsm.h_top = w.hsm.h_top := by
  intro fuel
  induction fuel with
  | zero => intro current w w' h; simp [hsm_raise_loop] at h
  | succ f ih =>
    intro current w w' h
    have ht : (call_signal env w current signal).2.hsm.h_top = w.hsm.h_top := by
      simp only [call_signal]; rw [run_actions_top]
    simp only [hsm_raise_loop] at h
    cases hp : (env.states current).hst_parent with
    | none =>
      rw [hp] at h
      simp only [Option.some.injEq] at h
      rw [← h, ht]
    | some parent =>
      rw [hp] at h
      simp only at h
      by_cases h0 : (call_signal env w current signal).1 = 0
      · simp only [h0, ne_eq, not_true_eq_false, if_false, Option.some.injEq] at h
        rw [← h, ht]
      · simp only [h0, ne_eq, not_false_eq_true, if_true] at h
        rw [ih parent _ w' h, ht]

theorem hsm_raise_cur (env : Env) (fuel : Nat) (w : World) (signal : Int) (s0 : Nat)
    (hcur : w.hsm.h_cur_state = some s0) :
    (hsm_raise env fuel w signal).map (fun w' => w'.hsm.h_cur_state)
      = raise_loop_cur env signal fuel s0 (some s0) := by
  rw [hsm_raise_active env fuel w signal s0 hcur, Option.map_map]
  have h := hsm_raise_loop_cur env signal fuel s0 (note_read (lock env (note_read w)))
  have hc : (note_read (lock env (note_read w))).hsm.h_cur_state = some s0 := hcur
  rw [hc] at h
  exact h

theorem hsm_raise_top (env : Env) (fuel : Nat) (w w' : World) (signal : Int)
    (h : hsm_raise env fuel w signal = some w') : w'.hsm.h_top = w.hsm.h_top := by
  cases hcur : w.hsm.h_cur_state with
  | none =>
    have hact : hsm_is_active (note_read w).hsm = false := by
      simp [hsm_is_active, note_read, hcur]
    simp [hsm_raise, hact] at h
    rw [← h]; rfl
  | some s0 =>
    rw [hsm_raise_active env fuel w signal s0 hcur] at h
    obtain ⟨w1, h1, rfl⟩ := Option.map_eq_some'.mp h
    have h2 := hsm_raise_loop_top env signal fuel s0 _ w1 h1
    exact h2

theorem hsm_raise_inactive (env : Env) (fuel : Nat) (w : World) (signal : Int)
    (hcur : w.hsm.h_cur_state = none) : hsm_raise env fuel w signal = some (note_read w) := by
  have hact : hsm_is_active (note_read w).hsm = false := by
    simp [hsm_is_active, note_read, hcur]
  simp [hsm_raise, hact]

/-! ## The demonstration machine under its commands -/

theorem demo_raise_cur (f : Nat) (w : World) (signal : Int)
    (hS : w.hsm.h_cur_state = none ∨ w.hsm.h_cur_state = some flip_addr ∨
      w.hsm.h_cur_state = some flop_addr ∨ w.hsm.h_cur_state = some floop_addr) :
    (hsm_raise hsm_test_env (f + 2) w signal).map (fun w' => w'.hsm.h_cur_state)
      = some (demo_next w.hsm.h_cur_state signal) := by
  rcases hS with h | h | h | h
  · rw [hsm_raise_inactive _ _ _ _ h]
    simp [demo_next, note_read, h]
  · rw [hsm_raise_cur _ _ _ _ _ h, h]
    by_cases h1 : signal = 0
    · subst h1; rfl
    · by_cases h2 : signal = 1
      · subst h2; rfl
      · by_cases h3 : signal = 2
        · subst h3; rfl
        · simp [raise_loop_cur, hsm_test_env, flip_addr, flop_addr, floop_addr,
            hsm_test_state_flip, on_flip_signal, HSM_TEST_SIGNAL_FLIP, HSM_TEST_SIGNAL_FLOP,
            HSM_TEST_SIGNAL_FLOOP, h1, h2, h3, script_cur, demo_next]
  · rw [hsm_raise_cur _ _ _ _ _ h, h]
    by_cases h1 : signal = 0
    · subst h1; rfl
    · by_cases h2 : signal = 1
      · subst h2; rfl
      · by_cases h3 : signal = 2
        · subst h3; rfl
        · simp [raise_loop_cur, hsm_test_env, flip_addr, flop_addr, floop_addr,
            hsm_test_state_flop, on_flop_signal, HSM_TEST_SIGNAL_FLIP, HSM_TEST_SIGNAL_FLOP,
            HSM_TEST_SIGNAL_FLOOP, h1, h2, h3, script_cur, demo_next]
  · rw [hsm_raise_cur _ _ _ _ _ h, h]
    by_cases h1 : signal = 0
    · subst h1; rfl
    · by_cases h2 : signal = 1
      · subst h2; rfl
      · by_cases h3 : signal = 2
        · subst h3; rfl
        · simp [raise_loop_cur, hsm_test_env, flip_addr, flop_addr, floop_addr,
            hsm_test_state_flop, hsm_test_state_floop, on_flop_signal, on_floop_signal,
            HSM_TEST_SIGNAL_FLIP, HSM_TEST_SIGNAL_FLOP,
            HSM_TEST_SIGNAL_FLOOP, h1, h2, h3, script_cur, demo_next]

theorem demo_next_state (cur : Option Nat) (signal : Int)
    (hS : cur = none ∨ cur = some flip_addr ∨ cur = some flop_addr ∨ cur = some floop_addr) :
    (demo_next cur signal = none ∨ demo_next cur signal = some flip_addr ∨
      demo_next cur signal = some flop_addr ∨ demo_next cur signal = some floop_addr) ∧
    (demo_next cur signal = some floop_addr → cur = some flop_addr ∨ cur = some floop_addr) := by
  rcases hS with h | h | h | h <;> subst h <;>
    simp only [demo_next, flip_addr, flop_addr, floop_addr] <;>
    (repeat' split) <;> simp_all

theorem demo_floop_in_flip (f : Nat) (w : World) (hcur : w.hsm.h_cur_state = some flip_addr) :
    ∃ w2, hsm_raise hsm_test_env (f + 2) w HSM_TEST_SIGNAL_FLOOP = some w2 ∧
      w2.calls = w.calls ++ [⟨Call.signal flip_addr HSM_TEST_SIGNAL_FLOOP 0, some flip_addr⟩] ∧
      w2.console = w.console ++ ["Can't floop until you flop\n"] ∧
      w2.hsm.h_cur_state = some flip_addr := by
  rw [hsm_raise_active _ _ _ _ _ hcur]
  have hc : (note_read (lock hsm_test_env (note_read w))).hsm.h_cur_state = some flip_addr := hcur
  refine ⟨_, rfl, ?_, ?_, ?_⟩
  · show (note_read (lock hsm_test_env (note_read w))).calls ++ [_] = _
    rw [hc]; rfl
  · rfl
  · exact hcur

/-- One demo command on a demonstration machine whose current state is none,
Flip, Flop or Floop: the command returns, the current state is again one of
these, and it is Floop only if it was Flop or Floop before. -/
theorem demo_step (f : Nat) (w : World) (op : Op) (hop : is_demo_command op = true)
    (htop : w.hsm.h_top = some flip_addr)
    (hS : w.hsm.h_cur_state = none ∨ w.hsm.h_cur_state = some flip_addr ∨
      w.hsm.h_cur_state = some flop_addr ∨ w.hsm.h_cur_state = some floop_addr) :
    ∃ w2, apply_op hsm_test_env (f + 2) w op = some w2 ∧
      w2.hsm.h_top = some flip_addr ∧
      (w2.hsm.h_cur_state = none ∨ w2.hsm.h_cur_state = some flip_addr ∨
        w2.hsm.h_cur_state = some flop_addr ∨ w2.hsm.h_cur_state = some floop_addr) ∧
      (w2.hsm.h_cur_state = some floop_addr →
        w.hsm.h_cur_state = some flop_addr ∨ w.hsm.h_cur_state = some floop_addr) := by
  cases op with
  | transition dst => simp [is_demo_command] at hop
  | enter =>
    refine ⟨hsm_enter hsm_test_env w, rfl, ?_, ?_, ?_⟩
    · rw [(hsm_enter_fields hsm_test_env w).1, htop]
    · cases hc : w.hsm.h_cur_state with
      | none =>
        rw [(hsm_enter_from_none hsm_test_env w hc).2, htop]
        exact Or.inr (Or.inl rfl)
      | some s =>
        have hact : hsm_is_active w.hsm = true := by simp [hsm_is_active, hc]
        rw [(hsm_enter_active hsm_test_env w hact).1]
        exact hS
    · cases hc : w.hsm.h_cur_state with
      | none =>
        rw [(hsm_enter_from_none hsm_test_env w hc).2, htop]
        intro h
        simp [flip_addr, floop_addr] at h
      | some s =>
        have hact : hsm_is_active w.hsm = true := by simp [hsm_is_active, hc]
        rw [(hsm_enter_active hsm_test_env w hact).1, hc]
        intro h
        exact Or.inr h
  | exit =>
    have hnone : (hsm_exit hsm_test_env w).hsm.h_cur_state = none := by
      cases hc : w.hsm.h_cur_state with
      | none => rw [(hsm_exit_inactive hsm_test_env w hc).1, hc]
      | some s => exact (hsm_exit_from_some hsm_test_env w s hc).2
    refine ⟨hsm_exit hsm_test_env w, rfl, ?_, Or.inl hnone, ?_⟩
    · rw [(hsm_exit_fields hsm_test_env w).1, htop]
    · intro h
      rw [hnone] at h
      simp at h
  | raise signal =>
    have hcur := demo_raise_cur f w signal hS
    obtain ⟨w2, hw2, hc2⟩ := Option.map_eq_some'.mp hcur
    have hn := demo_next_state w.hsm.h_cur_state signal hS
    refine ⟨w2, hw2, ?_, ?_, ?_⟩
    · rw [hsm_raise_top hsm_test_env (f + 2) w w2 signal hw2, htop]
    · rw [hc2]; exact hn.1
    · rw [hc2]; exact hn.2

theorem demo_run (f : Nat) (ops : List Op) :
    ∀ w : World, (∀ op ∈ ops, is_demo_command op = true) → w.hsm.h_top = some flip_addr →
      (w.hsm.h_cur_state = none ∨ w.hsm.h_cur_state = some flip_addr ∨
        w.hsm.h_cur_state = some flop_addr ∨ w.hsm.h_cur_state = some floop_addr) →
      ∃ w', run_ops hsm_test_env (f + 2) ops w = some w' ∧ w'.hsm.h_top = some flip_addr ∧
        (w'.hsm.h_cur_state = none ∨ w'.hsm.h_cur_state = some flip_addr ∨
          w'.hsm.h_cur_state = some flop_addr ∨ w'.hsm.h_cur_state = some floop_addr) := by
  induction ops with
  | nil => intro w _ htop hS; exact ⟨w, rfl, htop, hS⟩
  | cons op rest ih =>
    intro w hops htop hS
    obtain ⟨w1, h1, htop1, hS1, _⟩ :=
      demo_step f w op (hops op (List.mem_cons_self _ _)) htop hS
    obtain ⟨w', h', htop', hS'⟩ :=
      ih w1 (fun o ho => hops o (List.mem_cons_of_mem _ ho)) htop1 hS1
    exact ⟨w', by simp only [run_ops, h1, h'], htop', hS'⟩

/-- C26 (demo reachability invariant).  Take any finite sequence of the demo
commands enter, exit and raise of any signal value (flip, flop, floop and the
others), applied to the demonstration machine starting inactive.  The whole
sequence returns, and at every step of it, from the world `w1` before the step
to the world `w2` after it: the current state is none, Flip, Flop or Floop
before and after; it is none exactly when `hsm_is_active` is false; it is Floop
after the step only if it was Flop or Floop before, so no step goes from Flip
or from inactive to Floop; and when the step raises FLOOP with Flip current,
the handler of Flip handles it, prints its refusal, and no entry or exit
callback runs: Flip stays current. -/
theorem demo_reachability (f : Nat) (ops : List Op)
    (hops : ∀ op ∈ ops, is_demo_command op = true) :
    (∃ w', run_ops hsm_test_env (f + 2) ops hsm_test_world = some w') ∧
    ∀ pre op post, ops = pre ++ op :: post →
      ∃ w1 w2, run_ops hsm_test_env (f + 2) pre hsm_test_world = some w1 ∧
        apply_op hsm_test_env (f + 2) w1 op = some w2 ∧
        (w1.hsm.h_cur_state = none ∨ w1.hsm.h_cur_state = some flip_addr ∨
          w1.hsm.h_cur_state = some flop_addr ∨ w1.hsm.h_cur_state = some floop_addr) ∧
        (w2.hsm.h_cur_state = none ∨ w2.hsm.h_cur_state = some flip_addr ∨
          w2.hsm.h_cur_state = some flop_addr ∨ w2.hsm.h_cur_state = some floop_addr) ∧
        (w1.hsm.h_cur_state = none ↔ hsm_is_active w1.hsm = false) ∧
        (w2.hsm.h_cur_state = none ↔ hsm_is_active w2.hsm = false) ∧
        (w2.hsm.h_cur_state = some floop_addr →
          w1.hsm.h_cur_state = some flop_addr ∨ w1.hsm.h_cur_state = some floop_addr) ∧
        (op = Op.raise HSM_TEST_SIGNAL_FLOOP → w1.hsm.h_cur_state = some flip_addr →
          w2.calls
            = w1.calls ++ [⟨Call.signal flip_addr HSM_TEST_SIGNAL_FLOOP 0, some flip_addr⟩] ∧
          w2.console = w1.console ++ ["Can't floop until you flop\n"] ∧
          w2.hsm.h_cur_state = some flip_addr) := by
  have hactive : ∀ w : World, w.hsm.h_cur_state = none ↔ hsm_is_active w.hsm = false := by
    intro w
    cases h : w.hsm.h_cur_state <;> simp [hsm_is_active, h]
  constructor
  · obtain ⟨w', h', _⟩ := demo_run f ops hsm_test_world hops rfl (Or.inl rfl)
    exact ⟨w', h'⟩
  · intro pre op post hsplit
    have hpre : ∀ o ∈ pre, is_demo_command o = true := by
      intro o ho
      exact hops o (by rw [hsplit]; exact List.mem_append_left _ ho)
    have hop : is_demo_command op = true :=
      hops op (by rw [hsplit]; exact List.mem_append_right _ (List.mem_cons_self _ _))
    obtain ⟨w1, h1, htop1, hS1⟩ := demo_run f pre hsm_test_world hpre rfl (Or.inl rfl)
    obtain ⟨w2, h2, _, hS2, hfloop⟩ := demo_step f w1 op hop htop1 hS1
    refine ⟨w1, w2, h1, h2, hS1, hS2, hactive w1, hactive w2, hfloop, ?_⟩
    intro hraise hflip
    subst hraise
    obtain ⟨w3, h3, hcalls, hcons, hc⟩ := demo_floop_in_flip f w1 hflip
    have heq : w2 = w3 := by
      have : some w2 = some w3 := by rw [← h2, ← h3]; rfl
      exact Option.some.inj this
    rw [heq]
    exact ⟨hcalls, hcons, hc⟩

/-- The demo commands enter, floop, flop, floop, flip, exit: the first floop,
raised with Flip current, is refused and Flip stays current. -/
theorem demo_reachability_witness :
    ∃ w1 w2, run_ops hsm_test_env 2 [Op.enter] hsm_test_world = some w1 ∧
      apply_op hsm_test_env 2 w1 (Op.raise HSM_TEST_SIGNAL_FLOOP) = some w2 ∧
      (w1.hsm.h_cur_state = none ∨ w1.hsm.h_cur_state = some flip_addr ∨
        w1.hsm.h_cur_state = some flop_addr ∨ w1.hsm.h_cur_state = some floop_addr) ∧
      (w2.hsm.h_cur_state = none ∨ w2.hsm.h_cur_state = some flip_addr ∨
        w2.hsm.h_cur_state = some flop_addr ∨ w2.hsm.h_cur_state = some floop_addr) ∧
      (w1.hsm.h_cur_state = none ↔ hsm_is_active w1.hsm = false) ∧
      (w2.hsm.h_cur_state = none ↔ hsm_is_active w2.hsm = false) ∧
      (w2.hsm.h_cur_state = some floop_addr →
        w1.hsm.h_cur_state = some flop_addr ∨ w1.hsm.h_cur_state = some floop_addr) ∧
      (Op.raise HSM_TEST_SIGNAL_FLOOP = Op.raise HSM_TEST_SIGNAL_FLOOP →
        w1.hsm.h_cur_state = some flip_addr →
        w2.calls
          = w1.calls ++ [⟨Call.signal flip_addr HSM_TEST_SIGNAL_FLOOP 0, some flip_addr⟩] ∧
        w2.console = w1.console ++ ["Can't floop until you flop\n"] ∧
        w2.hsm.h_cur_state = some flip_addr) :=
  (demo_reachability 0
    [Op.enter, Op.raise HSM_TEST_SIGNAL_FLOOP, Op.raise HSM_TEST_SIGNAL_FLOP,
      Op.raise HSM_TEST_SIGNAL_FLOOP, Op.raise HSM_TEST_SIGNAL_FLIP, Op.exit]
    (by simp [is_demo_command])).2
    [Op.enter] (Op.raise HSM_TEST_SIGNAL_FLOOP)
    [Op.raise HSM_TEST_SIGNAL_FLOP, Op.raise HSM_TEST_SIGNAL_FLOOP,
      Op.raise HSM_TEST_SIGNAL_FLIP, Op.exit] rfl

/-! ## The transitions performed and the current state -/

theorem last_destination_concat : ∀ (dests : List (Option Nat)) (d : Option Nat),
    last_destination (dests ++ [d]) = d
  | [], _ => rfl
  | [_], _ => rfl
  | _ :: b :: rest, d => by
    show last_destination (b :: (rest ++ [d])) = d
    exact last_destination_concat (b :: rest) d

theorem script_cur_last_destination (acts : List Action) :
    ∀ dests : List (Option Nat),
      script_cur acts (last_destination dests)
        = last_destination (dests ++ script_transitions acts) := by
  induction acts with
  | nil => intro dests; simp [script_cur, script_transitions]
  | cons a rest ih =>
    intro dests
    cases a with
    | print msg => simp only [script_cur, script_transitions]; exact ih dests
    | transition dst =>
      simp only [script_cur, script_transitions]
      have h := ih (dests ++ [dst])
      rw [last_destination_concat, List.append_assoc] at h
      exact h

theorem writes_logged_append (a b : List Access) :
    writes_logged (a ++ b) = writes_logged a ++ writes_logged b := by
  induction a with
  | nil => rfl
  | cons x rest ih =>
    cases x with
    | read l => exact ih
    | write v l =>
      show v :: writes_logged (rest ++ b) = v :: (writes_logged rest ++ writes_logged b)
      rw [ih]

theorem hsm_transition_writes (env : Env) (w : World) (dst : Option Nat) :
    writes_logged (hsm_transition env w dst).accesses = writes_logged w.accesses ++ [dst] := by
  unfold hsm_transition
  cases hs : w.hsm.h_cur_state <;> cases dst <;>
    simp only [lock, unlock, note_read, set_cur, invoke, hs] <;>
    (repeat' split) <;>
    simp [writes_logged_append, writes_logged]

theorem run_actions_writes (env : Env) (acts : List Action) :
    ∀ w : World, writes_logged (run_actions env acts w).accesses
      = writes_logged w.accesses ++ script_transitions acts := by
  induction acts with
  | nil => intro w; simp [run_actions, script_transitions]
  | cons a rest ih =>
    intro w
    cases a with
    | print msg => simp only [run_actions, script_transitions]; rw [ih]
    | transition dst =>
      simp only [run_actions, script_transitions]
      rw [ih, hsm_transition_writes, List.append_assoc]
      rfl

/-- The loop of `hsm_raise` performs the transitions the interface describes:
the world it returns has the destination of the last of them as current state,
and its assignments to the current state pointer are these transitions. -/
theorem hsm_raise_loop_transitions (env : Env) (signal : Int) (base : List (Option Nat)) :
    ∀ (fuel current : Nat) (w w' : World) (dests : List (Option Nat)),
      w.hsm.h_cur_state = last_destination dests →
      writes_logged w.accesses = base ++ dests →
      hsm_raise_loop env signal fuel current w = some w' →
      ∃ dests', raise_transitions env signal fuel current dests = some dests' ∧
        w'.hsm.h_cur_state = last_destination dests' ∧
        writes_logged w'.accesses = base ++ dests' := by
  intro fuel
  induction fuel with
  | zero => intro current w w' dests _ _ h; simp [hsm_raise_loop] at h
  | succ f ih =>
    intro current w w' dests hcur hw h
    have hr1 : (call_signal env w current signal).1
        = ((env.states current).hst_on_signal (last_destination dests) signal).2 := by
      simp only [call_signal, hcur]
    have hc : (call_signal env w current signal).2.hsm.h_cur_state
        = last_destination (dests ++ script_transitions
            ((env.states current).hst_on_signal (last_destination dests) signal).1) := by
      simp only [call_signal]
      rw [run_actions_cur, ← script_cur_last_destination, hcur]
    have hwr : writes_logged (call_signal env w current signal).2.accesses
        = base ++ (dests ++ script_transitions
            ((env.states current).hst_on_signal (last_destination dests) signal).1) := by
      simp only [call_signal]
      rw [run_actions_writes, ← List.append_assoc, ← hw, hcur]
    simp only [hsm_raise_loop] at h
    simp only [raise_transitions]
    cases hp : (env.states current).hst_parent with
    | none =>
      rw [hp] at h
      simp only [Option.some.injEq] at h
      subst h
      exact ⟨_, rfl, hc, hwr⟩
    | some parent =>
      rw [hp] at h
      simp only at h
      rw [hr1] at h
      by_cases h0 : ((env.states current).hst_on_signal (last_destination dests) signal).2 = 0
      · simp only [h0, ne_eq, not_true_eq_false, if_false, Option.some.injEq] at h ⊢
        subst h
        exact ⟨_, rfl, hc, hwr⟩
      · simp only [h0, ne_eq, not_false_eq_true, if_true] at h ⊢
        exact ih parent _ w' _ hc hwr h

/-- One call of the driver performs the transitions the interface describes. -/
theorem apply_op_transitions (env : Env) (fuel : Nat) (top : Option Nat)
    (base : List (Option Nat)) (w w' : World) (dests : List (Option Nat)) (op : Op)
    (htop : w.hsm.h_top = top) (hcur : w.hsm.h_cur_state = last_destination dests)
    (hw : writes_logged w.accesses = base ++ dests)
    (h : apply_op env fuel w op = some w') :
    ∃ dests', op_transitions env fuel top dests op = some dests' ∧
      w'.hsm.h_top = top ∧ w'.hsm.h_cur_state = last_destination dests' ∧
      writes_logged w'.accesses = base ++ dests' := by
  cases op with
  | transition dst =>
    simp only [apply_op, Option.some.injEq] at h
    subst h
    refine ⟨dests ++ [dst], rfl, ?_, ?_, ?_⟩
    · rw [hsm_transition_top, htop]
    · rw [hsm_transition_cur, last_destination_concat]
    · rw [hsm_transition_writes, hw, List.append_assoc]
  | enter =>
    simp only [apply_op, Option.some.injEq] at h
    subst h
    cases hl : last_destination dests with
    | none =>
      rw [hl] at hcur
      have hact : hsm_is_active (note_read w).hsm = false := by
        simp [hsm_is_active, note_read, hcur]
      refine ⟨dests ++ [top], by simp only [op_transitions, hl], ?_, ?_, ?_⟩
      · rw [(hsm_enter_fields env w).1, htop]
      · rw [(hsm_enter_from_none env w hcur).2, htop, last_destination_concat]
      · unfold hsm_enter
        simp only [hact, Bool.false_eq_true, if_false]
        rw [hsm_transition_writes]
        have ha : writes_logged
            (match (note_read w).hsm.h_on_entry with
              | some f => invoke (note_read w) Call.machine_entry f
              | none => note_read w).accesses = writes_logged w.accesses := by
          cases (note_read w).hsm.h_on_entry <;>
            simp [invoke, note_read, writes_logged_append, writes_logged]
        have ht : (match (note_read w).hsm.h_on_entry with
              | some f => invoke (note_read w) Call.machine_entry f
              | none => note_read w).hsm.h_top = top := by
          cases (note_read w).hsm.h_on_entry <;> exact htop
        rw [ha, ht, hw, List.append_assoc]
    | some s =>
      rw [hl] at hcur
      have hact : hsm_is_active (note_read w).hsm = true := by
        simp [hsm_is_active, note_read, hcur]
      have he : hsm_enter env w = note_read w := by
        unfold hsm_enter
        simp only [hact, if_true]
      refine ⟨dests, by simp only [op_transitions, hl], ?_, ?_, ?_⟩
      · rw [he]; exact htop
      · rw [he, hl]; exact hcur
      · rw [he]
        simp [note_read, writes_logged_append, writes_logged, hw]
  | exit =>
    simp only [apply_op, Option.some.injEq] at h
    subst h
    cases hl : last_destination dests with
    | none =>
      rw [hl] at hcur
      have hact : hsm_is_active (note_read w).hsm = false := by
        simp [hsm_is_active, note_read, hcur]
      have he : hsm_exit env w = note_read w := by
        unfold hsm_exit
        simp only [hact]
        rfl
      refine ⟨dests, by simp only [op_transitions, hl], ?_, ?_, ?_⟩
      · rw [he]; exact htop
      · rw [he, hl]; exact hcur
      · rw [he]
        simp [note_read, writes_logged_append, writes_logged, hw]
    | some s =>
      rw [hl] at hcur
      have hact : hsm_is_active (note_read w).hsm = true := by
        simp [hsm_is_active, note_read, hcur]
      refine ⟨dests ++ [none], by simp only [op_transitions, hl], ?_, ?_, ?_⟩
      · rw [(hsm_exit_fields env w).1, htop]
      · rw [(hsm_exit_from_some env w s hcur).2, last_destination_concat]
      · unfold hsm_exit
        simp only [hact]
        have ht := hsm_transition_writes env (lock env (note_read w)) none
        generalize hsm_transition env (lock env (note_read w)) none = w2 at ht ⊢
        have ha : writes_logged (lock env (note_read w)).accesses = writes_logged w.accesses := by
          simp [lock, note_read, writes_logged_append, writes_logged]
        rw [ha, hw, List.append_assoc] at ht
        cases w2.hsm.h_on_exit <;> exact ht
  | raise signal =>
    simp only [apply_op] at h
    cases hl : last_destination dests with
    | none =>
      rw [hl] at hcur
      rw [hsm_raise_inactive env fuel w signal hcur] at h
      simp only [Option.some.injEq] at h
      subst h
      refine ⟨dests, by simp only [op_transitions, hl], htop, ?_, ?_⟩
      · rw [hl]; exact hcur
      · simp [note_read, writes_logged_append, writes_logged, hw]
    | some s =>
      have hcur' : w.hsm.h_cur_state = some s := by rw [hcur, hl]
      have htop' := hsm_raise_top env fuel w w' signal h
      rw [hsm_raise_active env fuel w signal s hcur'] at h
      obtain ⟨w1, h1, rfl⟩ := Option.map_eq_some'.mp h
      have hw0 : writes_logged (note_read (lock env (note_read w))).accesses = base ++ dests := by
        simp [lock, note_read, writes_logged_append, writes_logged, hw]
      obtain ⟨dests', hd, hc1, hw1⟩ := hsm_raise_loop_transitions env signal base fuel s
        (note_read (lock env (note_read w))) w1 dests hcur hw0 h1
      exact ⟨dests', by simp only [op_transitions, hl, hd], by rw [htop', htop], hc1, hw1⟩

theorem run_ops_transitions (env : Env) (fuel : Nat) (top : Option Nat)
    (base : List (Option Nat)) (ops : List Op) :
    ∀ (w w' : World) (dests : List (Option Nat)), w.hsm.h_top = top →
      w.hsm.h_cur_state = last_destination dests → writes_logged w.accesses = base ++ dests →
      run_ops env fuel ops w = some w' →
      ∃ dests', transitions_performed env fuel top ops dests = some dests' ∧
        w'.hsm.h_top = top ∧ w'.hsm.h_cur_state = last_destination dests' ∧
        writes_logged w'.accesses = base ++ dests' := by
  induction ops with
  | nil =>
    intro w w' dests htop hcur hw h
    simp only [run_ops, Option.some.injEq] at h
    subst h
    exact ⟨dests, rfl, htop, hcur, hw⟩
  | cons op rest ih =>
    intro w w' dests htop hcur hw h
    simp only [run_ops] at h
    cases hop : apply_op env fuel w op with
    | none => rw [hop] at h; cases h
    | some w1 =>
      rw [hop] at h
      obtain ⟨d1, hd1, htop1, hcur1, hw1⟩ :=
        apply_op_transitions env fuel top base w w1 dests op htop hcur hw hop
      obtain ⟨d2, hd2, r⟩ := ih w1 w' d1 htop1 hcur1 hw1 h
      exact ⟨d2, by simp only [transitions_performed, hd1, hd2], r⟩

/-- C9 (state id round trip).  Start from a machine that `hsm_init` has just
initialised with top state `t` and perform any finite sequence of `hsm_enter`,
`hsm_exit`, `hsm_transition` and `hsm_raise` calls, the handlers acting on the
machine through `hsm_transition` only.  Let `dests` be the destinations of the
transitions performed, in order: `top` for an enter on an inactive machine, no
state for an exit from an active one, the argument of a transition call, and
the transitions of the handlers a raise invokes.  Whenever the sequence has
run, the engine has assigned exactly these to the current state pointer after
the assignment of `hsm_init`, and `hsm_get_current_state` returns the state id
of the destination of the last transition performed: the `hst_state_num` of
the state, and -1 when the last transition went to no state or none has been
performed.  In particular it returns the id of `dst` after a transition call
to `dst`, the id of `t` after an enter on an inactive machine, and -1 after an
exit and right after `hsm_init`.  When every parent chain is finite and within
the fuel, the sequence does run. -/
theorem state_id_round_trip (env : Env) (w : World) (t : Nat) (entry : Option hsm_entry_fn)
    (exit : Option hsm_exit_fn) (fuel : Nat) (ops : List Op)
    (hinit : (hsm_init env w (some t) entry exit).1 = 0) :
    (∀ w', run_ops env fuel ops (hsm_init env w (some t) entry exit).2 = some w' →
      ∃ dests, transitions_performed env fuel (some t) ops [] = some dests ∧
        writes_logged w'.accesses = writes_logged w.accesses ++ none :: dests ∧
        last_write w'.accesses = some (last_destination dests) ∧
        w'.hsm.h_cur_state = last_destination dests ∧
        hsm_get_current_state env w'.hsm = state_id env (last_destination dests)) ∧
    (∀ w' dst,
      run_ops env fuel (ops ++ [Op.transition dst]) (hsm_init env w (some t) entry exit).2
        = some w' →
      hsm_get_current_state env w'.hsm = state_id env dst) ∧
    (∀ w1, run_ops env fuel ops (hsm_init env w (some t) entry exit).2 = some w1 →
      (hsm_is_active w1.hsm = false →
        hsm_get_current_state env (hsm_enter env w1).hsm = (env.states t).hst_state_num) ∧
      (hsm_is_active w1.hsm = true →
        hsm_get_current_state env (hsm_enter env w1).hsm = hsm_get_current_state env w1.hsm) ∧
      hsm_get_current_state env (hsm_exit env w1).hsm = -1) ∧
    hsm_get_current_state env (hsm_init env w (some t) entry exit).2.hsm = -1 ∧
    ((∀ s, ∃ rest, is_parent_chain env (s :: rest) = true ∧ rest.length + 1 ≤ fuel) →
      ∃ w', run_ops env fuel ops (hsm_init env w (some t) entry exit).2 = some w') := by
  have hrc : (os_mutex_init env w.hsm.h_lock).1 = 0 := by
    by_contra hne
    simp [hsm_init, hne] at hinit
  have h0top : (hsm_init env w (some t) entry exit).2.hsm.h_top = some t := by
    simp only [hsm_init, hrc, ne_eq, not_true_eq_false, if_false]
    rfl
  have h0cur : (hsm_init env w (some t) entry exit).2.hsm.h_cur_state = last_destination [] := by
    simp only [hsm_init, hrc, ne_eq, not_true_eq_false, if_false]
    rfl
  have h0w : writes_logged (hsm_init env w (some t) entry exit).2.accesses
      = (writes_logged w.accesses ++ [none]) ++ [] := by
    simp only [hsm_init, hrc, ne_eq, not_true_eq_false, if_false]
    simp [set_cur, writes_logged_append, writes_logged]
  have h0log : cur_logged (hsm_init env w (some t) entry exit).2 := by
    simp only [hsm_init, hrc, ne_eq, not_true_eq_false, if_false]
    exact cur_logged_set_cur _ _
  refine ⟨?_, ?_, ?_, ?_, ?_⟩
  · intro w' hrun
    obtain ⟨dests, hd, _, hcur, hw⟩ := run_ops_transitions env fuel (some t)
      (writes_logged w.accesses ++ [none]) ops _ w' [] h0top h0cur h0w hrun
    have hlog := cur_logged_run_ops env fuel ops _ w' h0log hrun
    refine ⟨dests, hd, ?_, ?_, hcur, ?_⟩
    · rw [hw, List.append_assoc]; rfl
    · rw [← hcur]; exact hlog
    · rw [hsm_get_current_state_eq, hcur]
  · intro w' dst hrun
    rw [run_ops_append] at hrun
    cases h1 : run_ops env fuel ops (hsm_init env w (some t) entry exit).2 with
    | none => rw [h1] at hrun; cases hrun
    | some w1 =>
      rw [h1] at hrun
      simp only [Option.some_bind, run_ops, apply_op, Option.some.injEq] at hrun
      subst hrun
      rw [hsm_get_current_state_eq, hsm_transition_cur]
  · intro w1 hrun
    obtain ⟨dests, _, htop, _, _⟩ := run_ops_transitions env fuel (some t)
      (writes_logged w.accesses ++ [none]) ops _ w1 [] h0top h0cur h0w hrun
    refine ⟨?_, ?_, ?_⟩
    · intro hact
      have hnone : w1.hsm.h_cur_state = none := by
        cases hc : w1.hsm.h_cur_state with
        | none => rfl
        | some s => simp [hsm_is_active, hc] at hact
      rw [hsm_get_current_state_eq, (hsm_enter_from_none env w1 hnone).2, htop]
      rfl
    · intro hact
      rw [(hsm_enter_active env w1 hact).1]
    · rw [hsm_get_current_state_eq]
      cases hc : w1.hsm.h_cur_state with
      | none => rw [(hsm_exit_inactive env w1 hc).1, hc]; rfl
      | some s => rw [(hsm_exit_from_some env w1 s hc).2]; rfl
  · rw [hsm_get_current_state_eq, h0cur]
    rfl
  · intro hfin
    exact run_ops_returns env fuel ops hfin _

/-- Round trip on the demonstration machine, initialised, then entered and
sent FLOP and FLOOP: the transitions performed went to Flip (the top state),
Flop and Floop, and the id returned is 2, that of Floop.  After a further exit
the last transition went to no state and the id returned is -1. -/
theorem state_id_round_trip_witness :
    ((hsm_init hsm_test_env hsm_test_world (some flip_addr) hsm_test_sm.h_on_entry
        hsm_test_sm.h_on_exit).1 = 0 ∧
      transitions_performed hsm_test_env 2 (some flip_addr)
          [Op.enter, Op.raise HSM_TEST_SIGNAL_FLOP, Op.raise HSM_TEST_SIGNAL_FLOOP] []
        = some [some flip_addr, some flop_addr, some floop_addr] ∧
      (run_ops hsm_test_env 2
          [Op.enter, Op.raise HSM_TEST_SIGNAL_FLOP, Op.raise HSM_TEST_SIGNAL_FLOOP]
          (hsm_init hsm_test_env hsm_test_world (some flip_addr) hsm_test_sm.h_on_entry
            hsm_test_sm.h_on_exit).2).map
        (fun w' => (writes_logged w'.accesses, hsm_get_current_state hsm_test_env w'.hsm))
        = some ([none, some flip_addr, some flop_addr, some floop_addr], 2) ∧
      (run_ops hsm_test_env 2
          [Op.enter, Op.raise HSM_TEST_SIGNAL_FLOP, Op.raise HSM_TEST_SIGNAL_FLOOP, Op.exit]
          (hsm_init hsm_test_env hsm_test_world (some flip_addr) hsm_test_sm.h_on_entry
            hsm_test_sm.h_on_exit).2).map
        (fun w' => (writes_logged w'.accesses, hsm_get_current_state hsm_test_env w'.hsm))
        = some ([none, some flip_addr, some flop_addr, some floop_addr, none], -1)) ∧
    ∀ w', run_ops hsm_test_env 2
        [Op.enter, Op.raise HSM_TEST_SIGNAL_FLOP, Op.raise HSM_TEST_SIGNAL_FLOOP]
        (hsm_init hsm_test_env hsm_test_world (some flip_addr) hsm_test_sm.h_on_entry
          hsm_test_sm.h_on_exit).2 = some w' →
      ∃ dests, transitions_performed hsm_test_env 2 (some flip_addr)
          [Op.enter, Op.raise HSM_TEST_SIGNAL_FLOP, Op.raise HSM_TEST_SIGNAL_FLOOP] []
          = some dests ∧
        writes_logged w'.accesses = writes_logged hsm_test_world.accesses ++ none :: dests ∧
        last_write w'.accesses = some (last_destination dests) ∧
        w'.hsm.h_cur_state = last_destination dests ∧
        hsm_get_current_state hsm_test_env w'.hsm
          = state_id hsm_test_env (last_destination dests) :=
  ⟨⟨by decide, by decide, by decide, by decide⟩,
    (state_id_round_trip hsm_test_env hsm_test_world flip_addr hsm_test_sm.h_on_entry
      hsm_test_sm.h_on_exit 2
      [Op.enter, Op.raise HSM_TEST_SIGNAL_FLOP, Op.raise HSM_TEST_SIGNAL_FLOOP] (by decide)).1⟩

end HSM

namespace CLI

/-! ## The loop of `cli_parse_command_args` -/

theorem cli_parse_option_loop_frame (argc : Nat) (argv : List String) (base : Nat) (n : Nat) :
    ∀ (i : Nat) (opt_found has_arg : Bool) (st : ParseState),
      (cli_parse_option_loop argc argv base n i opt_found has_arg st).2.2.arg_list = st.arg_list ∧
      (cli_parse_option_loop argc argv base n i opt_found has_arg st).2.2.args_found
        = st.args_found ∧
      (cli_parse_option_loop argc argv base n i opt_found has_arg st).2.2.writes = st.writes := by
  induction n with
  | zero => intro i opt_found has_arg st; exact ⟨rfl, rfl, rfl⟩
  | succ n ih =>
    intro i opt_found has_arg st
    simp only [cli_parse_option_loop]
    split
    · split
      · split
        · exact ⟨rfl, rfl, rfl⟩
        · exact ⟨rfl, rfl, rfl⟩
      · exact ih _ _ _ _
    · exact ih _ _ _ _

theorem cli_parse_option_frame (cmd : cli_command_s) (argc : Nat) (argv : List String)
    (base : Nat) (has_arg : Bool) (st : ParseState) :
    (cli_parse_option cmd argc argv base has_arg st).2.2.arg_list = st.arg_list ∧
    (cli_parse_option cmd argc argv base has_arg st).2.2.args_found = st.args_found ∧
    (cli_parse_option cmd argc argv base has_arg st).2.2.writes = st.writes :=
  cli_parse_option_loop_frame argc argv base cmd.num_options 0 false has_arg st

/-- One iteration either returns a code other than `CLI_ERROR_NONE`, or goes on
one or two tokens further, having stored the token as an argument or not; but
for the store it leaves `arg_list`, `args_found` and the store log alone. -/
theorem cli_parse_token_cases (cmd : cli_command_s) (argv : List String) (i : Nat)
    (st : ParseState) :
    (∃ rc st', cli_parse_token cmd argv i st = Step.ret rc st' ∧ rc ≠ CLI_ERROR_NONE) ∨
    (∃ j st1, (j = i + 1 ∨ j = i + 2) ∧
      (st1.arg_list = st.arg_list ∧ st1.args_found = st.args_found ∧ st1.writes = st.writes) ∧
      (cli_parse_token cmd argv i st = Step.next j st1 ∨
        (cli_parse_token cmd argv i st = Step.next j (store_arg argv i st1) ∧
          st1.args_found < cmd.num_args))) := by
  have hf := cli_parse_option_frame cmd (argv.length - i) argv i false
    { st with reads := st.reads ++ [i] }
  have htok : cli_parse_token cmd argv i st =
      (if cli_parse_arg_is_help (argv.getD i "") then
        Step.ret CLI_ERROR_HELP_REQUESTED { st with reads := st.reads ++ [i] }
      else if first_char (argv.getD i "") = '-' then
        if cmd.num_options = 0 then
          Step.ret CLI_ERROR_BAD_ARG { st with reads := st.reads ++ [i] }
        else
          if (cli_parse_option cmd (argv.length - i) argv i false
              { st with reads := st.reads ++ [i] }).1 = CLI_ERROR_BAD_ARG then
            Step.ret (cli_parse_option cmd (argv.length - i) argv i false
                { st with reads := st.reads ++ [i] }).1
              (cli_parse_option cmd (argv.length - i) argv i false
                { st with reads := st.reads ++ [i] }).2.2
          else if (cli_parse_option cmd (argv.length - i) argv i false
              { st with reads := st.reads ++ [i] }).1 = CLI_ERROR_OPTION_NOT_FOUND then
            if cmd.num_args ≠ 0 ∧ (cli_parse_option cmd (argv.length - i) argv i false
                { st with reads := st.reads ++ [i] }).2.2.args_found < cmd.num_args then
              if (cli_parse_option cmd (argv.length - i) argv i false
                  { st with reads := st.reads ++ [i] }).2.1 then
                Step.next (i + 1 + 1) (store_arg argv i
                  (cli_parse_option cmd (argv.length - i) argv i false
                    { st with reads := st.reads ++ [i] }).2.2)
              else
                Step.next (i + 1) (store_arg argv i
                  (cli_parse_option cmd (argv.length - i) argv i false
                    { st with reads := st.reads ++ [i] }).2.2)
            else
              Step.ret CLI_ERROR_BAD_ARG (cli_parse_option cmd (argv.length - i) argv i false
                { st with reads := st.reads ++ [i] }).2.2
          else if (cli_parse_option cmd (argv.length - i) argv i false
              { st with reads := st.reads ++ [i] }).2.1 then
            Step.next (i + 1 + 1) (cli_parse_option cmd (argv.length - i) argv i false
              { st with reads := st.reads ++ [i] }).2.2
          else
            Step.next (i + 1) (cli_parse_option cmd (argv.length - i) argv i false
              { st with reads := st.reads ++ [i] }).2.2
      else if cmd.num_args ≠ 0 ∧ st.args_found < cmd.num_args then
        Step.next (i + 1) (store_arg argv i { st with reads := st.reads ++ [i] })
      else Step.ret CLI_ERROR_BAD_ARG { st with reads := st.reads ++ [i] }) := rfl
  generalize cli_parse_option cmd (argv.length - i) argv i false
    { st with reads := st.reads ++ [i] } = r at hf htok
  generalize cli_parse_token cmd argv i st = tok at htok
  subst htok
  by_cases h1 : cli_parse_arg_is_help (argv.getD i "") = true
  · rw [if_pos h1]; exact Or.inl ⟨_, _, rfl, by decide⟩
  rw [if_neg h1]
  by_cases h2 : first_char (argv.getD i "") = '-'
  · rw [if_pos h2]
    by_cases h3 : cmd.num_options = 0
    · rw [if_pos h3]; exact Or.inl ⟨_, _, rfl, by decide⟩
    rw [if_neg h3]
    by_cases h4 : r.1 = CLI_ERROR_BAD_ARG
    · rw [if_pos h4]; exact Or.inl ⟨_, _, rfl, by rw [h4]; decide⟩
    rw [if_neg h4]
    by_cases h5 : r.1 = CLI_ERROR_OPTION_NOT_FOUND
    · rw [if_pos h5]
      by_cases h6 : cmd.num_args ≠ 0 ∧ r.2.2.args_found < cmd.num_args
      · rw [if_pos h6]
        by_cases h7 : r.2.1 = true
        · rw [if_pos h7]; exact Or.inr ⟨_, _, Or.inr rfl, hf, Or.inr ⟨rfl, h6.2⟩⟩
        · rw [if_neg h7]; exact Or.inr ⟨_, _, Or.inl rfl, hf, Or.inr ⟨rfl, h6.2⟩⟩
      · rw [if_neg h6]; exact Or.inl ⟨_, _, rfl, by decide⟩
    · rw [if_neg h5]
      by_cases h7 : r.2.1 = true
      · rw [if_pos h7]; exact Or.inr ⟨_, _, Or.inr rfl, hf, Or.inl rfl⟩
      · rw [if_neg h7]; exact Or.inr ⟨_, _, Or.inl rfl, hf, Or.inl rfl⟩
  · rw [if_neg h2]
    by_cases h9 : cmd.num_args ≠ 0 ∧ st.args_found < cmd.num_args
    · rw [if_pos h9]
      exact Or.inr ⟨_, { st with reads := st.reads ++ [i] }, Or.inl rfl, ⟨rfl, rfl, rfl⟩,
        Or.inr ⟨rfl, h9.2⟩⟩
    · rw [if_neg h9]; exact Or.inl ⟨_, _, rfl, by decide⟩

theorem cli_parse_token_advances (cmd : cli_command_s) (argv : List String) (i j : Nat)
    (st st' : ParseState) (h : cli_parse_token cmd argv i st = Step.next j st') : i < j := by
  rcases cli_parse_token_cases cmd argv i st with ⟨rc, s, hr, _⟩ | ⟨j', s, hj, _, hn | ⟨hn, _⟩⟩
  · rw [hr] at h; cases h
  · rw [hn] at h; cases h; omega
  · rw [hn] at h; cases h; omega

/-- The loop with an invariant: when every iteration that goes on keeps `P` and
every return, from an iteration or after the loop, establishes `Q`, the loop
started in `P` with fuel for the tokens left returns and establishes `Q`. -/
theorem cli_parse_loop_inv (cmd : cli_command_s) (argv : List String)
    (P : Nat → ParseState → Prop) (Q : Int × ParseState → Prop)
    (hret : ∀ i st rc st', P i st → i < argv.length →
      cli_parse_token cmd argv i st = Step.ret rc st' → Q (rc, st'))
    (hnext : ∀ i st j st', P i st → i < argv.length →
      cli_parse_token cmd argv i st = Step.next j st' → P j st')
    (hfin : ∀ i st, P i st → argv.length ≤ i → Q (cli_parse_finish cmd st)) :
    ∀ (fuel i : Nat) (st : ParseState), P i st → argv.length - i ≤ fuel →
      ∃ r, cli_parse_loop cmd argv fuel i st = some r ∧ Q r := by
  intro fuel
  induction fuel with
  | zero =>
    intro i st hP hfuel
    have hi : ¬ i < argv.length := by omega
    exact ⟨_, by simp [cli_parse_loop, hi], hfin i st hP (by omega)⟩
  | succ fuel ih =>
    intro i st hP hfuel
    by_cases hi : i < argv.length
    · cases htok : cli_parse_token cmd argv i st with
      | ret rc st' =>
        exact ⟨(rc, st'), by simp [cli_parse_loop, hi, htok], hret i st rc st' hP hi htok⟩
      | next j st' =>
        have hj := cli_parse_token_advances cmd argv i j st st' htok
        obtain ⟨r, hr, hq⟩ := ih j st' (hnext i st j st' hP hi htok) (by omega)
        exact ⟨r, by simp [cli_parse_loop, hi, htok, hr], hq⟩
    · exact ⟨_, by simp [cli_parse_loop, hi], hfin i st hP (by omega)⟩

theorem cli_parse_command_args_returns (cmd : cli_command_s) (argv : List String)
    (arg_list : Nat → Option String) :
    ∃ r, cli_parse_command_args cmd argv arg_list = some r := by
  obtain ⟨r, hr, _⟩ := cli_parse_loop_inv cmd argv (fun _ _ => True) (fun _ => True)
    (fun _ _ _ _ _ _ _ => trivial) (fun _ _ _ _ _ _ _ => trivial) (fun _ _ _ _ => trivial)
    argv.length 0 (parse_start cmd arg_list) trivial (by omega)
  exact ⟨r, hr⟩

/-! ## Positional arguments -/

theorem cli_parse_token_plain (cmd : cli_command_s) (argv : List String) (i : Nat)
    (st : ParseState) (hhelp : cli_parse_arg_is_help (argv.getD i "") = false)
    (hdash : first_char (argv.getD i "") ≠ '-') :
    cli_parse_token cmd argv i st =
      if cmd.num_args ≠ 0 ∧ st.args_found < cmd.num_args then
        Step.next (i + 1) (store_arg argv i { st with reads := st.reads ++ [i] })
      else Step.ret CLI_ERROR_BAD_ARG { st with reads := st.reads ++ [i] } := by
  simp only [cli_parse_token, hhelp, hdash, Bool.false_eq_true, if_false]

theorem stores_ok_frame (argv : List String) (i j : Nat) (st st1 : ParseState) (hij : i ≤ j)
    (hf : st1.arg_list = st.arg_list ∧ st1.args_found = st.args_found ∧ st1.writes = st.writes)
    (h : stores_ok argv st ∧ ∀ p ∈ st.writes, p.2 < i) :
    stores_ok argv st1 ∧ ∀ p ∈ st1.writes, p.2 < j := by
  obtain ⟨⟨h1, h2, h3⟩, h4⟩ := h
  obtain ⟨f1, f2, f3⟩ := hf
  refine ⟨⟨by rw [f3, f2]; exact h1, by rw [f3]; exact h2, ?_⟩, ?_⟩
  · intro p hp
    rw [f3] at hp
    obtain ⟨b, c⟩ := h3 p hp
    exact ⟨b, by rw [f1]; exact c⟩
  · intro p hp
    rw [f3] at hp
    have := h4 p hp
    omega

theorem stores_ok_store (argv : List String) (i j : Nat) (st : ParseState) (hij : i < j)
    (hi : i < argv.length) (h : stores_ok argv st ∧ ∀ p ∈ st.writes, p.2 < i) :
    stores_ok argv (store_arg argv i st) ∧ ∀ p ∈ (store_arg argv i st).writes, p.2 < j := by
  obtain ⟨⟨h1, h2, h3⟩, h4⟩ := h
  refine ⟨⟨?_, ?_, ?_⟩, ?_⟩
  · simp [store_arg, h1, List.range_succ]
  · simp only [store_arg, List.map_append, List.map_cons, List.map_nil]
    rw [List.pairwise_append]
    refine ⟨h2, by simp, ?_⟩
    intro a ha b hb
    simp only [List.mem_singleton] at hb
    obtain ⟨p, hp, rfl⟩ := List.mem_map.mp ha
    rw [hb]
    exact h4 p hp
  · intro p hp
    simp only [store_arg, List.mem_append, List.mem_singleton] at hp
    rcases hp with hp | rfl
    · obtain ⟨b, c⟩ := h3 p hp
      have hlt : p.1 < st.args_found := by
        have : p.1 ∈ st.writes.map Prod.fst := List.mem_map.mpr ⟨p, hp, rfl⟩
        rw [h1] at this
        exact List.mem_range.mp this
      refine ⟨b, ?_⟩
      simp only [store_arg]
      rw [Function.update_noteq (by omega)]
      exact c
    · exact ⟨hi, by simp [store_arg]⟩
  · intro p hp
    simp only [store_arg, List.mem_append, List.mem_singleton] at hp
    rcases hp with hp | rfl
    · have := h4 p hp; omega
    · exact hij

theorem cli_parse_none_stores (cmd : cli_command_s) (argv : List String)
    (arg_list : Nat → Option String) :
    ∃ r, cli_parse_command_args cmd argv arg_list = some r ∧
      (r.1 = CLI_ERROR_NONE → r.2.args_found = cmd.num_args ∧ stores_ok argv r.2) := by
  refine cli_parse_loop_inv cmd argv
    (fun i st => stores_ok argv st ∧ ∀ p ∈ st.writes, p.2 < i)
    (fun r => r.1 = CLI_ERROR_NONE → r.2.args_found = cmd.num_args ∧ stores_ok argv r.2)
    ?_ ?_ ?_ argv.length 0 (parse_start cmd arg_list) ?_ (by omega)
  · intro i st rc st' _ _ htok hrc
    rcases cli_parse_token_cases cmd argv i st with
      ⟨rc', s, hr, hne⟩ | ⟨j', s, _, _, hn | ⟨hn, _⟩⟩
    · rw [hr] at htok; cases htok; exact absurd hrc hne
    · rw [hn] at htok; cases htok
    · rw [hn] at htok; cases htok
  · intro i st j st' hP hi htok
    rcases cli_parse_token_cases cmd argv i st with
      ⟨rc', s, hr, _⟩ | ⟨j', s, hj, hf, hn | ⟨hn, _⟩⟩
    · rw [hr] at htok; cases htok
    · rw [hn] at htok; cases htok
      exact stores_ok_frame argv i j st st' (by omega) hf hP
    · rw [hn] at htok; cases htok
      exact stores_ok_store argv i j s (by omega) hi (stores_ok_frame argv i i st s (le_refl i) hf hP)
  · intro i st hP _ hrc
    simp only [cli_parse_finish] at hrc ⊢
    split_ifs at hrc ⊢ with h
    · exact absurd hrc (show CLI_ERROR_BAD_ARG ≠ CLI_ERROR_NONE by decide)
    · exact ⟨not_not.mp h, hP.1⟩
  · exact ⟨⟨rfl, List.Pairwise.nil, by simp [parse_start]⟩, by simp [parse_start]⟩

theorem cli_parse_plain_tokens (cmd : cli_command_s) (argv : List String)
    (arg_list : Nat → Option String)
    (hplain : ∀ t ∈ argv, cli_parse_arg_is_help t = false ∧ first_char t ≠ '-') :
    ∃ r, cli_parse_command_args cmd argv arg_list = some r ∧
      (r.1 = (if argv.length = cmd.num_args then CLI_ERROR_NONE else CLI_ERROR_BAD_ARG) ∧
        (argv.length = cmd.num_args →
          ∀ k, k < cmd.num_args → r.2.arg_list k = some (argv.getD k ""))) := by
  have htok : ∀ i st, i < argv.length → cli_parse_token cmd argv i st =
      if cmd.num_args ≠ 0 ∧ st.args_found < cmd.num_args then
        Step.next (i + 1) (store_arg argv i { st with reads := st.reads ++ [i] })
      else Step.ret CLI_ERROR_BAD_ARG { st with reads := st.reads ++ [i] } := by
    intro i st hi
    have hmem : argv.getD i "" ∈ argv := by
      rw [List.getD_eq_getElem argv "" hi]
      exact List.getElem_mem hi
    exact cli_parse_token_plain cmd argv i st (hplain _ hmem).1 (hplain _ hmem).2
  refine cli_parse_loop_inv cmd argv
    (fun i st => st.args_found = i ∧ i ≤ argv.length ∧
      ∀ k, k < i → st.arg_list k = some (argv.getD k ""))
    (fun r => r.1 = (if argv.length = cmd.num_args then CLI_ERROR_NONE else CLI_ERROR_BAD_ARG) ∧
      (argv.length = cmd.num_args →
        ∀ k, k < cmd.num_args → r.2.arg_list k = some (argv.getD k "")))
    ?_ ?_ ?_ argv.length 0 (parse_start cmd arg_list) ?_ (by omega)
  · intro i st rc st' hP hi h
    rw [htok i st hi] at h
    split_ifs at h with hc
    cases h
    have hlen : argv.length ≠ cmd.num_args := by
      intro heq
      apply hc
      rw [hP.1]
      constructor <;> omega
    simp only [hlen, if_false, true_and]
    exact fun heq => heq.elim
  · intro i st j st' hP hi h
    rw [htok i st hi] at h
    split_ifs at h with hc
    cases h
    obtain ⟨h1, _, h3⟩ := hP
    refine ⟨by simp [store_arg, h1], by omega, ?_⟩
    intro k hk
    simp only [store_arg]
    by_cases hki : k = i
    · subst hki; rw [h1]; simp
    · rw [h1, Function.update_noteq hki]
      exact h3 k (by omega)
  · intro i st hP hi
    obtain ⟨h1, h2, h3⟩ := hP
    have hil : i = argv.length := by omega
    simp only [cli_parse_finish, h1, hil]
    by_cases heq : argv.length = cmd.num_args
    · simp only [heq, ne_eq, not_true_eq_false, if_false, if_true, true_and]
      intro _ k hk
      exact h3 k (by omega)
    · simp only [heq, ne_eq, not_false_eq_true, if_true, if_false, true_and]
      exact fun h => h.elim
  · exact ⟨rfl, Nat.zero_le _, fun k hk => absurd hk (Nat.not_lt_zero k)⟩

/-- C18 (all arguments are required).  The parser returns.  When it returns
`CLI_ERROR_NONE`, exactly `num_args` positional arguments were collected: the
stores of this call fill `arg_list[0 .. num_args - 1]` one after the other,
from tokens taken in command-line order, and each entry holds its token.  When
no token is a help string or begins with '-', the result is `CLI_ERROR_NONE`
with `arg_list[k] = argv[k]` if `argc = num_args`, and `CLI_ERROR_BAD_ARG`
otherwise, whatever options the command has. -/
theorem all_arguments_required (cmd : cli_command_s) (argv : List String)
    (arg_list : Nat → Option String) :
    (∃ r, cli_parse_command_args cmd argv arg_list = some r ∧
      (r.1 = CLI_ERROR_NONE →
        r.2.args_found = cmd.num_args ∧ r.2.writes.length = cmd.num_args ∧
        stores_ok argv r.2)) ∧
    ((∀ t ∈ argv, cli_parse_arg_is_help t = false ∧ first_char t ≠ '-') →
      ∃ r, cli_parse_command_args cmd argv arg_list = some r ∧
        r.1 = (if argv.length = cmd.num_args then CLI_ERROR_NONE else CLI_ERROR_BAD_ARG) ∧
        (argv.length = cmd.num_args →
          ∀ k, k < cmd.num_args → r.2.arg_list k = some (argv.getD k ""))) := by
  constructor
  · obtain ⟨r, hr, h⟩ := cli_parse_none_stores cmd argv arg_list
    refine ⟨r, hr, fun hrc => ?_⟩
    obtain ⟨h1, h2⟩ := h hrc
    refine ⟨h1, ?_, h2⟩
    have := congrArg List.length h2.1
    simpa [h1] using this
  · intro hplain
    exact cli_parse_plain_tokens cmd argv arg_list hplain

/-- Arguments of the sample commands: `echo hi` is accepted and stores "hi";
`echo` and `echo hi there` are rejected; `advertise -s x pos` stores "pos",
the third token, as its one argument. -/
theorem all_arguments_required_witness :
    ((cli_parse_command_args echo_cmd ["hi"] no_args).map
        (fun r => (r.1, r.2.arg_list 0, r.2.writes)) = some (CLI_ERROR_NONE, some "hi", [(0, 0)]) ∧
      (cli_parse_command_args echo_cmd [] no_args).map (fun r => r.1)
        = some CLI_ERROR_BAD_ARG ∧
      (cli_parse_command_args echo_cmd ["hi", "there"] no_args).map (fun r => r.1)
        = some CLI_ERROR_BAD_ARG ∧
      (cli_parse_command_args advertise_cmd ["-s", "x", "pos"] no_args).map
        (fun r => (r.1, r.2.arg_list 0, r.2.writes))
        = some (CLI_ERROR_NONE, some "pos", [(0, 2)])) ∧
    ((∃ r, cli_parse_command_args echo_cmd ["hi"] no_args = some r ∧
      (r.1 = CLI_ERROR_NONE →
        r.2.args_found = echo_cmd.num_args ∧ r.2.writes.length = echo_cmd.num_args ∧
        stores_ok ["hi"] r.2)) ∧
    ((∀ t ∈ ["hi"], cli_parse_arg_is_help t = false ∧ first_char t ≠ '-') →
      ∃ r, cli_parse_command_args echo_cmd ["hi"] no_args = some r ∧
        r.1 = (if ["hi"].length = echo_cmd.num_args then CLI_ERROR_NONE
          else CLI_ERROR_BAD_ARG) ∧
        (["hi"].length = echo_cmd.num_args →
          ∀ k, k < echo_cmd.num_args → r.2.arg_list k = some (["hi"].getD k "")))) :=
  ⟨by decide, all_arguments_required echo_cmd ["hi"] no_args⟩

/-- C19 fails on the code: a token that begins with "--" goes through
`cli_parse_option` like any token that begins with '-'.  For the sample
command `something` the token "--ab" marks the flags `a` and `b` as found and
the parse returns `CLI_ERROR_NONE`; for the sample command `advertise` the
token "--s" marks `s` as found and assigns it the next token as its argument. -/
theorem long_option_is_accepted :
    (cli_parse_command_args something_cmd ["--ab"] no_args).map
        (fun r => (r.1, (r.2.opt_list 0).value, (r.2.opt_list 1).value, (r.2.opt_list 2).value))
      = some (CLI_ERROR_NONE, true, true, false) ∧
    (cli_parse_command_args advertise_cmd ["--s", "x", "pos"] no_args).map
        (fun r => (r.1, (r.2.opt_list 0).value, (r.2.opt_list 0).arg_value))
      = some (CLI_ERROR_NONE, true, some "x") := by
  decide

/-! ## Help -/

theorem cli_parse_after_loop (cmd : cli_command_s) (argv : List String)
    (arg_list : Nat → Option String) (k : Nat) :
    ∀ (i : Nat) (st : ParseState), cli_parse_after cmd argv arg_list k = some (i, st) →
      k ≤ i ∧ ∀ fuel, cli_parse_loop cmd argv (fuel + k) 0 (parse_start cmd arg_list)
        = cli_parse_loop cmd argv fuel i st := by
  induction k with
  | zero =>
    intro i st h
    simp only [cli_parse_after, Option.some.injEq, Prod.mk.injEq] at h
    obtain ⟨rfl, rfl⟩ := h
    exact ⟨le_refl 0, fun fuel => rfl⟩
  | succ k ih =>
    intro j st' h
    simp only [cli_parse_after] at h
    cases hk : cli_parse_after cmd argv arg_list k with
    | none => rw [hk] at h; cases h
    | some p =>
      obtain ⟨i, st⟩ := p
      rw [hk] at h
      simp only at h
      by_cases hi : i < argv.length
      · rw [if_pos hi] at h
        cases htok : cli_parse_token cmd argv i st with
        | ret rc s => rw [htok] at h; cases h
        | next j' s =>
          rw [htok] at h
          simp only [Option.some.injEq, Prod.mk.injEq] at h
          obtain ⟨rfl, rfl⟩ := h
          obtain ⟨hle, hloop⟩ := ih i st hk
          have hadv := cli_parse_token_advances cmd argv i j' st s htok
          refine ⟨by omega, fun fuel => ?_⟩
          rw [show fuel + (k + 1) = (fuel + 1) + k by omega, hloop (fuel + 1)]
          simp only [cli_parse_loop, hi, if_true, htok]
      · rw [if_neg hi] at h; cases h

theorem cli_parse_token_help (cmd : cli_command_s) (argv : List String) (i : Nat)
    (st : ParseState) (hhelp : cli_parse_arg_is_help (argv.getD i "") = true) :
    cli_parse_token cmd argv i st
      = Step.ret CLI_ERROR_HELP_REQUESTED { st with reads := st.reads ++ [i] } := by
  simp only [cli_parse_token, hhelp, if_true]

theorem cli_parse_help_reached (cmd : cli_command_s) (argv : List String)
    (arg_list : Nat → Option String) (k i : Nat) (st : ParseState)
    (hafter : cli_parse_after cmd argv arg_list k = some (i, st)) (hi : i < argv.length)
    (hhelp : cli_parse_arg_is_help (argv.getD i "") = true) :
    cli_parse_command_args cmd argv arg_list
      = some (CLI_ERROR_HELP_REQUESTED, { st with reads := st.reads ++ [i] }) := by
  obtain ⟨hle, hloop⟩ := cli_parse_after_loop cmd argv arg_list k i st hafter
  obtain ⟨f, hf⟩ : ∃ f, argv.length = (f + 1) + k := ⟨argv.length - k - 1, by omega⟩
  unfold cli_parse_command_args
  rw [hf, hloop (f + 1)]
  simp only [cli_parse_loop, ← hf, hi, if_true, cli_parse_token_help cmd argv i st hhelp]

/-! ## Option tokens -/

/-- The iteration for a token that begins with a dash and is not a help string,
on a command with options: what is done with the result of `cli_parse_option`. -/
theorem cli_parse_token_dash (cmd : cli_command_s) (argv : List String) (i : Nat)
    (st : ParseState) (r : Int × Bool × ParseState)
    (hhelp : cli_parse_arg_is_help (argv.getD i "") = false)
    (hdash : first_char (argv.getD i "") = '-') (hopt : cmd.num_options ≠ 0)
    (hr : cli_parse_option cmd (argv.length - i) argv i false
      { st with reads := st.reads ++ [i] } = r) :
    cli_parse_token cmd argv i st =
      (if r.1 = CLI_ERROR_BAD_ARG then Step.ret r.1 r.2.2
      else if r.1 = CLI_ERROR_OPTION_NOT_FOUND then
        if cmd.num_args ≠ 0 ∧ r.2.2.args_found < cmd.num_args then
          if r.2.1 then Step.next (i + 1 + 1) (store_arg argv i r.2.2)
          else Step.next (i + 1) (store_arg argv i r.2.2)
        else Step.ret CLI_ERROR_BAD_ARG r.2.2
      else if r.2.1 then Step.next (i + 1 + 1) r.2.2
      else Step.next (i + 1) r.2.2) := by
  subst hr
  unfold cli_parse_token
  simp only [hhelp, Bool.false_eq_true, if_false, hdash, if_true, hopt]

theorem mark_flags_empty (tok : String) (i : Nat) (opts : Nat → cli_option_s) :
    mark_flags tok i i opts = opts := by
  funext j
  have h : ¬(i ≤ j ∧ j < i ∧ strchr tok (opts j).name = true) := by
    intro ⟨h1, h2, _⟩; omega
  simp only [mark_flags, if_neg h]

theorem mark_flags_step (tok : String) (i hi : Nat) (opts : Nat → cli_option_s) (hlt : i < hi)
    (hm : strchr tok (opts i).name = true) :
    mark_flags tok (i + 1) hi (Function.update opts i { opts i with value := true })
      = mark_flags tok i hi opts := by
  funext j
  by_cases hj : j = i
  · subst hj
    have h1 : ¬(j + 1 ≤ j ∧ j < hi ∧
        strchr tok ((Function.update opts j { opts j with value := true }) j).name = true) := by
      intro ⟨h, _⟩; omega
    have h2 : j ≤ j ∧ j < hi ∧ strchr tok (opts j).name = true := ⟨le_refl j, hlt, hm⟩
    simp only [mark_flags, if_pos h2, Function.update_same]
    split <;> rfl
  · have hu : Function.update opts i { opts i with value := true } j = opts j :=
      Function.update_noteq hj _ _
    have hiff : (i + 1 ≤ j ∧ j < hi ∧ strchr tok (opts j).name = true) ↔
        (i ≤ j ∧ j < hi ∧ strchr tok (opts j).name = true) := by
      constructor
      · intro ⟨h1, h2, h3⟩; exact ⟨by omega, h2, h3⟩
      · intro ⟨h1, h2, h3⟩; exact ⟨by omega, h2, h3⟩
    simp only [mark_flags, hu, hiff]

theorem mark_flags_skip (tok : String) (i hi : Nat) (opts : Nat → cli_option_s)
    (hm : strchr tok (opts i).name = false) :
    mark_flags tok (i + 1) hi opts = mark_flags tok i hi opts := by
  funext j
  have hiff : (i + 1 ≤ j ∧ j < hi ∧ strchr tok (opts j).name = true) ↔
      (i ≤ j ∧ j < hi ∧ strchr tok (opts j).name = true) := by
    constructor
    · intro ⟨h1, h2, h3⟩; exact ⟨by omega, h2, h3⟩
    · intro ⟨h1, h2, h3⟩
      have hne : j ≠ i := by
        intro h; subst h; rw [hm] at h3; cases h3
      exact ⟨by omega, h2, h3⟩
  simp only [mark_flags, hiff]

/-- The loop of `cli_parse_option` over options none of which both takes an
argument and matches the token: it goes through all of them, marks the matching
ones and remembers whether one matched. -/
theorem cli_parse_option_loop_skip (argc : Nat) (argv : List String) (base : Nat) (n2 : Nat) :
    ∀ (n1 i hi : Nat) (opt_found has_arg : Bool) (st : ParseState), hi = i + n1 →
      (∀ j, i ≤ j → j < hi → ¬((st.opt_list j).has_arg = true ∧
        strchr (argv.getD base "") (st.opt_list j).name = true)) →
      ∃ found : Bool,
        cli_parse_option_loop argc argv base (n1 + n2) i opt_found has_arg st
          = cli_parse_option_loop argc argv base n2 hi found has_arg
              { st with opt_list := mark_flags (argv.getD base "") i hi st.opt_list } ∧
        (found = true ↔ opt_found = true ∨
          ∃ j, i ≤ j ∧ j < hi ∧ strchr (argv.getD base "") (st.opt_list j).name = true) := by
  intro n1
  induction n1 with
  | zero =>
    intro i hi opt_found has_arg st hhi _
    subst hhi
    refine ⟨opt_found, ?_, ?_⟩
    · simp only [Nat.zero_add, Nat.add_zero, mark_flags_empty]
    · constructor
      · intro h; exact Or.inl h
      · rintro (h | ⟨j, h1, h2, _⟩)
        · exact h
        · omega
  | succ n1 ih =>
    intro i hi opt_found has_arg st hhi hno
    have hlt : i < hi := by omega
    rw [show n1 + 1 + n2 = (n1 + n2) + 1 by omega]
    by_cases hm : strchr (argv.getD base "") (st.opt_list i).name = true
    · have hna : (st.opt_list i).has_arg = false := by
        cases h : (st.opt_list i).has_arg with
        | false => rfl
        | true => exact absurd ⟨h, hm⟩ (hno i (le_refl i) hlt)
      have hno' : ∀ j, i + 1 ≤ j → j < hi →
          ¬(((Function.update st.opt_list i { st.opt_list i with value := true }) j).has_arg = true ∧
            strchr (argv.getD base "")
              ((Function.update st.opt_list i { st.opt_list i with value := true }) j).name
              = true) := by
        intro j h1 h2
        rw [Function.update_noteq (by omega : j ≠ i)]
        exact hno j (by omega) h2
      obtain ⟨found, hrun, hfound⟩ := ih (i + 1) hi true has_arg
        { st with opt_list := Function.update st.opt_list i { st.opt_list i with value := true } }
        (by omega) hno'
      have hstep : cli_parse_option_loop argc argv base ((n1 + n2) + 1) i opt_found has_arg st
          = cli_parse_option_loop argc argv base (n1 + n2) (i + 1) true has_arg
              { st with
                opt_list := Function.update st.opt_list i
                  { st.opt_list i with value := true } } := by
        simp only [cli_parse_option_loop]
        rw [if_pos hm, if_neg (by rw [hna]; exact Bool.false_ne_true)]
      refine ⟨found, ?_, ?_⟩
      · rw [hstep, hrun]
        simp only [mark_flags_step (argv.getD base "") i hi st.opt_list hlt hm]
      · constructor
        · intro _; exact Or.inr ⟨i, le_refl i, hlt, hm⟩
        · intro _; exact hfound.mpr (Or.inl rfl)
    · have hm' : strchr (argv.getD base "") (st.opt_list i).name = false := by
        cases h : strchr (argv.getD base "") (st.opt_list i).name with
        | false => rfl
        | true => exact absurd h hm
      obtain ⟨found, hrun, hfound⟩ := ih (i + 1) hi opt_found has_arg st (by omega)
        (fun j h1 h2 => hno j (by omega) h2)
      have hstep : cli_parse_option_loop argc argv base ((n1 + n2) + 1) i opt_found has_arg st
          = cli_parse_option_loop argc argv base (n1 + n2) (i + 1) opt_found has_arg st := by
        simp only [cli_parse_option_loop]
        rw [if_neg hm]
      refine ⟨found, ?_, ?_⟩
      · rw [hstep, hrun, mark_flags_skip (argv.getD base "") i hi st.opt_list hm']
      · rw [hfound]
        constructor
        · rintro (h | ⟨j, h1, h2, h3⟩)
          · exact Or.inl h
          · exact Or.inr ⟨j, by omega, h2, h3⟩
        · rintro (h | ⟨j, h1, h2, h3⟩)
          · exact Or.inl h
          · have hne : j ≠ i := by
              intro h; subst h; rw [hm'] at h3; cases h3
            exact Or.inr ⟨j, by omega, h2, h3⟩

theorem flags_match_iff (tok : String) (n : Nat) (opts : Nat → cli_option_s) :
    flags_match tok n opts = true ↔ ∃ j, 0 ≤ j ∧ j < n ∧ strchr tok (opts j).name = true := by
  simp only [flags_match, List.any_eq_true, List.mem_range]
  constructor
  · rintro ⟨j, h1, h2⟩; exact ⟨j, Nat.zero_le j, h1, h2⟩
  · rintro ⟨j, _, h1, h2⟩; exact ⟨j, h1, h2⟩

/-- The function `cli_parse_option` on options none of which both takes an
argument and matches the token. -/
theorem cli_parse_option_flags (cmd : cli_command_s) (argc : Nat) (argv : List String)
    (base : Nat) (has_arg : Bool) (st : ParseState)
    (hno : ∀ j, j < cmd.num_options → ¬((st.opt_list j).has_arg = true ∧
      strchr (argv.getD base "") (st.opt_list j).name = true)) :
    cli_parse_option cmd argc argv base has_arg st
      = (if flags_match (argv.getD base "") cmd.num_options st.opt_list then CLI_ERROR_NONE
          else CLI_ERROR_OPTION_NOT_FOUND, has_arg,
          { st with
            opt_list := mark_flags (argv.getD base "") 0 cmd.num_options st.opt_list }) := by
  obtain ⟨found, hrun, hfound⟩ := cli_parse_option_loop_skip argc argv base 0 cmd.num_options 0
    cmd.num_options false has_arg st (by omega) (fun j _ h => hno j h)
  have hf : found = flags_match (argv.getD base "") cmd.num_options st.opt_list := by
    rw [Bool.eq_iff_iff, hfound, flags_match_iff]
    simp
  have hrun' : cli_parse_option_loop argc argv base cmd.num_options 0 false has_arg st
      = cli_parse_option_loop argc argv base 0 cmd.num_options found has_arg
          { st with
            opt_list := mark_flags (argv.getD base "") 0 cmd.num_options st.opt_list } := hrun
  unfold cli_parse_option
  rw [hrun', ← hf]
  rfl

theorem mark_flags_none (tok : String) (n : Nat) (opts : Nat → cli_option_s)
    (h : flags_match tok n opts = false) : mark_flags tok 0 n opts = opts := by
  funext j
  have hn : ¬(0 ≤ j ∧ j < n ∧ strchr tok (opts j).name = true) := by
    intro ⟨h1, h2, h3⟩
    have : flags_match tok n opts = true := (flags_match_iff tok n opts).mpr ⟨j, h1, h2, h3⟩
    rw [h] at this
    cases this
  simp only [mark_flags, if_neg hn]

theorem strchr_iff_mem (tok : String) (c : Char) (hc : c ≠ Char.ofNat 0) :
    strchr tok c = true ↔ c ∈ tok.toList := by
  simp [strchr, hc]

/-- C21 (bundled single-character flags).  For a command all of whose options
take no argument, the iteration for a token that begins with a dash and is not
a help string sets `value = true` for exactly the options whose name character
occurs in the token (as `strchr` tests it, which for a name other than NUL is
membership in the characters of the token) and leaves every other option as it
was.  If at least one option matched, the token is an option token: the loop
goes on with the next token and nothing is stored.  If none matched, no option
is changed and the token is taken as a positional argument: stored when the
command has options and still expects an argument, refused with
`CLI_ERROR_BAD_ARG` otherwise. -/
theorem bundled_flags (cmd : cli_command_s) (argv : List String) (i : Nat) (st : ParseState)
    (hnoarg : ∀ j, j < cmd.num_options → (st.opt_list j).has_arg = false)
    (hhelp : cli_parse_arg_is_help (argv.getD i "") = false)
    (hdash : first_char (argv.getD i "") = '-') :
    cli_parse_token cmd argv i st =
      (if flags_match (argv.getD i "") cmd.num_options st.opt_list = true then
        Step.next (i + 1)
          { st with
            opt_list := mark_flags (argv.getD i "") 0 cmd.num_options st.opt_list
            reads := st.reads ++ [i] }
      else if cmd.num_options ≠ 0 ∧ cmd.num_args ≠ 0 ∧ st.args_found < cmd.num_args then
        Step.next (i + 1) (store_arg argv i { st with reads := st.reads ++ [i] })
      else Step.ret CLI_ERROR_BAD_ARG { st with reads := st.reads ++ [i] }) ∧
    (∀ j, mark_flags (argv.getD i "") 0 cmd.num_options st.opt_list j =
      if j < cmd.num_options ∧ strchr (argv.getD i "") (st.opt_list j).name = true then
        { st.opt_list j with value := true }
      else st.opt_list j) ∧
    (flags_match (argv.getD i "") cmd.num_options st.opt_list = true ↔
      ∃ j, j < cmd.num_options ∧ strchr (argv.getD i "") (st.opt_list j).name = true) ∧
    (∀ c, c ≠ Char.ofNat 0 → (strchr (argv.getD i "") c = true ↔ c ∈ (argv.getD i "").toList)) := by
  refine ⟨?_, ?_, ?_, fun c hc => strchr_iff_mem _ c hc⟩
  · by_cases hopt : cmd.num_options = 0
    · have hfm : flags_match (argv.getD i "") cmd.num_options st.opt_list = false := by
        simp [flags_match, hopt]
      rw [hfm]
      simp only [cli_parse_token, hhelp, Bool.false_eq_true, if_false, hdash, if_true, hopt,
        ne_eq, not_true_eq_false, false_and]
    · have hr := cli_parse_option_flags cmd (argv.length - i) argv i false
        { st with reads := st.reads ++ [i] }
        (fun j hj h => by
          have := hnoarg j hj
          rw [show ({ st with reads := st.reads ++ [i] } : ParseState).opt_list = st.opt_list
            from rfl] at h
          rw [this] at h
          exact Bool.false_ne_true h.1)
      rw [cli_parse_token_dash cmd argv i st _ hhelp hdash hopt hr]
      cases hfm : flags_match (argv.getD i "") cmd.num_options st.opt_list with
      | true =>
        have hfm' : flags_match (argv.getD i "") cmd.num_options
            ({ st with reads := st.reads ++ [i] } : ParseState).opt_list = true := hfm
        simp [hfm', CLI_ERROR_NONE, CLI_ERROR_BAD_ARG, CLI_ERROR_OPTION_NOT_FOUND]
      | false =>
        have hfm' : flags_match (argv.getD i "") cmd.num_options
            ({ st with reads := st.reads ++ [i] } : ParseState).opt_list = false := hfm
        have hmark : mark_flags (argv.getD i "") 0 cmd.num_options
            ({ st with reads := st.reads ++ [i] } : ParseState).opt_list = st.opt_list :=
          mark_flags_none _ _ _ hfm
        simp only [hfm', Bool.false_eq_true, if_false, hmark]
        by_cases hroom : cmd.num_args ≠ 0 ∧ st.args_found < cmd.num_args
        · simp [hroom, hopt, CLI_ERROR_NONE, CLI_ERROR_BAD_ARG, CLI_ERROR_OPTION_NOT_FOUND]
        · have hroom' : ¬(cmd.num_options ≠ 0 ∧ cmd.num_args ≠ 0 ∧ st.args_found < cmd.num_args) :=
            fun h => hroom h.2
          rw [if_neg hroom']
          simp [hroom, CLI_ERROR_NONE, CLI_ERROR_BAD_ARG, CLI_ERROR_OPTION_NOT_FOUND]
  · intro j
    simp only [mark_flags, Nat.zero_le, true_and]
  · rw [flags_match_iff]
    constructor
    · rintro ⟨j, _, h1, h2⟩; exact ⟨j, h1, h2⟩
    · rintro ⟨j, h1, h2⟩; exact ⟨j, Nat.zero_le j, h1, h2⟩

/-- The command `something` with the flags a, b, c: the token "-abc" sets all
three, the token "-b" sets only b, and "-x", which matches none, is refused
since the command takes no argument. -/
theorem bundled_flags_witness :
    ((cli_parse_command_args something_cmd ["-abc"] no_args).map
        (fun r => (r.1, (r.2.opt_list 0).value, (r.2.opt_list 1).value, (r.2.opt_list 2).value,
          r.2.args_found))
        = some (CLI_ERROR_NONE, true, true, true, 0) ∧
      (cli_parse_command_args something_cmd ["-b"] no_args).map
        (fun r => (r.1, (r.2.opt_list 0).value, (r.2.opt_list 1).value, (r.2.opt_list 2).value,
          r.2.args_found))
        = some (CLI_ERROR_NONE, false, true, false, 0) ∧
      (cli_parse_command_args something_cmd ["-x"] no_args).map
        (fun r => (r.1, (r.2.opt_list 0).value, (r.2.opt_list 1).value, (r.2.opt_list 2).value,
          r.2.args_found))
        = some (CLI_ERROR_BAD_ARG, false, false, false, 0) ∧
      flags_match "-b" 3 (parse_start something_cmd no_args).opt_list = true ∧
      ((mark_flags "-b" 0 3 (parse_start something_cmd no_args).opt_list 0).value,
        (mark_flags "-b" 0 3 (parse_start something_cmd no_args).opt_list 1).value,
        (mark_flags "-b" 0 3 (parse_start something_cmd no_args).opt_list 2).value)
        = (false, true, false)) ∧
    cli_parse_token something_cmd ["-b"] 0 (parse_start something_cmd no_args) =
      (if flags_match (["-b"].getD 0 "") something_cmd.num_options
          (parse_start something_cmd no_args).opt_list = true then
        Step.next (0 + 1)
          { parse_start something_cmd no_args with
            opt_list := mark_flags (["-b"].getD 0 "") 0 something_cmd.num_options
              (parse_start something_cmd no_args).opt_list
            reads := (parse_start something_cmd no_args).reads ++ [0] }
      else if something_cmd.num_options ≠ 0 ∧ something_cmd.num_args ≠ 0 ∧
          (parse_start something_cmd no_args).args_found < something_cmd.num_args then
        Step.next (0 + 1) (store_arg ["-b"] 0
          { parse_start something_cmd no_args with
            reads := (parse_start something_cmd no_args).reads ++ [0] })
      else Step.ret CLI_ERROR_BAD_ARG
        { parse_start something_cmd no_args with
          reads := (parse_start something_cmd no_args).reads ++ [0] }) :=
  ⟨⟨by decide, by decide, by decide, by decide, by decide⟩,
    (bundled_flags something_cmd ["-b"] 0 (parse_start something_cmd no_args)
      (by decide) (by decide) (by decide)).1⟩

/-! ## An option that takes an argument -/

/-- The function `cli_parse_option` when option `k` is the first one that
takes an argument and matches the token: the matching options before it are
marked, and then either the argument is missing or option `k` takes the token
after the option token. -/
theorem cli_parse_option_arg (cmd : cli_command_s) (argc : Nat) (argv : List String)
    (base : Nat) (has_arg : Bool) (st : ParseState) (k : Nat) (hk : k < cmd.num_options)
    (hha : (st.opt_list k).has_arg = true)
    (hm : strchr (argv.getD base "") (st.opt_list k).name = true)
    (hfirst : ∀ j, j < k → ¬((st.opt_list j).has_arg = true ∧
      strchr (argv.getD base "") (st.opt_list j).name = true)) :
    cli_parse_option cmd argc argv base has_arg st =
      (if argc < 2 then
        (CLI_ERROR_BAD_ARG, has_arg,
          { st with opt_list := mark_flags (argv.getD base "") 0 k st.opt_list })
      else
        (CLI_ERROR_NONE, true,
          { st with
            opt_list := Function.update (mark_flags (argv.getD base "") 0 k st.opt_list) k
              { st.opt_list k with value := true, arg_value := some (argv.getD (base + 1) "") }
            reads := st.reads ++ [base + 1] })) := by
  obtain ⟨m, hm1⟩ : ∃ m, cmd.num_options = k + (m + 1) := ⟨cmd.num_options - k - 1, by omega⟩
  obtain ⟨found, hrun, _⟩ := cli_parse_option_loop_skip argc argv base (m + 1) k 0 k false
    has_arg st (by omega) (fun j _ h => hfirst j h)
  have hkk : mark_flags (argv.getD base "") 0 k st.opt_list k = st.opt_list k := by
    have hn : ¬(0 ≤ k ∧ k < k ∧ strchr (argv.getD base "") (st.opt_list k).name = true) := by
      intro ⟨_, h, _⟩; omega
    simp only [mark_flags, if_neg hn]
  unfold cli_parse_option
  rw [hm1, hrun]
  simp only [cli_parse_option_loop]
  rw [hkk, if_pos hm, if_pos hha]

/-- An iteration that returns makes `cli_parse_command_args` return, when the
loop gets as far as this iteration. -/
theorem cli_parse_ret_reached (cmd : cli_command_s) (argv : List String)
    (arg_list : Nat → Option String) (k i : Nat) (st : ParseState) (rc : Int) (st' : ParseState)
    (hafter : cli_parse_after cmd argv arg_list k = some (i, st)) (hi : i < argv.length)
    (htok : cli_parse_token cmd argv i st = Step.ret rc st') :
    cli_parse_command_args cmd argv arg_list = some (rc, st') := by
  obtain ⟨hle, hloop⟩ := cli_parse_after_loop cmd argv arg_list k i st hafter
  obtain ⟨f, hf⟩ : ∃ f, argv.length = (f + 1) + k := ⟨argv.length - k - 1, by omega⟩
  unfold cli_parse_command_args
  rw [hf, hloop (f + 1)]
  simp only [cli_parse_loop, ← hf, hi, if_true, htok]

/-- An iteration that goes on brings the loop to the index and the state it
goes on with. -/
theorem cli_parse_after_next (cmd : cli_command_s) (argv : List String)
    (arg_list : Nat → Option String) (k i : Nat) (st : ParseState) (j : Nat) (st' : ParseState)
    (hafter : cli_parse_after cmd argv arg_list k = some (i, st)) (hi : i < argv.length)
    (htok : cli_parse_token cmd argv i st = Step.next j st') :
    cli_parse_after cmd argv arg_list (k + 1) = some (j, st') := by
  simp only [cli_parse_after, hafter, hi, if_true, htok]

/-- C22, amended (option with an argument).  For every command: let the iteration
at index `i` handle a token that begins with a dash and is not a help string, and
let option `k` be the first option of the command that takes an argument and
whose name character occurs in the token (as `strchr` tests it).  (a) If
another token `t` follows, option `k` is marked found and its `arg_value` is
`t`, whatever `t` is; the loop goes on at index `i + 2`, so `t` gets no
iteration of its own: it is neither counted nor stored as a positional argument
nor parsed as an option.  (b) If no token follows, the iteration returns
`CLI_ERROR_BAD_ARG`, and so does `cli_parse_command_args` when its loop gets as
far as this token. -/
theorem option_with_argument (cmd : cli_command_s) (argv : List String) (i : Nat)
    (st : ParseState) (k : Nat) (hi : i < argv.length)
    (hhelp : cli_parse_arg_is_help (argv.getD i "") = false)
    (hdash : first_char (argv.getD i "") = '-') (hk : k < cmd.num_options)
    (hha : (st.opt_list k).has_arg = true)
    (hm : strchr (argv.getD i "") (st.opt_list k).name = true)
    (hfirst : ∀ j, j < k → ¬((st.opt_list j).has_arg = true ∧
      strchr (argv.getD i "") (st.opt_list j).name = true)) :
    (i + 1 < argv.length →
      ∃ st', cli_parse_token cmd argv i st = Step.next (i + 2) st' ∧
        st'.opt_list k
          = { st.opt_list k with value := true, arg_value := some (argv.getD (i + 1) "") } ∧
        (∀ j, j ≠ k → st'.opt_list j = mark_flags (argv.getD i "") 0 k st.opt_list j) ∧
        st'.arg_list = st.arg_list ∧ st'.args_found = st.args_found ∧
        st'.writes = st.writes ∧ st'.reads = st.reads ++ [i, i + 1] ∧
        ∀ arg_list n, cli_parse_after cmd argv arg_list n = some (i, st) →
          cli_parse_after cmd argv arg_list (n + 1) = some (i + 2, st')) ∧
    (argv.length ≤ i + 1 →
      (∃ st', cli_parse_token cmd argv i st = Step.ret CLI_ERROR_BAD_ARG st') ∧
      ∀ arg_list n, cli_parse_after cmd argv arg_list n = some (i, st) →
        (cli_parse_command_args cmd argv arg_list).map Prod.fst = some CLI_ERROR_BAD_ARG) := by
  have hopt : cmd.num_options ≠ 0 := by omega
  have hr := cli_parse_option_arg cmd (argv.length - i) argv i false
    { st with reads := st.reads ++ [i] } k hk hha hm hfirst
  have htok := cli_parse_token_dash cmd argv i st _ hhelp hdash hopt hr
  constructor
  · intro hnext
    have hargc : ¬(argv.length - i < 2) := by omega
    rw [if_neg hargc] at htok
    have htok' : cli_parse_token cmd argv i st = Step.next (i + 2)
        { st with
          opt_list := Function.update (mark_flags (argv.getD i "") 0 k st.opt_list) k
            { st.opt_list k with value := true, arg_value := some (argv.getD (i + 1) "") }
          reads := st.reads ++ [i] ++ [i + 1] } := by
      rw [htok]
      simp [CLI_ERROR_NONE, CLI_ERROR_BAD_ARG, CLI_ERROR_OPTION_NOT_FOUND]
    refine ⟨_, htok', ?_, ?_, rfl, rfl, rfl, ?_, ?_⟩
    · simp only [Function.update_same]
    · intro j hj
      simp only [Function.update_noteq hj]
    · simp
    · intro arg_list n hafter
      exact cli_parse_after_next cmd argv arg_list n i st _ _ hafter hi htok'
  · intro hlast
    have hargc : argv.length - i < 2 := by omega
    rw [if_pos hargc] at htok
    have htok' : cli_parse_token cmd argv i st = Step.ret CLI_ERROR_BAD_ARG
        { st with
          opt_list := mark_flags (argv.getD i "") 0 k st.opt_list
          reads := st.reads ++ [i] } := by
      rw [htok]
      simp [CLI_ERROR_BAD_ARG]
    refine ⟨⟨_, htok'⟩, ?_⟩
    intro arg_list n hafter
    rw [cli_parse_ret_reached cmd argv arg_list n i st _ _ hafter hi htok']
    rfl

/-- The command `advertise` (option `s` with an argument) on "-s -h x": the
token "-h" after "-s", a help string that begins with a dash, becomes the
argument of `s` and is skipped, and "x" is the positional argument. -/
theorem option_with_argument_witness :
    ((cli_parse_command_args advertise_cmd ["-s", "-h", "x"] no_args).map
        (fun r => (r.1, (r.2.opt_list 0).value, (r.2.opt_list 0).arg_value))
        = some (CLI_ERROR_NONE, true, some "-h") ∧
      (cli_parse_command_args advertise_cmd ["-s", "-h", "x"] no_args).map
        (fun r => (r.2.arg_list 0, r.2.writes, r.2.reads))
        = some (some "x", [(0, 2)], [0, 1, 2]) ∧
      (cli_parse_command_args advertise_cmd ["x", "-s"] no_args).map Prod.fst
        = some CLI_ERROR_BAD_ARG) ∧
    ((0 + 1 < ["-s", "-h", "x"].length →
      ∃ st', cli_parse_token advertise_cmd ["-s", "-h", "x"] 0 (parse_start advertise_cmd no_args)
          = Step.next (0 + 2) st' ∧
        st'.opt_list 0
          = { (parse_start advertise_cmd no_args).opt_list 0 with
              value := true, arg_value := some (["-s", "-h", "x"].getD (0 + 1) "") } ∧
        (∀ j, j ≠ 0 → st'.opt_list j
          = mark_flags (["-s", "-h", "x"].getD 0 "") 0 0
              (parse_start advertise_cmd no_args).opt_list j) ∧
        st'.arg_list = (parse_start advertise_cmd no_args).arg_list ∧
        st'.args_found = (parse_start advertise_cmd no_args).args_found ∧
        st'.writes = (parse_start advertise_cmd no_args).writes ∧
        st'.reads = (parse_start advertise_cmd no_args).reads ++ [0, 0 + 1] ∧
        ∀ arg_list n, cli_parse_after advertise_cmd ["-s", "-h", "x"] arg_list n
            = some (0, parse_start advertise_cmd no_args) →
          cli_parse_after advertise_cmd ["-s", "-h", "x"] arg_list (n + 1)
            = some (0 + 2, st')) ∧
    (["-s", "-h", "x"].length ≤ 0 + 1 →
      (∃ st', cli_parse_token advertise_cmd ["-s", "-h", "x"] 0
          (parse_start advertise_cmd no_args) = Step.ret CLI_ERROR_BAD_ARG st') ∧
      ∀ arg_list n, cli_parse_after advertise_cmd ["-s", "-h", "x"] arg_list n
          = some (0, parse_start advertise_cmd no_args) →
        (cli_parse_command_args advertise_cmd ["-s", "-h", "x"] arg_list).map Prod.fst
          = some CLI_ERROR_BAD_ARG)) :=
  ⟨⟨by decide, by decide, by decide⟩,
    option_with_argument advertise_cmd ["-s", "-h", "x"] 0 (parse_start advertise_cmd no_args) 0
      (by decide) (by decide) (by decide) (by decide) (by decide) (by decide)
      (fun j hj => absurd hj (Nat.not_lt_zero j))⟩

/-- C22 as stated fails for a token that is a help string: the command
`resize` has the option `h` with an argument, and on "-h 10" the token "-h"
begins with a dash and holds the name character of `h`, another token follows,
but the parse returns `CLI_ERROR_HELP_REQUESTED` with `h` not marked and
without an argument value. -/
theorem help_string_is_no_option_token :
    first_char "-h" = '-' ∧ (resize_cmd.opt_list 0).has_arg = true ∧
    strchr "-h" (resize_cmd.opt_list 0).name = true ∧
    (cli_parse_command_args resize_cmd ["-h", "10"] no_args).map
        (fun r => (r.1, (r.2.opt_list 0).value, (r.2.opt_list 0).arg_value, r.2.reads))
      = some (CLI_ERROR_HELP_REQUESTED, false, none, [0]) :=
  ⟨by decide, by decide, by decide, by decide⟩

/-! ## Dash tokens that are no options -/

/-- C27 (option-less commands reject every dash token).  For a command with
`num_options = 0`: when the loop of `cli_parse_command_args` gets as far as a
token that begins with a dash and is not a help string, the call returns
`CLI_ERROR_BAD_ARG`, however many positional arguments the command still
expects; the token is read and nothing is stored. -/
theorem optionless_rejects_dash (cmd : cli_command_s) (argv : List String)
    (arg_list : Nat → Option String) (n i : Nat) (st : ParseState)
    (hopt : cmd.num_options = 0)
    (hafter : cli_parse_after cmd argv arg_list n = some (i, st)) (hi : i < argv.length)
    (hhelp : cli_parse_arg_is_help (argv.getD i "") = false)
    (hdash : first_char (argv.getD i "") = '-') :
    cli_parse_command_args cmd argv arg_list
      = some (CLI_ERROR_BAD_ARG, { st with reads := st.reads ++ [i] }) := by
  have htok : cli_parse_token cmd argv i st
      = Step.ret CLI_ERROR_BAD_ARG { st with reads := st.reads ++ [i] } := by
    simp only [cli_parse_token, hhelp, Bool.false_eq_true, if_false, hdash, if_true, hopt]
  exact cli_parse_ret_reached cmd argv arg_list n i st _ _ hafter hi htok

/-- The command `echo` takes one argument and no option: "-5" cannot be passed
as its argument, neither as the first token nor after another one. -/
theorem optionless_rejects_dash_witness :
    ((cli_parse_command_args echo_cmd ["-5"] no_args).map
        (fun r => (r.1, r.2.arg_list 0, r.2.args_found, r.2.writes))
        = some (CLI_ERROR_BAD_ARG, none, 0, []) ∧
      echo_cmd.num_args = 1) ∧
    cli_parse_command_args echo_cmd ["-5"] no_args
      = some (CLI_ERROR_BAD_ARG,
          { parse_start echo_cmd no_args with
            reads := (parse_start echo_cmd no_args).reads ++ [0] }) :=
  ⟨⟨by decide, by decide⟩,
    optionless_rejects_dash echo_cmd ["-5"] no_args 0 0 (parse_start echo_cmd no_args)
      (by decide) rfl (by decide) (by decide) (by decide)⟩

/-- C28 as stated fails for a help string: on the command `advertise`, which
has the option `s` and expects one argument, the token "-h" begins with a dash
and holds no option name character, and no argument has been collected; yet it
is not stored as the argument: the parse returns `CLI_ERROR_HELP_REQUESTED`. -/
theorem help_string_is_no_argument :
    advertise_cmd.num_options = 1 ∧ first_char "-h" = '-' ∧
    strchr "-h" (advertise_cmd.opt_list 0).name = false ∧
    (parse_start advertise_cmd no_args).args_found < advertise_cmd.num_args ∧
    (cli_parse_command_args advertise_cmd ["-h"] no_args).map
        (fun r => (r.1, r.2.arg_list 0, r.2.args_found, r.2.writes))
      = some (CLI_ERROR_HELP_REQUESTED, none, 0, []) :=
  ⟨by decide, by decide, by decide, by decide, by decide⟩

/-- C28, amended (unmatched dash token falls back to a positional argument).
For a command with at least one option, take a token that begins with a dash,
is not a help string and holds none of the name characters of the options of
the command (as `strchr` tests it).  When fewer than `num_args` arguments have
been collected, the iteration stores the token as the next positional argument
and goes on with the next token; otherwise it returns `CLI_ERROR_BAD_ARG`, and
so does `cli_parse_command_args` when its loop gets as far as this token.  No
option is modified either way. -/
theorem unmatched_dash_token (cmd : cli_command_s) (argv : List String) (i : Nat)
    (st : ParseState) (hopt : cmd.num_options ≠ 0)
    (hhelp : cli_parse_arg_is_help (argv.getD i "") = false)
    (hdash : first_char (argv.getD i "") = '-')
    (hnone : ∀ j, j < cmd.num_options → strchr (argv.getD i "") (st.opt_list j).name = false) :
    (st.args_found < cmd.num_args →
      cli_parse_token cmd argv i st
        = Step.next (i + 1)
            { st with
              arg_list := Function.update st.arg_list st.args_found (some (argv.getD i ""))
              args_found := st.args_found + 1
              reads := st.reads ++ [i]
              writes := st.writes ++ [(st.args_found, i)] }) ∧
    (¬ st.args_found < cmd.num_args →
      cli_parse_token cmd argv i st
        = Step.ret CLI_ERROR_BAD_ARG { st with reads := st.reads ++ [i] } ∧
      ∀ arg_list n, cli_parse_after cmd argv arg_list n = some (i, st) → i < argv.length →
        cli_parse_command_args cmd argv arg_list
          = some (CLI_ERROR_BAD_ARG, { st with reads := st.reads ++ [i] })) := by
  have hfm : flags_match (argv.getD i "") cmd.num_options st.opt_list = false := by
    cases h : flags_match (argv.getD i "") cmd.num_options st.opt_list with
    | false => rfl
    | true =>
      obtain ⟨j, _, hj, hs⟩ := (flags_match_iff _ _ _).mp h
      rw [hnone j hj] at hs
      cases hs
  have hr : cli_parse_option cmd (argv.length - i) argv i false
      { st with reads := st.reads ++ [i] }
      = (CLI_ERROR_OPTION_NOT_FOUND, false, { st with reads := st.reads ++ [i] }) := by
    rw [cli_parse_option_flags cmd (argv.length - i) argv i false
      { st with reads := st.reads ++ [i] }
      (fun j hj h => by
        have h2 : strchr (argv.getD i "") (st.opt_list j).name = true := h.2
        rw [hnone j hj] at h2
        cases h2)]
    have hfm' : flags_match (argv.getD i "") cmd.num_options
        ({ st with reads := st.reads ++ [i] } : ParseState).opt_list = false := hfm
    have hmark : mark_flags (argv.getD i "") 0 cmd.num_options
        ({ st with reads := st.reads ++ [i] } : ParseState).opt_list = st.opt_list :=
      mark_flags_none _ _ _ hfm
    rw [hfm', hmark]
    rfl
  have htok := cli_parse_token_dash cmd argv i st _ hhelp hdash hopt hr
  constructor
  · intro hroom
    have hroom' : cmd.num_args ≠ 0 ∧ st.args_found < cmd.num_args := ⟨by omega, hroom⟩
    rw [htok]
    simp [hroom', store_arg, CLI_ERROR_BAD_ARG, CLI_ERROR_OPTION_NOT_FOUND]
  · intro hfull
    have htok' : cli_parse_token cmd argv i st
        = Step.ret CLI_ERROR_BAD_ARG { st with reads := st.reads ++ [i] } := by
      rw [htok]
      simp [hfull, CLI_ERROR_BAD_ARG, CLI_ERROR_OPTION_NOT_FOUND]
    refine ⟨htok', ?_⟩
    intro arg_list n hafter hi
    exact cli_parse_ret_reached cmd argv arg_list n i st _ _ hafter hi htok'

/-- The command `advertise` on "-x": the token matches no option and becomes
the positional argument.  The command `something` takes no argument: "-x" is
refused. -/
theorem unmatched_dash_token_witness :
    ((cli_parse_command_args advertise_cmd ["-x"] no_args).map
        (fun r => (r.1, r.2.arg_list 0, r.2.writes, (r.2.opt_list 0).value))
        = some (CLI_ERROR_NONE, some "-x", [(0, 0)], false) ∧
      (cli_parse_command_args something_cmd ["-x"] no_args).map Prod.fst
        = some CLI_ERROR_BAD_ARG) ∧
    cli_parse_token advertise_cmd ["-x"] 0 (parse_start advertise_cmd no_args)
      = Step.next (0 + 1)
          { parse_start advertise_cmd no_args with
            arg_list := Function.update (parse_start advertise_cmd no_args).arg_list
              (parse_start advertise_cmd no_args).args_found (some (["-x"].getD 0 ""))
            args_found := (parse_start advertise_cmd no_args).args_found + 1
            reads := (parse_start advertise_cmd no_args).reads ++ [0]
            writes := (parse_start advertise_cmd no_args).writes
              ++ [((parse_start advertise_cmd no_args).args_found, 0)] } :=
  ⟨⟨by decide, by decide⟩,
    (unmatched_dash_token advertise_cmd ["-x"] 0 (parse_start advertise_cmd no_args)
      (by decide) (by decide) (by decide) (by decide)).1 (by decide)⟩

/-! ## Index safety -/

/-- The loop of `cli_parse_option` reads at most the token after the option
token, and only when the caller has told it that one is there; it then sets
the flag `*has_arg`. -/
theorem cli_parse_option_loop_reads (argc : Nat) (argv : List String) (base : Nat) (n : Nat) :
    ∀ (i : Nat) (opt_found has_arg : Bool) (st : ParseState),
      ((cli_parse_option_loop argc argv base n i opt_found has_arg st).2.2.reads = st.reads ∧
        (cli_parse_option_loop argc argv base n i opt_found has_arg st).2.1 = has_arg) ∨
      (2 ≤ argc ∧
        (cli_parse_option_loop argc argv base n i opt_found has_arg st).2.2.reads
          = st.reads ++ [base + 1] ∧
        (cli_parse_option_loop argc argv base n i opt_found has_arg st).2.1 = true ∧
        (cli_parse_option_loop argc argv base n i opt_found has_arg st).1 = CLI_ERROR_NONE) := by
  induction n with
  | zero => intro i opt_found has_arg st; exact Or.inl ⟨rfl, rfl⟩
  | succ n ih =>
    intro i opt_found has_arg st
    simp only [cli_parse_option_loop]
    split
    · split
      · split
        · exact Or.inl ⟨rfl, rfl⟩
        · rename_i hargc
          exact Or.inr ⟨by omega, rfl, rfl, rfl⟩
      · exact ih _ _ _ _
    · exact ih _ _ _ _

theorem cli_parse_option_reads (cmd : cli_command_s) (argc : Nat) (argv : List String)
    (base : Nat) (has_arg : Bool) (st : ParseState) :
    ((cli_parse_option cmd argc argv base has_arg st).2.2.reads = st.reads ∧
      (cli_parse_option cmd argc argv base has_arg st).2.1 = has_arg) ∨
    (2 ≤ argc ∧
      (cli_parse_option cmd argc argv base has_arg st).2.2.reads = st.reads ++ [base + 1] ∧
      (cli_parse_option cmd argc argv base has_arg st).2.1 = true ∧
      (cli_parse_option cmd argc argv base has_arg st).1 = CLI_ERROR_NONE) :=
  cli_parse_option_loop_reads argc argv base cmd.num_options 0 false has_arg st

theorem indices_ok_frame (cmd : cli_command_s) (argv : List String) (st st' : ParseState)
    (hs : indices_ok cmd argv st) (hf : st'.args_found = st.args_found)
    (hw : st'.writes = st.writes) (hr : ∀ j ∈ st'.reads, j < argv.length) :
    indices_ok cmd argv st' := by
  refine ⟨?_, ?_, hr⟩
  · rw [hf]; exact hs.1
  · rw [hw]; exact hs.2.1

theorem indices_ok_store (cmd : cli_command_s) (argv : List String) (i : Nat) (st : ParseState)
    (hs : indices_ok cmd argv st) (hi : i < argv.length) (hroom : st.args_found < cmd.num_args) :
    indices_ok cmd argv (store_arg argv i st) := by
  refine ⟨?_, ?_, hs.2.2⟩
  · show st.args_found + 1 ≤ cmd.num_args
    omega
  · intro p hp
    have hp' : p ∈ st.writes ++ [(st.args_found, i)] := hp
    rw [List.mem_append, List.mem_singleton] at hp'
    rcases hp' with h | h
    · exact hs.2.1 p h
    · subst h; exact ⟨hroom, hi⟩

/-- One iteration on a token of `argv` keeps the indices in range, and the index
it goes on with is at most `argc`. -/
theorem cli_parse_token_safe (cmd : cli_command_s) (argv : List String) (i : Nat)
    (st : ParseState) (hi : i < argv.length) (hs : indices_ok cmd argv st) :
    (∀ rc st', cli_parse_token cmd argv i st = Step.ret rc st' → indices_ok cmd argv st') ∧
    (∀ j st', cli_parse_token cmd argv i st = Step.next j st' →
      j ≤ argv.length ∧ indices_ok cmd argv st') := by
  have hread : ∀ j ∈ st.reads ++ [i], j < argv.length := by
    intro j hj
    rw [List.mem_append, List.mem_singleton] at hj
    rcases hj with h | h
    · exact hs.2.2 j h
    · subst h; exact hi
  have hs1 : indices_ok cmd argv { st with reads := st.reads ++ [i] } :=
    indices_ok_frame cmd argv st _ hs rfl rfl hread
  by_cases hhelp : cli_parse_arg_is_help (argv.getD i "") = true
  · rw [cli_parse_token_help cmd argv i st hhelp]
    constructor
    · intro rc st' h
      simp only [Step.ret.injEq] at h
      rw [← h.2]; exact hs1
    · intro j st' h; cases h
  have hhelp' : cli_parse_arg_is_help (argv.getD i "") = false := by
    cases h : cli_parse_arg_is_help (argv.getD i "") with
    | false => rfl
    | true => exact absurd h hhelp
  by_cases hdash : first_char (argv.getD i "") = '-'
  · by_cases hopt : cmd.num_options = 0
    · have htok : cli_parse_token cmd argv i st
          = Step.ret CLI_ERROR_BAD_ARG { st with reads := st.reads ++ [i] } := by
        simp only [cli_parse_token, hhelp', Bool.false_eq_true, if_false, hdash, if_true, hopt]
      rw [htok]
      constructor
      · intro rc st' h
        simp only [Step.ret.injEq] at h
        rw [← h.2]; exact hs1
      · intro j st' h; cases h
    · have hfr := cli_parse_option_frame cmd (argv.length - i) argv i false
        { st with reads := st.reads ++ [i] }
      have hrd := cli_parse_option_reads cmd (argv.length - i) argv i false
        { st with reads := st.reads ++ [i] }
      have htok := cli_parse_token_dash cmd argv i st _ hhelp' hdash hopt rfl
      generalize cli_parse_option cmd (argv.length - i) argv i false
        { st with reads := st.reads ++ [i] } = r at hfr hrd htok
      have hsr : indices_ok cmd argv r.2.2 := by
        refine indices_ok_frame cmd argv _ _ hs1 hfr.2.1 hfr.2.2 ?_
        rcases hrd with ⟨h, _⟩ | ⟨hargc, h, _, _⟩
        · rw [h]; exact hread
        · rw [h]
          intro j hj
          rw [List.mem_append, List.mem_singleton] at hj
          rcases hj with h' | h'
          · exact hread j h'
          · subst h'; omega
      have hskip : r.2.1 = true → i + 1 + 1 ≤ argv.length ∧ r.1 = CLI_ERROR_NONE := by
        intro hflag
        rcases hrd with ⟨_, h⟩ | ⟨hargc, _, _, hrc⟩
        · rw [hflag] at h; cases h
        · exact ⟨by omega, hrc⟩
      have hroomr : ∀ h : r.2.2.args_found < cmd.num_args,
          indices_ok cmd argv (store_arg argv i r.2.2) :=
        fun h => indices_ok_store cmd argv i r.2.2 hsr hi h
      rw [htok]
      by_cases h4 : r.1 = CLI_ERROR_BAD_ARG
      · rw [if_pos h4]
        constructor
        · intro rc st' h
          simp only [Step.ret.injEq] at h
          rw [← h.2]; exact hsr
        · intro j st' h; cases h
      rw [if_neg h4]
      by_cases h5 : r.1 = CLI_ERROR_OPTION_NOT_FOUND
      · rw [if_pos h5]
        have hnoskip : ¬ r.2.1 = true := by
          intro hflag
          have := (hskip hflag).2
          rw [h5] at this
          exact absurd this (by decide)
        by_cases h6 : cmd.num_args ≠ 0 ∧ r.2.2.args_found < cmd.num_args
        · rw [if_pos h6, if_neg hnoskip]
          constructor
          · intro rc st' h; cases h
          · intro j st' h
            simp only [Step.next.injEq] at h
            rw [← h.1, ← h.2]
            exact ⟨by omega, hroomr h6.2⟩
        · rw [if_neg h6]
          constructor
          · intro rc st' h
            simp only [Step.ret.injEq] at h
            rw [← h.2]; exact hsr
          · intro j st' h; cases h
      · rw [if_neg h5]
        by_cases h7 : r.2.1 = true
        · rw [if_pos h7]
          constructor
          · intro rc st' h; cases h
          · intro j st' h
            simp only [Step.next.injEq] at h
            rw [← h.1, ← h.2]
            exact ⟨(hskip h7).1, hsr⟩
        · rw [if_neg h7]
          constructor
          · intro rc st' h; cases h
          · intro j st' h
            simp only [Step.next.injEq] at h
            rw [← h.1, ← h.2]
            exact ⟨by omega, hsr⟩
  · rw [cli_parse_token_plain cmd argv i st hhelp' hdash]
    by_cases h9 : cmd.num_args ≠ 0 ∧ st.args_found < cmd.num_args
    · rw [if_pos h9]
      constructor
      · intro rc st' h; cases h
      · intro j st' h
        simp only [Step.next.injEq] at h
        rw [← h.1, ← h.2]
        exact ⟨by omega, indices_ok_store cmd argv i _ hs1 hi h9.2⟩
    · rw [if_neg h9]
      constructor
      · intro rc st' h
        simp only [Step.ret.injEq] at h
        rw [← h.2]; exact hs1
      · intro j st' h; cases h

theorem indices_ok_start (cmd : cli_command_s) (argv : List String)
    (arg_list : Nat → Option String) : indices_ok cmd argv (parse_start cmd arg_list) := by
  refine ⟨Nat.zero_le _, ?_, ?_⟩
  · intro p hp; cases hp
  · intro j hj; cases hj

theorem cli_parse_after_safe (cmd : cli_command_s) (argv : List String)
    (arg_list : Nat → Option String) (k : Nat) :
    ∀ (i : Nat) (st : ParseState), cli_parse_after cmd argv arg_list k = some (i, st) →
      i ≤ argv.length ∧ indices_ok cmd argv st := by
  induction k with
  | zero =>
    intro i st h
    simp only [cli_parse_after, Option.some.injEq, Prod.mk.injEq] at h
    obtain ⟨rfl, rfl⟩ := h
    exact ⟨Nat.zero_le _, indices_ok_start cmd argv arg_list⟩
  | succ k ih =>
    intro j st' h
    simp only [cli_parse_after] at h
    cases hk : cli_parse_after cmd argv arg_list k with
    | none => rw [hk] at h; cases h
    | some p =>
      obtain ⟨i, st⟩ := p
      rw [hk] at h
      simp only at h
      by_cases hi : i < argv.length
      · rw [if_pos hi] at h
        cases htok : cli_parse_token cmd argv i st with
        | ret rc s => rw [htok] at h; cases h
        | next j' s =>
          rw [htok] at h
          simp only [Option.some.injEq, Prod.mk.injEq] at h
          obtain ⟨rfl, rfl⟩ := h
          exact (cli_parse_token_safe cmd argv i st hi (ih i st hk).2).2 _ _ htok
      · rw [if_neg hi] at h; cases h

/-- C29 (parser index safety).  For every command and every token list,
`cli_parse_command_args` returns, and at the return, whatever the code: the
count of collected arguments is at most `num_args`; every store into
`arg_list` went to an index below `num_args`; and every read of `argv` was at
an index below `argc`, the read of the option argument `argv[i + 1]` in
`cli_parse_option` included.  The same holds of every state the loop passes
through, and the loop index never exceeds `argc`, also after the token behind
an option that consumed its argument has been skipped. -/
theorem index_safety (cmd : cli_command_s) (argv : List String)
    (arg_list : Nat → Option String) :
    (∃ r, cli_parse_command_args cmd argv arg_list = some r ∧
      r.2.args_found ≤ cmd.num_args ∧
      (∀ p ∈ r.2.writes, p.1 < cmd.num_args ∧ p.2 < argv.length) ∧
      (∀ j ∈ r.2.reads, j < argv.length)) ∧
    (∀ k i st, cli_parse_after cmd argv arg_list k = some (i, st) →
      i ≤ argv.length ∧ st.args_found ≤ cmd.num_args ∧
      (∀ p ∈ st.writes, p.1 < cmd.num_args ∧ p.2 < argv.length) ∧
      (∀ j ∈ st.reads, j < argv.length)) := by
  constructor
  · obtain ⟨r, hr, hq⟩ := cli_parse_loop_inv cmd argv
      (fun i st => i ≤ argv.length ∧ indices_ok cmd argv st)
      (fun r => indices_ok cmd argv r.2)
      (fun i st rc st' hp hi htok => (cli_parse_token_safe cmd argv i st hi hp.2).1 rc st' htok)
      (fun i st j st' hp hi htok => (cli_parse_token_safe cmd argv i st hi hp.2).2 j st' htok)
      (fun i st hp _ => by
        have h : (cli_parse_finish cmd st).2 = st := by
          unfold cli_parse_finish
          split <;> rfl
        show indices_ok cmd argv (cli_parse_finish cmd st).2
        rw [h]; exact hp.2)
      argv.length 0 (parse_start cmd arg_list)
      ⟨Nat.zero_le _, indices_ok_start cmd argv arg_list⟩ (by omega)
    exact ⟨r, hr, hq⟩
  · intro k i st h
    exact cli_parse_after_safe cmd argv arg_list k i st h

/-! ## Which tokens the loop takes up -/

theorem cli_parse_option_loop_names (argc : Nat) (argv : List String) (base : Nat) (n : Nat) :
    ∀ (i : Nat) (opt_found has_arg : Bool) (st : ParseState) (j : Nat),
      ((cli_parse_option_loop argc argv base n i opt_found has_arg st).2.2.opt_list j).name
          = (st.opt_list j).name ∧
      ((cli_parse_option_loop argc argv base n i opt_found has_arg st).2.2.opt_list j).has_arg
          = (st.opt_list j).has_arg := by
  induction n with
  | zero => intro i opt_found has_arg st j; exact ⟨rfl, rfl⟩
  | succ n ih =>
    intro i opt_found has_arg st j
    simp only [cli_parse_option_loop]
    split
    · split
      · split
        · exact ⟨rfl, rfl⟩
        · by_cases hj : j = i
          · subst hj; simp only [Function.update_same, and_self]
          · simp only [Function.update_noteq hj, and_self]
      · have h := ih (i + 1) true has_arg
          { st with
            opt_list := Function.update st.opt_list i { st.opt_list i with value := true } } j
        by_cases hj : j = i
        · subst hj
          simp only [Function.update_same] at h
          exact h
        · simp only [Function.update_noteq hj] at h
          exact h
    · exact ih _ _ _ _ _

theorem cli_parse_option_names (cmd : cli_command_s) (argc : Nat) (argv : List String)
    (base : Nat) (has_arg : Bool) (st : ParseState) (hs : opts_same cmd st) :
    opts_same cmd (cli_parse_option cmd argc argv base has_arg st).2.2 := by
  intro j
  have h := cli_parse_option_loop_names argc argv base cmd.num_options 0 false has_arg st j
  exact ⟨h.1.trans (hs j).1, h.2.trans (hs j).2⟩

theorem takes_argument_iff (cmd : cli_command_s) (tok : String) (st : ParseState)
    (hs : opts_same cmd st) :
    takes_argument cmd tok = true ↔
      ∃ j, j < cmd.num_options ∧ (st.opt_list j).has_arg = true ∧
        strchr tok (st.opt_list j).name = true := by
  simp only [takes_argument, List.any_eq_true, List.mem_range, Bool.and_eq_true]
  constructor
  · rintro ⟨j, hj, h1, h2⟩
    exact ⟨j, hj, by rw [(hs j).2]; exact h1, by rw [(hs j).1]; exact h2⟩
  · rintro ⟨j, hj, h1, h2⟩
    exact ⟨j, hj, by rw [← (hs j).2]; exact h1, by rw [← (hs j).1]; exact h2⟩

/-- The first option that takes an argument and matches the token, when there is one. -/
theorem first_argument_option (cmd : cli_command_s) (tok : String) (st : ParseState)
    (h : ∃ j, j < cmd.num_options ∧ (st.opt_list j).has_arg = true ∧
      strchr tok (st.opt_list j).name = true) :
    ∃ k, k < cmd.num_options ∧ (st.opt_list k).has_arg = true ∧
      strchr tok (st.opt_list k).name = true ∧
      ∀ j, j < k → ¬((st.opt_list j).has_arg = true ∧ strchr tok (st.opt_list j).name = true) := by
  classical
  refine ⟨Nat.find h, (Nat.find_spec h).1, (Nat.find_spec h).2.1, (Nat.find_spec h).2.2, ?_⟩
  intro j hj hc
  have hlt : j < cmd.num_options := lt_trans hj (Nat.find_spec h).1
  exact Nat.find_min h hj ⟨hlt, hc.1, hc.2⟩

/-- An iteration that goes on goes on with the token after the next one exactly
when the token is an option token whose option takes the next token as its
argument, and with the next token otherwise; the options keep name and
`has_arg`. -/
theorem cli_parse_token_next (cmd : cli_command_s) (argv : List String) (i j : Nat)
    (st st' : ParseState) (hs : opts_same cmd st)
    (h : cli_parse_token cmd argv i st = Step.next j st') :
    opts_same cmd st' ∧
    j = (if (!cli_parse_arg_is_help (argv.getD i "") &&
        decide (first_char (argv.getD i "") = '-') &&
        takes_argument cmd (argv.getD i "")) = true then i + 2 else i + 1) := by
  have hs1 : opts_same cmd { st with reads := st.reads ++ [i] } := hs
  by_cases hhelp : cli_parse_arg_is_help (argv.getD i "") = true
  · rw [cli_parse_token_help cmd argv i st hhelp] at h
    cases h
  have hhelp' : cli_parse_arg_is_help (argv.getD i "") = false := by
    cases hh : cli_parse_arg_is_help (argv.getD i "") with
    | false => rfl
    | true => exact absurd hh hhelp
  by_cases hdash : first_char (argv.getD i "") = '-'
  · by_cases hopt : cmd.num_options = 0
    · have htok : cli_parse_token cmd argv i st
          = Step.ret CLI_ERROR_BAD_ARG { st with reads := st.reads ++ [i] } := by
        simp only [cli_parse_token, hhelp', Bool.false_eq_true, if_false, hdash, if_true, hopt]
      rw [htok] at h
      cases h
    · have hsr := cli_parse_option_names cmd (argv.length - i) argv i false
        { st with reads := st.reads ++ [i] } hs1
      cases hta : takes_argument cmd (argv.getD i "") with
      | true =>
        obtain ⟨k, hk, hha, hm, hfirst⟩ := first_argument_option cmd (argv.getD i "") st
          ((takes_argument_iff cmd (argv.getD i "") st hs).mp hta)
        have hr := cli_parse_option_arg cmd (argv.length - i) argv i false
          { st with reads := st.reads ++ [i] } k hk hha hm hfirst
        have htok := cli_parse_token_dash cmd argv i st _ hhelp' hdash hopt hr
        rw [hr] at hsr
        by_cases hargc : argv.length - i < 2
        · rw [if_pos hargc] at htok
          have htok' : cli_parse_token cmd argv i st = Step.ret CLI_ERROR_BAD_ARG
              { st with
                opt_list := mark_flags (argv.getD i "") 0 k st.opt_list
                reads := st.reads ++ [i] } := by
            rw [htok]
            simp [CLI_ERROR_BAD_ARG]
          rw [htok'] at h
          cases h
        · rw [if_neg hargc] at htok hsr
          have htok' : cli_parse_token cmd argv i st = Step.next (i + 2)
              { st with
                opt_list := Function.update (mark_flags (argv.getD i "") 0 k st.opt_list) k
                  { st.opt_list k with value := true, arg_value := some (argv.getD (i + 1) "") }
                reads := st.reads ++ [i] ++ [i + 1] } := by
            rw [htok]
            simp [CLI_ERROR_NONE, CLI_ERROR_BAD_ARG, CLI_ERROR_OPTION_NOT_FOUND]
          rw [htok'] at h
          simp only [Step.next.injEq] at h
          obtain ⟨rfl, rfl⟩ := h
          refine ⟨hsr, ?_⟩
          rw [hhelp', decide_eq_true hdash]
          rfl
      | false =>
        have hno : ∀ j, j < cmd.num_options →
            ¬((st.opt_list j).has_arg = true ∧
              strchr (argv.getD i "") (st.opt_list j).name = true) := by
          intro j hj hc
          have := (takes_argument_iff cmd (argv.getD i "") st hs).mpr ⟨j, hj, hc.1, hc.2⟩
          rw [hta] at this
          cases this
        have hr := cli_parse_option_flags cmd (argv.length - i) argv i false
          { st with reads := st.reads ++ [i] } hno
        have hidx : i + 1 = (if (!cli_parse_arg_is_help (argv.getD i "") &&
            decide (first_char (argv.getD i "") = '-') && false) = true then i + 2
            else i + 1) := by
          rw [Bool.and_false, if_neg Bool.false_ne_true]
        cases hfm : flags_match (argv.getD i "") cmd.num_options st.opt_list with
        | true =>
          have hfm' : flags_match (argv.getD i "") cmd.num_options
              ({ st with reads := st.reads ++ [i] } : ParseState).opt_list = true := hfm
          rw [hfm'] at hr
          have hsm := hsr
          rw [hr] at hsm
          have htok := cli_parse_token_dash cmd argv i st _ hhelp' hdash hopt hr
          have htok' : cli_parse_token cmd argv i st = Step.next (i + 1)
              { st with
                opt_list := mark_flags (argv.getD i "") 0 cmd.num_options st.opt_list
                reads := st.reads ++ [i] } := by
            rw [htok]
            simp [CLI_ERROR_NONE, CLI_ERROR_BAD_ARG, CLI_ERROR_OPTION_NOT_FOUND]
          rw [htok'] at h
          simp only [Step.next.injEq] at h
          obtain ⟨rfl, rfl⟩ := h
          exact ⟨hsm, hidx⟩
        | false =>
          have hfm' : flags_match (argv.getD i "") cmd.num_options
              ({ st with reads := st.reads ++ [i] } : ParseState).opt_list = false := hfm
          rw [hfm'] at hr
          have hsm := hsr
          rw [hr] at hsm
          have htok := cli_parse_token_dash cmd argv i st _ hhelp' hdash hopt hr
          by_cases hroom : cmd.num_args ≠ 0 ∧ st.args_found < cmd.num_args
          · have htok' : cli_parse_token cmd argv i st = Step.next (i + 1)
                (store_arg argv i
                  { st with
                    opt_list := mark_flags (argv.getD i "") 0 cmd.num_options st.opt_list
                    reads := st.reads ++ [i] }) := by
              rw [htok]
              simp [hroom, CLI_ERROR_NONE, CLI_ERROR_BAD_ARG, CLI_ERROR_OPTION_NOT_FOUND]
            rw [htok'] at h
            simp only [Step.next.injEq] at h
            obtain ⟨rfl, rfl⟩ := h
            exact ⟨hsm, hidx⟩
          · have htok' : cli_parse_token cmd argv i st = Step.ret CLI_ERROR_BAD_ARG
                { st with
                  opt_list := mark_flags (argv.getD i "") 0 cmd.num_options st.opt_list
                  reads := st.reads ++ [i] } := by
              rw [htok]
              simp [hroom, CLI_ERROR_NONE, CLI_ERROR_BAD_ARG, CLI_ERROR_OPTION_NOT_FOUND]
            rw [htok'] at h
            cases h
  · rw [cli_parse_token_plain cmd argv i st hhelp' hdash] at h
    split at h
    · simp only [Step.next.injEq] at h
      obtain ⟨rfl, rfl⟩ := h
      refine ⟨hs1, ?_⟩
      rw [decide_eq_false hdash, Bool.and_false, Bool.false_and, if_neg Bool.false_ne_true]
    · cases h

theorem opts_same_start (cmd : cli_command_s) (arg_list : Nat → Option String) :
    opts_same cmd (parse_start cmd arg_list) :=
  fun _ => ⟨rfl, rfl⟩

/-- The loop passes over a token only when an option took it as its argument:
up to index `i`, either an iteration before `i` has returned, or the loop takes
up token `i` and `i` is not consumed as an argument, or `i` is consumed as an
argument and the loop goes on behind it. -/
theorem cli_parse_reaches (cmd : cli_command_s) (argv : List String)
    (arg_list : Nat → Option String) :
    ∀ i, i ≤ argv.length →
      (∃ k j st rc st', cli_parse_after cmd argv arg_list k = some (j, st) ∧ j < i ∧
        cli_parse_token cmd argv j st = Step.ret rc st') ∨
      (consumed_as_argument cmd argv i = false ∧
        ∃ k st, cli_parse_after cmd argv arg_list k = some (i, st) ∧ opts_same cmd st) ∨
      (consumed_as_argument cmd argv i = true ∧
        ∃ k st, cli_parse_after cmd argv arg_list k = some (i + 1, st) ∧ opts_same cmd st) := by
  intro i
  induction i with
  | zero =>
    intro _
    exact Or.inr (Or.inl ⟨rfl, 0, parse_start cmd arg_list, rfl, opts_same_start cmd arg_list⟩)
  | succ i ih =>
    intro hi
    have hi' : i < argv.length := by omega
    rcases ih (by omega) with ⟨k, j, st, rc, st', h1, h2, h3⟩ | ⟨hc, k, st, hafter, hs⟩ |
      ⟨hc, k, st, hafter, hs⟩
    · exact Or.inl ⟨k, j, st, rc, st', h1, by omega, h3⟩
    · cases htok : cli_parse_token cmd argv i st with
      | ret rc st' => exact Or.inl ⟨k, i, st, rc, st', hafter, by omega, htok⟩
      | next j st' =>
        obtain ⟨hs', hj⟩ := cli_parse_token_next cmd argv i j st st' hs htok
        have hnext := cli_parse_after_next cmd argv arg_list k i st j st' hafter hi' htok
        have hdef : consumed_as_argument cmd argv (i + 1)
            = (!cli_parse_arg_is_help (argv.getD i "") &&
                decide (first_char (argv.getD i "") = '-') &&
                takes_argument cmd (argv.getD i "")) := by
          simp only [consumed_as_argument, hc, Bool.not_false, Bool.true_and]
        cases hcond : (!cli_parse_arg_is_help (argv.getD i "") &&
            decide (first_char (argv.getD i "") = '-') &&
            takes_argument cmd (argv.getD i "")) with
        | true =>
          rw [hcond, if_pos rfl] at hj
          subst hj
          exact Or.inr (Or.inr ⟨by rw [hdef, hcond], k + 1, st', hnext, hs'⟩)
        | false =>
          rw [hcond, if_neg Bool.false_ne_true] at hj
          subst hj
          exact Or.inr (Or.inl ⟨by rw [hdef, hcond], k + 1, st', hnext, hs'⟩)
    · refine Or.inr (Or.inl ⟨?_, k, st, hafter, hs⟩)
      simp only [consumed_as_argument, hc, Bool.not_true, Bool.false_and]

/-- C20 (help request).  The function `cli_parse_arg_is_help` is true exactly
for "help", "--help" and "-h".  For every command, let token `i` be a help
string that is not consumed as the argument of a preceding option (the token
before it is not an unconsumed option token, other than a help string, that
holds the name character of an option with an argument).  Then
`cli_parse_command_args` returns, and it returns `CLI_ERROR_HELP_REQUESTED`
unless the iteration for an earlier token returned with an error code; when no
iteration for an earlier token returns, the loop takes up token `i` and the
parse returns `CLI_ERROR_HELP_REQUESTED` there.  Whenever the loop takes up a
help string the parse returns `CLI_ERROR_HELP_REQUESTED`, and so it does in
particular when the first token is a help string, whatever the command. -/
theorem help_request (cmd : cli_command_s) (argv : List String)
    (arg_list : Nat → Option String) :
    (∀ arg, cli_parse_arg_is_help arg = true ↔ arg = "help" ∨ arg = "--help" ∨ arg = "-h") ∧
    (∀ i, i < argv.length → cli_parse_arg_is_help (argv.getD i "") = true →
      consumed_as_argument cmd argv i = false →
      (∃ r, cli_parse_command_args cmd argv arg_list = some r ∧
        (r.1 = CLI_ERROR_HELP_REQUESTED ∨
          ∃ k j st, cli_parse_after cmd argv arg_list k = some (j, st) ∧ j < i ∧
            cli_parse_token cmd argv j st = Step.ret r.1 r.2 ∧ r.1 ≠ CLI_ERROR_NONE)) ∧
      ((∀ k j st rc st', cli_parse_after cmd argv arg_list k = some (j, st) → j < i →
          cli_parse_token cmd argv j st ≠ Step.ret rc st') →
        ∃ k st, cli_parse_after cmd argv arg_list k = some (i, st) ∧
          cli_parse_command_args cmd argv arg_list
            = some (CLI_ERROR_HELP_REQUESTED, { st with reads := st.reads ++ [i] }))) ∧
    (∀ k i st, cli_parse_after cmd argv arg_list k = some (i, st) → i < argv.length →
      cli_parse_arg_is_help (argv.getD i "") = true →
      cli_parse_command_args cmd argv arg_list
        = some (CLI_ERROR_HELP_REQUESTED, { st with reads := st.reads ++ [i] })) ∧
    (0 < argv.length → cli_parse_arg_is_help (argv.getD 0 "") = true →
      (cli_parse_command_args cmd argv arg_list).map Prod.fst
        = some CLI_ERROR_HELP_REQUESTED) := by
  refine ⟨?_, ?_, ?_, ?_⟩
  · intro arg
    simp [cli_parse_arg_is_help, or_assoc]
  · intro i hi hhelp hcons
    have hreach := cli_parse_reaches cmd argv arg_list i (by omega)
    constructor
    · rcases hreach with ⟨k, j, st, rc, st', h1, h2, h3⟩ | ⟨_, k, st, hafter, _⟩ |
        ⟨hc, _⟩
      · have hret := cli_parse_ret_reached cmd argv arg_list k j st rc st' h1 (by omega) h3
        have hrc : rc ≠ CLI_ERROR_NONE := by
          rcases cli_parse_token_cases cmd argv j st with ⟨rc', st'', h4, h5⟩ |
            ⟨j', st1, _, _, h4 | ⟨h4, _⟩⟩
          · rw [h3] at h4
            simp only [Step.ret.injEq] at h4
            rw [h4.1]; exact h5
          · rw [h3] at h4; cases h4
          · rw [h3] at h4; cases h4
        exact ⟨(rc, st'), hret, Or.inr ⟨k, j, st, h1, h2, h3, hrc⟩⟩
      · exact ⟨_, cli_parse_help_reached cmd argv arg_list k i st hafter hi hhelp, Or.inl rfl⟩
      · rw [hcons] at hc; cases hc
    · intro hno
      rcases hreach with ⟨k, j, st, rc, st', h1, h2, h3⟩ | ⟨_, k, st, hafter, _⟩ |
        ⟨hc, _⟩
      · exact absurd h3 (hno k j st rc st' h1 h2)
      · exact ⟨k, st, hafter, cli_parse_help_reached cmd argv arg_list k i st hafter hi hhelp⟩
      · rw [hcons] at hc; cases hc
  · intro k i st hafter hi hhelp
    exact cli_parse_help_reached cmd argv arg_list k i st hafter hi hhelp
  · intro h0 hhelp
    rw [cli_parse_help_reached cmd argv arg_list 0 0 (parse_start cmd arg_list) rfl h0 hhelp]
    rfl

/-- Help in the sample command `advertise`: in "x -h" the token "-h" is not
consumed as an argument and the parse asks for help at it; in "-s -h" the token
"-h" is consumed as the argument of `s` and no help is asked for; in
"-s -h -h" the second "-h" is not consumed and help is asked for. -/
theorem help_request_witness :
    ((cli_parse_command_args advertise_cmd ["x", "-h"] no_args).map Prod.fst
        = some CLI_ERROR_HELP_REQUESTED ∧
      consumed_as_argument advertise_cmd ["x", "-h"] 1 = false ∧
      consumed_as_argument advertise_cmd ["-s", "-h"] 1 = true ∧
      (cli_parse_command_args advertise_cmd ["-s", "-h"] no_args).map
          (fun r => (r.1, (r.2.opt_list 0).arg_value))
        = some (CLI_ERROR_BAD_ARG, some "-h") ∧
      consumed_as_argument advertise_cmd ["-s", "-h", "-h"] 2 = false ∧
      (cli_parse_command_args advertise_cmd ["-s", "-h", "-h"] no_args).map Prod.fst
        = some CLI_ERROR_HELP_REQUESTED ∧
      (cli_parse_command_args something_cmd ["--help", "-a"] no_args).map Prod.fst
        = some CLI_ERROR_HELP_REQUESTED) ∧
    ∃ r, cli_parse_command_args advertise_cmd ["x", "-h"] no_args = some r ∧
      (r.1 = CLI_ERROR_HELP_REQUESTED ∨
        ∃ k j st, cli_parse_after advertise_cmd ["x", "-h"] no_args k = some (j, st) ∧ j < 1 ∧
          cli_parse_token advertise_cmd ["x", "-h"] j st = Step.ret r.1 r.2 ∧
          r.1 ≠ CLI_ERROR_NONE) :=
  ⟨⟨by decide, by decide, by decide, by decide, by decide, by decide, by decide⟩,
    ((help_request advertise_cmd ["x", "-h"] no_args).2.1 1 (by decide) (by decide)
      (by decide)).1⟩

end CLI
